import Mathlib

/-!
Verification of the `nodes` graph-oriented object model (nodes.py).

The development shallowly embeds the runtime of `nodes.py`:
Python values become `PVal`, a `Node`'s mutable fields become `NodeData`,
`GraphMethod` keeps the capability flag word, the process-wide `Graph`
state (node table, active node, context heap, active context, layer
stack) becomes `State`, and each Python method becomes a state-passing
Lean function.  Exceptions are `Except Err`; since a raised Python
exception leaves all mutations made before the raise in place, fallible
operations return `(Except Err α) × State`, where the returned state is
the state at the moment the exception escaped.  Unbounded Python
recursion (dependency evaluation, invalidation, parent-chain walks) is
modelled with an explicit fuel parameter; fuel exhaustion is reported as
the artificial error `Err.fuelOut`, which no Python path produces.

The underlying user function of a graph method (an arbitrary Python
callable that may read other nodes through the graph and may raise) is
modelled by `reads` (the nodes it reads through bound-method calls, in
order), `raisesAt` (if `some i`, the call raises after `i` successful
reads), and `compute` (the pure result from the values read).  The
state's `evals` counter counts invocations of underlying functions, so
"the function is not called again" is observable.  The node-interning
table is modelled as a total map `NodeId → NodeData`: every node of
interest already exists, which matches `lookupNode` with `create=True`.
-/

namespace Nodes

/-- Python values that flow through the graph: `None`, booleans and
integers (`Node._invalidateCalc` stores the Python literal `False` into
`_calcedValue`, so booleans are distinguished from `None`). -/
inductive PVal where
  | vNone : PVal
  | vBool : Bool → PVal
  | vInt : Int → PVal
deriving DecidableEq, Repr

/-- Node identity; stands for the interning key (owner, method, args). -/
abbrev NodeId := Nat

/-- Flag bit `Settable = 0x1` from nodes.py. -/
def Settable : Nat := 1

/-- Flag bit `Serializable = 0x2` from nodes.py. -/
def Serializable : Nat := 2

/-- Flag word `Saved = Settable | Serializable` from nodes.py. -/
def Saved : Nat := Settable ||| Serializable

/-- Flag bit `Overlayable = 0x4` from nodes.py. -/
def Overlayable : Nat := 4

/-- Embeds `GraphMethod`: the flag word plus the underlying user
function, the latter modelled by the nodes it reads (in order), an
optional raise point, its pure result, and the optional write
delegate (`delegateTo`), which maps the value being set to the list of
`NodeChange`s (target node, new value) it returns. -/
structure GraphMethod where
  flags : Nat := 0
  reads : List NodeId := []
  raisesAt : Option Nat := none
  compute : List PVal → PVal := fun _ => PVal.vNone
  delegateTo : Option (PVal → List (NodeId × PVal)) := none

/-- Embeds `GraphMethod.isSettable`: `self.flags & Settable`, used by
callers for its truthiness. -/
def GraphMethod.isSettable (m : GraphMethod) : Bool :=
  decide (m.flags &&& Settable ≠ 0)

/-- Embeds `GraphMethod.isOverlayable`.  The source reads
`return self.isSettable or self.flags & Overlayable`: `self.isSettable`
lacks the call parentheses, so the first operand is the bound-method
object itself, which is always truthy in Python, and the `or` returns
it.  Every caller only tests the result's truthiness, hence the method
is equivalent to the constant true. -/
def GraphMethod.isOverlayable (_m : GraphMethod) : Bool := true

/-- Embeds `GraphMethod.isSerializable`: `self.flags & Serializable`. -/
def GraphMethod.isSerializable (m : GraphMethod) : Bool :=
  decide (m.flags &&& Serializable ≠ 0)

/-- Embeds `GraphMethod.isSaved`: `self.flags & Saved == Saved`. -/
def GraphMethod.isSaved (m : GraphMethod) : Bool :=
  decide (m.flags &&& Saved = Saved)

/-- Embeds `GraphMethod.delegatesChanges`: `self.delegateTo is not None`. -/
def GraphMethod.delegatesChanges (m : GraphMethod) : Bool :=
  m.delegateTo.isSome

/-- Embeds the mutable fields a `Node` gets in `Node.__init__`:
the three status booleans, the three value slots (initialised to
Python `None`), and the input/output edge sets.  Python `set`s are
represented as duplicate-free lists in insertion order. -/
structure NodeData where
  isOverlaid : Bool := false
  isSet : Bool := false
  isCalced : Bool := false
  overlaidValue : PVal := PVal.vNone
  setVal : PVal := PVal.vNone
  calcedValue : PVal := PVal.vNone
  inputs : List NodeId := []
  outputs : List NodeId := []
deriving DecidableEq, Repr

/-- Embeds `Node.isValid`: `self._isOverlaid or self._isSet or self._isCalced`. -/
def NodeData.isValid (d : NodeData) : Bool :=
  d.isOverlaid || d.isSet || d.isCalced

/-- Embeds the mutable fields of a `GraphContext`: the `_overlays` and
`_state` dictionaries (association lists keyed by node), the `_applied`
and `_removed` sets, the `_populating` flag, the `_parentGraphContext`
reference (an index into the graph's context heap) and the
`activeParentGraphContext` slot written by `__enter__` (absent, i.e.
`none`, until the first entry). -/
structure GraphContext where
  overlays : List (NodeId × PVal) := []
  stash : List (NodeId × PVal) := []
  applied : List NodeId := []
  removed : List NodeId := []
  populating : Bool := true
  parent : Option Nat := none
  saveParent : Option (Option Nat) := none

/-- Runtime errors.  The first three stand for the `RuntimeError`s the
source raises (mutation during evaluation, capability violation,
overlay operation outside a context); `keyError` is Python's `KeyError`
from a dictionary lookup; `userError` is an exception raised by an
underlying user function; `attrError` is Python's `AttributeError`
(e.g. exiting a context that was never entered); `fuelOut` is the
artificial out-of-fuel marker of the embedding. -/
inductive Err where
  | evaluationActive : Err
  | notPermitted : Err
  | noActiveScope : Err
  | keyError : Err
  | userError : Err
  | attrError : Err
  | fuelOut : Err
deriving DecidableEq, Repr

/-- The process-wide graph state: the node table (total, standing for
the interning table with `create=True`), the static method of each
node, `activeNode`, the heap of `GraphContext` objects with the index
of the `activeGraphContext` (`none` for Python `None`), the layer
stack (per layer only its `_activeParentGraphLayer` slot matters) with
the index of the `activeGraphLayer`, and the instrumentation counter
`evals` of user-function invocations. -/
structure State where
  nodes : NodeId → NodeData
  methods : NodeId → GraphMethod
  activeNode : Option NodeId := none
  ctxs : List GraphContext := []
  activeCtx : Option Nat := none
  layers : List (Option Nat) := [none]
  activeLayer : Nat := 0
  evals : Nat := 0

/-- Idempotent insertion into a Python set represented as a list. -/
def addElem (l : List NodeId) (x : NodeId) : List NodeId :=
  if x ∈ l then l else l ++ [x]

/-- Lookup in a dictionary represented as an association list. -/
def alookup : List (NodeId × PVal) → NodeId → Option PVal
  | [], _ => none
  | (k, v) :: rest, n => if k = n then some v else alookup rest n

/-- Dictionary assignment `d[n] = v`: replace in place or append. -/
def aset (l : List (NodeId × PVal)) (n : NodeId) (v : PVal) : List (NodeId × PVal) :=
  if (alookup l n).isSome then
    l.map (fun p => if p.1 = n then (n, v) else p)
  else
    l ++ [(n, v)]

/-- Dictionary deletion `del d[n]` (no-op when the key is absent; all
source call sites guard the deletion). -/
def adel (l : List (NodeId × PVal)) (n : NodeId) : List (NodeId × PVal) :=
  l.filter (fun p => p.1 ≠ n)

/-- Keys of a dictionary, in iteration order. -/
def akeys (l : List (NodeId × PVal)) : List NodeId :=
  l.map Prod.fst

/-- Dictionary update `base.update(own)`. -/
def aupdate (base own : List (NodeId × PVal)) : List (NodeId × PVal) :=
  own.foldl (fun acc p => aset acc p.1 p.2) base

/-- Iterated `overlays.pop(removed)`: removing an absent key raises
`KeyError`, exactly as Python's one-argument `dict.pop`. -/
def popAll : List (NodeId × PVal) → List NodeId → Except Err (List (NodeId × PVal))
  | m, [] => Except.ok m
  | m, k :: rest =>
    if (alookup m k).isSome then popAll (adel m k) rest
    else Except.error Err.keyError

/-- Replace the data of one node in the node table. -/
def State.updNode (st : State) (n : NodeId) (f : NodeData → NodeData) : State :=
  { st with nodes := fun k => if k = n then f (st.nodes k) else st.nodes k }

/-- List element read with a default, for the context heap. -/
def lget : List GraphContext → Nat → GraphContext
  | [], _ => {}
  | c :: _, 0 => c
  | _ :: rest, i + 1 => lget rest i

/-- List element update, for the context heap. -/
def lmodify : List GraphContext → Nat → (GraphContext → GraphContext) → List GraphContext
  | [], _, _ => []
  | c :: rest, 0, f => f c :: rest
  | c :: rest, i + 1, f => c :: lmodify rest i f

/-- Read a context from the heap. -/
def State.ctx (st : State) (cid : Nat) : GraphContext :=
  lget st.ctxs cid

/-- Update a context in the heap. -/
def State.updCtx (st : State) (cid : Nat) (f : GraphContext → GraphContext) : State :=
  { st with ctxs := lmodify st.ctxs cid f }

/-- Option-list element update, for the layer stack. -/
def lsetO : List (Option Nat) → Nat → Option Nat → List (Option Nat)
  | [], _, _ => []
  | _ :: rest, 0, v => v :: rest
  | c :: rest, i + 1, v => c :: lsetO rest i v

/-- Embeds `Graph.isComputing`: `self.activeNode` used for truthiness. -/
def State.isComputing (st : State) : Bool :=
  st.activeNode.isSome

/-- Embeds the edge recording of `Graph.getValue`:
`outputNode.addInput(node); node.addOutput(outputNode)`. -/
def addEdge (st : State) (caller target : NodeId) : State :=
  (st.updNode caller (fun d => { d with inputs := addElem d.inputs target })).updNode
    target (fun d => { d with outputs := addElem d.outputs caller })

mutual

/-- Embeds `Node._invalidateCalc`: recursively invalidate the outputs
(`self._invalidateOutputCalcs()`), then clear `_isCalced` and store the
Python literal `False` into `_calcedValue`. -/
def invalidateCalc : Nat → State → NodeId → State
  | 0, st, _ => st
  | fuel + 1, st, n =>
    let st1 := invalidateList fuel ((st.nodes n).outputs) st
    st1.updNode n (fun d => { d with isCalced := false, calcedValue := PVal.vBool false })

/-- Embeds the loop of `Node._invalidateOutputCalcs`:
`for output in self._outputs: output._invalidateCalc()`.  The fuel is
also consumed per list element, so it bounds the total size of the
traversal, not just its depth. -/
def invalidateList : Nat → List NodeId → State → State
  | 0, _, st => st
  | _ + 1, [], st => st
  | fuel + 1, m :: ms, st => invalidateList fuel ms (invalidateCalc fuel st m)

end

/-- Embeds `Node._invalidateOutputCalcs` as invoked from the write
paths (`setValue`, `clearSet`, `overlayValue`, `clearOverlay`). -/
def invalidateOutputCalcs (fuel : Nat) (st : State) (n : NodeId) : State :=
  invalidateList fuel ((st.nodes n).outputs) st

mutual

/-- Embeds `Graph.getValue` composed with `Node.getValue` and
`Node.calcValue`: save `activeNode` into `outputNode`, make the target
active, record the dependency edge when a caller exists, then return
the overlaid value, else the set value, else the cached calced value,
else invoke the underlying function — which reads its `reads` through
recursive `Graph.getValue` calls and may raise — store the result and
mark the node calced.  The `finally` clause restores `activeNode` on
every exit path, including exceptions. -/
def graphGetValue : Nat → State → NodeId → Except Err PVal × State
  | 0, st, _ => (Except.error Err.fuelOut, st)
  | fuel + 1, st, n =>
    let outputNode := st.activeNode
    let st1 := { st with activeNode := some n }
    let st2 := match outputNode with
      | some c => addEdge st1 c n
      | none => st1
    let nd := st2.nodes n
    if nd.isOverlaid then
      (Except.ok nd.overlaidValue, { st2 with activeNode := outputNode })
    else if nd.isSet then
      (Except.ok nd.setVal, { st2 with activeNode := outputNode })
    else if nd.isCalced then
      (Except.ok nd.calcedValue, { st2 with activeNode := outputNode })
    else
      let m := st2.methods n
      let st3 := { st2 with evals := st2.evals + 1 }
      let readsList := match m.raisesAt with
        | some i => m.reads.take i
        | none => m.reads
      match runReads fuel readsList st3 with
      | (Except.ok vs, st4) =>
        match m.raisesAt with
        | some _ => (Except.error Err.userError, { st4 with activeNode := outputNode })
        | none =>
          let v := m.compute vs
          let st5 := st4.updNode n (fun d => { d with calcedValue := v, isCalced := true })
          (Except.ok v, { st5 with activeNode := outputNode })
      | (Except.error e, st4) => (Except.error e, { st4 with activeNode := outputNode })

/-- Runs the bound-method reads an underlying user function performs,
each through `Graph.getValue`; an exception aborts the remaining reads
and propagates.  The fuel is consumed per list element as well, so it
bounds the total size of the evaluation, not just its depth. -/
def runReads : Nat → List NodeId → State → Except Err (List PVal) × State
  | 0, _, st => (Except.error Err.fuelOut, st)
  | _ + 1, [], st => (Except.ok [], st)
  | fuel + 1, t :: ts, st =>
    match graphGetValue fuel st t with
    | (Except.ok v, st1) =>
      match runReads fuel ts st1 with
      | (Except.ok vs, st2) => (Except.ok (v :: vs), st2)
      | (Except.error e, st2) => (Except.error e, st2)
    | (Except.error e, st1) => (Except.error e, st1)

end

/-- Embeds `Node.setValue`: raise unless the method is settable, else
invalidate the output calcs, store the value and set `_isSet`. -/
def nodeSetValue (fuel : Nat) (st : State) (n : NodeId) (v : PVal) :
    Except Err Unit × State :=
  if !(st.methods n).isSettable then (Except.error Err.notPermitted, st)
  else
    let st1 := invalidateOutputCalcs fuel st n
    (Except.ok (), st1.updNode n (fun d => { d with setVal := v, isSet := true }))

/-- Embeds `Graph.setValue`: raise `EvaluationActive` while computing,
else `node.setValue(value)`. -/
def graphSetValue (fuel : Nat) (st : State) (n : NodeId) (v : PVal) :
    Except Err Unit × State :=
  if st.isComputing then (Except.error Err.evaluationActive, st)
  else nodeSetValue fuel st n v

/-- Embeds `Node.clearSet`: raise unless settable; no-op unless set;
else invalidate output calcs, clear `_isSet` and null the stored value. -/
def nodeClearSet (fuel : Nat) (st : State) (n : NodeId) : Except Err Unit × State :=
  if !(st.methods n).isSettable then (Except.error Err.notPermitted, st)
  else if !(st.nodes n).isSet then (Except.ok (), st)
  else
    let st1 := invalidateOutputCalcs fuel st n
    (Except.ok (), st1.updNode n (fun d => { d with isSet := false, setVal := PVal.vNone }))

/-- Embeds `Graph.clearSet`: raise `EvaluationActive` while computing,
else `node.clearSet()`. -/
def graphClearSet (fuel : Nat) (st : State) (n : NodeId) : Except Err Unit × State :=
  if st.isComputing then (Except.error Err.evaluationActive, st)
  else nodeClearSet fuel st n

/-- Embeds `Node.overlayValue`: raise unless overlayable (never, since
`isOverlayable` is always truthy), else invalidate output calcs, store
the value and set `_isOverlaid`. -/
def nodeOverlayValue (fuel : Nat) (st : State) (n : NodeId) (v : PVal) :
    Except Err Unit × State :=
  if !(st.methods n).isOverlayable then (Except.error Err.notPermitted, st)
  else
    let st1 := invalidateOutputCalcs fuel st n
    (Except.ok (), st1.updNode n (fun d => { d with overlaidValue := v, isOverlaid := true }))

/-- Embeds `Node.clearOverlay`: raise unless overlayable (never);
no-op unless overlaid; else invalidate output calcs, clear
`_isOverlaid` and null the stored value. -/
def nodeClearOverlay (fuel : Nat) (st : State) (n : NodeId) : Except Err Unit × State :=
  if !(st.methods n).isOverlayable then (Except.error Err.notPermitted, st)
  else if !(st.nodes n).isOverlaid then (Except.ok (), st)
  else
    let st1 := invalidateOutputCalcs fuel st n
    (Except.ok (),
      st1.updNode n (fun d => { d with isOverlaid := false, overlaidValue := PVal.vNone }))

/-- Embeds `Node.getOverlay`: raise unless overlaid, else the value. -/
def nodeGetOverlay (st : State) (n : NodeId) : Except Err PVal :=
  if !(st.nodes n).isOverlaid then Except.error Err.userError
  else Except.ok (st.nodes n).overlaidValue

/-- Embeds `GraphContext.allOverlays` (with `includeParent=True`):
with no parent return a copy of `_overlays`; else take the parent's
`allOverlays`, update it with the own entries, then pop every
`_removed` key — `dict.pop` with one argument raises `KeyError` when
the key is absent.  Recursion walks the `parent` indices, which are
strictly decreasing for every context the source can allocate (a
context's parent always exists before it); the fuel argument makes
that explicit. -/
def allOverlaysAux (st : State) : Nat → Nat → Except Err (List (NodeId × PVal))
  | 0, _ => Except.ok []
  | fuel + 1, cid =>
    let c := st.ctx cid
    match c.parent with
    | none => Except.ok c.overlays
    | some p =>
      match allOverlaysAux st fuel p with
      | Except.error e => Except.error e
      | Except.ok base => popAll (aupdate base c.overlays) c.removed

/-- Entry point of `GraphContext.allOverlays`. -/
def allOverlays (st : State) (cid : Nat) : Except Err (List (NodeId × PVal)) :=
  allOverlaysAux st (cid + 1) cid

/-- Embeds `GraphContext.getOverlay`:
`self.allOverlays(includeParent=includeParent)[node]`. -/
def ctxGetOverlay (st : State) (cid : Nat) (n : NodeId) : Except Err PVal :=
  match allOverlays st cid with
  | Except.error e => Except.error e
  | Except.ok m =>
    match alookup m n with
    | some v => Except.ok v
    | none => Except.error Err.keyError

/-- Embeds `GraphContext.addOverlay`: store the binding and unmark the
node as removed. -/
def ctxAddOverlay (st : State) (cid : Nat) (n : NodeId) (v : PVal) : State :=
  st.updCtx cid (fun c =>
    { c with overlays := aset c.overlays n v, removed := c.removed.filter (fun k => k ≠ n) })

/-- Embeds `GraphContext.removeOverlay`: mark the node removed and
delete its binding. -/
def ctxRemoveOverlay (st : State) (cid : Nat) (n : NodeId) : State :=
  st.updCtx cid (fun c =>
    { c with removed := addElem c.removed n, overlays := adel c.overlays n })

/-- Embeds `GraphContext.applyOverlay`: if the node is already overlaid
and not yet applied by this context, stash its current overlay value in
`_state`; then `node.overlayValue(self.getOverlay(node))` and record
the node in `_applied`. -/
def ctxApplyOverlay (fuel : Nat) (st : State) (cid : Nat) (n : NodeId) :
    Except Err Unit × State :=
  let st1 :=
    if (st.nodes n).isOverlaid && !(decide (n ∈ (st.ctx cid).applied)) then
      st.updCtx cid (fun c => { c with stash := aset c.stash n (st.nodes n).overlaidValue })
    else st
  match ctxGetOverlay st1 cid n with
  | Except.error e => (Except.error e, st1)
  | Except.ok v =>
    match nodeOverlayValue fuel st1 n v with
    | (Except.error e, st2) => (Except.error e, st2)
    | (Except.ok _, st2) =>
      (Except.ok (), st2.updCtx cid (fun c => { c with applied := addElem c.applied n }))

/-- Embeds `GraphContext.overlayValue`: `addOverlay` then `applyOverlay`. -/
def ctxOverlayValue (fuel : Nat) (st : State) (cid : Nat) (n : NodeId) (v : PVal) :
    Except Err Unit × State :=
  ctxApplyOverlay fuel (ctxAddOverlay st cid n v) cid n

/-- Embeds `GraphContext.clearOverlay`: when the node was applied by
this context, restore the stashed prior overlay (re-overlaying it) or
clear the node's overlay, drop the binding as well while populating,
and unmark the node as applied; otherwise do nothing. -/
def ctxClearOverlay (fuel : Nat) (st : State) (cid : Nat) (n : NodeId) :
    Except Err Unit × State :=
  if n ∈ (st.ctx cid).applied then
    let step1 : Except Err Unit × State :=
      match alookup (st.ctx cid).stash n with
      | some s =>
        match nodeOverlayValue fuel st n s with
        | (Except.ok _, st1) =>
          (Except.ok (), st1.updCtx cid (fun c => { c with stash := adel c.stash n }))
        | (Except.error e, st1) => (Except.error e, st1)
      | none => nodeClearOverlay fuel st n
    match step1 with
    | (Except.error e, st1) => (Except.error e, st1)
    | (Except.ok _, st1) =>
      let st2 := if (st1.ctx cid).populating then ctxRemoveOverlay st1 cid n else st1
      (Except.ok (), st2.updCtx cid (fun c => { c with applied := c.applied.filter (fun k => k ≠ n) }))
  else (Except.ok (), st)

/-- Embeds `GraphContext.isOverlaid` (the context method):
`node in self._applied`. -/
def ctxIsOverlaid (st : State) (cid : Nat) (n : NodeId) : Bool :=
  decide (n ∈ (st.ctx cid).applied)

/-- Embeds `Graph.overlayValue`: raise `EvaluationActive` while
computing; raise `NoActiveScope` when no context is active; else
delegate to the active context's `overlayValue`. -/
def graphOverlayValue (fuel : Nat) (st : State) (n : NodeId) (v : PVal) :
    Except Err Unit × State :=
  if st.isComputing then (Except.error Err.evaluationActive, st)
  else
    match st.activeCtx with
    | none => (Except.error Err.noActiveScope, st)
    | some cid => ctxOverlayValue fuel st cid n v

/-- Embeds `Graph.clearOverlay`: raise `EvaluationActive` while
computing; raise `NoActiveScope` when no context is active; else
delegate to the active context's `clearOverlay`. -/
def graphClearOverlay (fuel : Nat) (st : State) (n : NodeId) :
    Except Err Unit × State :=
  if st.isComputing then (Except.error Err.evaluationActive, st)
  else
    match st.activeCtx with
    | none => (Except.error Err.noActiveScope, st)
    | some cid => ctxClearOverlay fuel st cid n

/-- Folds `applyOverlay` over the keys of an `allOverlays` snapshot, as
the loop in `GraphContext.__enter__` does; an exception aborts the
loop with the partial mutations kept. -/
def applyAll (fuel : Nat) (cid : Nat) : List NodeId → State → Except Err Unit × State
  | [], st => (Except.ok (), st)
  | n :: rest, st =>
    match ctxApplyOverlay fuel st cid n with
    | (Except.ok _, st1) => applyAll fuel cid rest st1
    | (Except.error e, st1) => (Except.error e, st1)

/-- Folds `clearOverlay` over the keys of an `allOverlays` snapshot, as
the loop in `GraphContext.__exit__` does. -/
def clearAll (fuel : Nat) (cid : Nat) : List NodeId → State → Except Err Unit × State
  | [], st => (Except.ok (), st)
  | n :: rest, st =>
    match ctxClearOverlay fuel st cid n with
    | (Except.ok _, st1) => clearAll fuel cid rest st1
    | (Except.error e, st1) => (Except.error e, st1)

/-- Embeds `GraphContext.__enter__`: remember the prior active context
in `activeParentGraphContext` and make this context active; when not
populating, allocate a fresh transient child context (parent = the
context just made active) and make it active instead; finally apply
every binding of the active context's `allOverlays`.  There is no
`isComputing` check on this path. -/
def ctxEnter (fuel : Nat) (st : State) (cid : Nat) : Except Err Unit × State :=
  let st1 := (st.updCtx cid (fun c => { c with saveParent := some st.activeCtx }))
  let st1 := { st1 with activeCtx := some cid }
  let pr : Nat × State :=
    if !(st1.ctx cid).populating then
      let d : GraphContext := { parent := some cid }
      (st1.ctxs.length, { st1 with ctxs := st1.ctxs ++ [d], activeCtx := some st1.ctxs.length })
    else (cid, st1)
  let aidx := pr.1
  let st2 := pr.2
  match allOverlays st2 aidx with
  | Except.error e => (Except.error e, st2)
  | Except.ok ovs => applyAll fuel aidx (akeys ovs) st2

/-- Embeds `GraphContext.__exit__`: drop the populating flag on first
exit, clear every binding of the active context's `allOverlays`, and
restore the active context from `activeParentGraphContext` (reading
that slot before the context was ever entered is an
`AttributeError`).  There is no `isComputing` check on this path. -/
def ctxExit (fuel : Nat) (st : State) (cid : Nat) : Except Err Unit × State :=
  let st1 :=
    if (st.ctx cid).populating then st.updCtx cid (fun c => { c with populating := false })
    else st
  match st1.activeCtx with
  | none => (Except.error Err.attrError, st1)
  | some a =>
    match allOverlays st1 a with
    | Except.error e => (Except.error e, st1)
    | Except.ok ovs =>
      match clearAll fuel a (akeys ovs) st1 with
      | (Except.error e, st2) => (Except.error e, st2)
      | (Except.ok _, st2) =>
        match (st2.ctx cid).saveParent with
        | none => (Except.error Err.attrError, st2)
        | some prior => (Except.ok (), { st2 with activeCtx := prior })

/-- Embeds `GraphLayer.__enter__`: remember the prior active layer and
make this layer active.  There is no `isComputing` check. -/
def layerEnter (st : State) (lid : Nat) : Except Err Unit × State :=
  let st1 := { st with layers := lsetO st.layers lid (some st.activeLayer) }
  (Except.ok (), { st1 with activeLayer := lid })

/-- Embeds `GraphLayer.__exit__`: restore the active layer from the
slot written by `__enter__` (an `AttributeError` when absent).  There
is no `isComputing` check. -/
def layerExit (st : State) (lid : Nat) : Except Err Unit × State :=
  match st.layers.getD lid none with
  | none => (Except.error Err.attrError, st)
  | some prior => (Except.ok (), { st with activeLayer := prior })

/-- Applies the `NodeChange`s returned by a delegate, each through the
plain `Graph.setValue` (`_graph.setValue(nodeChange.node,
nodeChange.value)`); an exception aborts the loop with the earlier
changes kept. -/
def applyNodeChanges (fuel : Nat) : List (NodeId × PVal) → State → Except Err Unit × State
  | [], st => (Except.ok (), st)
  | (m, w) :: rest, st =>
    match graphSetValue fuel st m w with
    | (Except.ok _, st1) => applyNodeChanges fuel rest st1
    | (Except.error e, st1) => (Except.error e, st1)

/-- Embeds `GraphInstanceMethod.setValue`: when the method delegates
changes, invoke the delegate on the value being set and apply each
returned `NodeChange` by plain `Graph.setValue` — the original node is
never touched directly; otherwise `Graph.setValue` on the own node. -/
def gimSetValue (fuel : Nat) (st : State) (n : NodeId) (v : PVal) :
    Except Err Unit × State :=
  match (st.methods n).delegateTo with
  | some d => applyNodeChanges fuel (d v) st
  | none => graphSetValue fuel st n v

/-! ### Frame lemmas: what invalidation touches and what it leaves alone -/

/-- Relation between a state and the result of an invalidation pass:
every field is untouched except that `isCalced`/`calcedValue` slots may
be cleared (to `False`); a node still calced afterwards kept its cached
value. -/
structure CalcOnly (st st' : State) : Prop where
  methodsEq : st'.methods = st.methods
  activeNodeEq : st'.activeNode = st.activeNode
  ctxsEq : st'.ctxs = st.ctxs
  activeCtxEq : st'.activeCtx = st.activeCtx
  layersEq : st'.layers = st.layers
  activeLayerEq : st'.activeLayer = st.activeLayer
  evalsEq : st'.evals = st.evals
  isOverlaidEq : ∀ n, (st'.nodes n).isOverlaid = (st.nodes n).isOverlaid
  overlaidValueEq : ∀ n, (st'.nodes n).overlaidValue = (st.nodes n).overlaidValue
  isSetEq : ∀ n, (st'.nodes n).isSet = (st.nodes n).isSet
  setValEq : ∀ n, (st'.nodes n).setVal = (st.nodes n).setVal
  inputsEq : ∀ n, (st'.nodes n).inputs = (st.nodes n).inputs
  outputsEq : ∀ n, (st'.nodes n).outputs = (st.nodes n).outputs
  calcKeep : ∀ n, (st'.nodes n).isCalced = true →
    (st.nodes n).isCalced = true ∧ (st'.nodes n).calcedValue = (st.nodes n).calcedValue

theorem calcOnly_refl (st : State) : CalcOnly st st :=
  ⟨rfl, rfl, rfl, rfl, rfl, rfl, rfl, fun _ => rfl, fun _ => rfl, fun _ => rfl,
    fun _ => rfl, fun _ => rfl, fun _ => rfl, fun _ h => ⟨h, rfl⟩⟩

theorem calcOnly_trans {s1 s2 s3 : State} (h12 : CalcOnly s1 s2) (h23 : CalcOnly s2 s3) :
    CalcOnly s1 s3 := by
  refine ⟨h23.methodsEq.trans h12.methodsEq, h23.activeNodeEq.trans h12.activeNodeEq,
    h23.ctxsEq.trans h12.ctxsEq, h23.activeCtxEq.trans h12.activeCtxEq,
    h23.layersEq.trans h12.layersEq, h23.activeLayerEq.trans h12.activeLayerEq,
    h23.evalsEq.trans h12.evalsEq,
    fun n => (h23.isOverlaidEq n).trans (h12.isOverlaidEq n),
    fun n => (h23.overlaidValueEq n).trans (h12.overlaidValueEq n),
    fun n => (h23.isSetEq n).trans (h12.isSetEq n),
    fun n => (h23.setValEq n).trans (h12.setValEq n),
    fun n => (h23.inputsEq n).trans (h12.inputsEq n),
    fun n => (h23.outputsEq n).trans (h12.outputsEq n), fun n h => ?_⟩
  obtain ⟨h2, hv2⟩ := h23.calcKeep n h
  obtain ⟨h1, hv1⟩ := h12.calcKeep n h2
  exact ⟨h1, hv2.trans hv1⟩

theorem updNode_nodes_eq (st : State) (n : NodeId) (f : NodeData → NodeData) (m : NodeId) :
    ((st.updNode n f).nodes m) = if m = n then f (st.nodes m) else st.nodes m := by
  simp [State.updNode]

theorem calcOnly_clearNode (st : State) (n : NodeId) :
    CalcOnly st (st.updNode n
      (fun d => { d with isCalced := false, calcedValue := PVal.vBool false })) := by
  refine ⟨rfl, rfl, rfl, rfl, rfl, rfl, rfl, ?_, ?_, ?_, ?_, ?_, ?_, ?_⟩ <;>
    intro m <;> simp [State.updNode] <;> split <;> simp_all

theorem invalidate_calcOnly (fuel : Nat) :
    (∀ st n, CalcOnly st (invalidateCalc fuel st n)) ∧
      (∀ l st, CalcOnly st (invalidateList fuel l st)) := by
  induction fuel with
  | zero =>
    constructor
    · intro st n; exact calcOnly_refl st
    · intro l st; exact calcOnly_refl st
  | succ f ih =>
    constructor
    · intro st n
      have h1 := ih.2 ((st.nodes n).outputs) st
      exact calcOnly_trans h1 (calcOnly_clearNode _ n)
    · intro l st
      cases l with
      | nil => exact calcOnly_refl st
      | cons m ms => exact calcOnly_trans (ih.1 st m) (ih.2 ms _)

theorem invalidateCalc_calcOnly (fuel : Nat) (st : State) (n : NodeId) :
    CalcOnly st (invalidateCalc fuel st n) :=
  (invalidate_calcOnly fuel).1 st n

theorem invalidateList_calcOnly (fuel : Nat) (l : List NodeId) (st : State) :
    CalcOnly st (invalidateList fuel l st) :=
  (invalidate_calcOnly fuel).2 l st

theorem invalidateOutputCalcs_calcOnly (fuel : Nat) (st : State) (n : NodeId) :
    CalcOnly st (invalidateOutputCalcs fuel st n) :=
  invalidateList_calcOnly fuel _ st

/-! ### Frame lemmas for evaluation -/

/-- Relation between a state and any state reached during or after a
`graphGetValue` run: methods, contexts, layers and every node's four
set/overlay fields are untouched; edge sets only grow; a node that was
calced keeps its cached value. -/
structure EvalCore (st st' : State) : Prop where
  methodsEq : st'.methods = st.methods
  ctxsEq : st'.ctxs = st.ctxs
  activeCtxEq : st'.activeCtx = st.activeCtx
  layersEq : st'.layers = st.layers
  activeLayerEq : st'.activeLayer = st.activeLayer
  evalsMono : st.evals ≤ st'.evals
  isOverlaidEq : ∀ n, (st'.nodes n).isOverlaid = (st.nodes n).isOverlaid
  overlaidValueEq : ∀ n, (st'.nodes n).overlaidValue = (st.nodes n).overlaidValue
  isSetEq : ∀ n, (st'.nodes n).isSet = (st.nodes n).isSet
  setValEq : ∀ n, (st'.nodes n).setVal = (st.nodes n).setVal
  inputsMono : ∀ n, (st.nodes n).inputs ⊆ (st'.nodes n).inputs
  outputsMono : ∀ n, (st.nodes n).outputs ⊆ (st'.nodes n).outputs
  calcMono : ∀ n, (st.nodes n).isCalced = true →
    (st'.nodes n).isCalced = true ∧ (st'.nodes n).calcedValue = (st.nodes n).calcedValue

theorem evalCore_refl (st : State) : EvalCore st st :=
  ⟨rfl, rfl, rfl, rfl, rfl, Nat.le_refl _, fun _ => rfl, fun _ => rfl, fun _ => rfl,
    fun _ => rfl, fun _ => List.Subset.refl _, fun _ => List.Subset.refl _,
    fun _ h => ⟨h, rfl⟩⟩

theorem evalCore_trans {s1 s2 s3 : State} (h12 : EvalCore s1 s2) (h23 : EvalCore s2 s3) :
    EvalCore s1 s3 := by
  refine ⟨h23.methodsEq.trans h12.methodsEq, h23.ctxsEq.trans h12.ctxsEq,
    h23.activeCtxEq.trans h12.activeCtxEq, h23.layersEq.trans h12.layersEq,
    h23.activeLayerEq.trans h12.activeLayerEq,
    Nat.le_trans h12.evalsMono h23.evalsMono,
    fun n => (h23.isOverlaidEq n).trans (h12.isOverlaidEq n),
    fun n => (h23.overlaidValueEq n).trans (h12.overlaidValueEq n),
    fun n => (h23.isSetEq n).trans (h12.isSetEq n),
    fun n => (h23.setValEq n).trans (h12.setValEq n),
    fun n => (h12.inputsMono n).trans (h23.inputsMono n),
    fun n => (h12.outputsMono n).trans (h23.outputsMono n), fun n h => ?_⟩
  obtain ⟨h2, hv2⟩ := h12.calcMono n h
  obtain ⟨h3, hv3⟩ := h23.calcMono n h2
  exact ⟨h3, hv3.trans hv2⟩

theorem EvalCore.of_activeNode (st : State) (a : Option NodeId) :
    EvalCore st { st with activeNode := a } :=
  ⟨rfl, rfl, rfl, rfl, rfl, Nat.le_refl _, fun _ => rfl, fun _ => rfl, fun _ => rfl,
    fun _ => rfl, fun _ => List.Subset.refl _, fun _ => List.Subset.refl _,
    fun _ h => ⟨h, rfl⟩⟩

theorem EvalCore.restore {st s : State} (h : EvalCore st s) (a : Option NodeId) :
    EvalCore st { s with activeNode := a } :=
  evalCore_trans h (EvalCore.of_activeNode s a)

theorem EvalCore.of_evalsBump (st : State) :
    EvalCore st { st with evals := st.evals + 1 } :=
  ⟨rfl, rfl, rfl, rfl, rfl, Nat.le_succ _, fun _ => rfl, fun _ => rfl, fun _ => rfl,
    fun _ => rfl, fun _ => List.Subset.refl _, fun _ => List.Subset.refl _,
    fun _ h => ⟨h, rfl⟩⟩

theorem subset_addElem (l : List NodeId) (x : NodeId) : l ⊆ addElem l x := by
  unfold addElem; split
  · exact List.Subset.refl _
  · exact List.subset_append_left _ _

theorem mem_addElem_self (l : List NodeId) (x : NodeId) : x ∈ addElem l x := by
  unfold addElem; split
  · assumption
  · simp

theorem mem_addElem_iff (l : List NodeId) (x y : NodeId) :
    y ∈ addElem l x ↔ y ∈ l ∨ y = x := by
  unfold addElem; split
  · constructor
    · exact fun h => Or.inl h
    · rintro (h | h)
      · exact h
      · simpa [h] using (by assumption : x ∈ l)
  · simp

theorem addEdge_evalCore (st : State) (c n : NodeId) : EvalCore st (addEdge st c n) := by
  refine ⟨rfl, rfl, rfl, rfl, rfl, Nat.le_refl _, ?_, ?_, ?_, ?_, ?_, ?_, ?_⟩ <;>
    intro m <;> simp only [addEdge, State.updNode] <;> split <;> split <;>
      simp_all [subset_addElem, List.Subset.refl]

theorem EvalCore.calcStore {st st' : State} (h : EvalCore st st') (n : NodeId) (v : PVal)
    (hn : (st.nodes n).isCalced = false) :
    EvalCore st (st'.updNode n (fun d => { d with calcedValue := v, isCalced := true })) := by
  refine ⟨h.methodsEq, h.ctxsEq, h.activeCtxEq, h.layersEq, h.activeLayerEq,
    h.evalsMono, ?_, ?_, ?_, ?_, ?_, ?_, ?_⟩ <;> intro m <;> by_cases hm : m = n
  · subst hm; simpa [State.updNode] using h.isOverlaidEq m
  · simpa [State.updNode, hm] using h.isOverlaidEq m
  · subst hm; simpa [State.updNode] using h.overlaidValueEq m
  · simpa [State.updNode, hm] using h.overlaidValueEq m
  · subst hm; simpa [State.updNode] using h.isSetEq m
  · simpa [State.updNode, hm] using h.isSetEq m
  · subst hm; simpa [State.updNode] using h.setValEq m
  · simpa [State.updNode, hm] using h.setValEq m
  · subst hm; simpa [State.updNode] using h.inputsMono m
  · simpa [State.updNode, hm] using h.inputsMono m
  · subst hm; simpa [State.updNode] using h.outputsMono m
  · simpa [State.updNode, hm] using h.outputsMono m
  · subst hm; intro hc; rw [hn] at hc; exact absurd hc (by simp)
  · simpa [State.updNode, hm] using h.calcMono m

theorem runReads_core_of_eq {f : Nat}
    (ih : ∀ l st, EvalCore st (runReads f l st).2 ∧
      (runReads f l st).2.activeNode = st.activeNode)
    {l : List NodeId} {s : State} {r : Except Err (List PVal)} {s' : State}
    (heq : runReads f l s = (r, s')) :
    EvalCore s s' ∧ s'.activeNode = s.activeNode := by
  have h := ih l s
  rw [heq] at h
  exact h

theorem getValue_core_of_eq {f : Nat}
    (ih : ∀ st n, EvalCore st (graphGetValue f st n).2 ∧
      (graphGetValue f st n).2.activeNode = st.activeNode)
    {t : NodeId} {s : State} {r : Except Err PVal} {s' : State}
    (heq : graphGetValue f s t = (r, s')) :
    EvalCore s s' ∧ s'.activeNode = s.activeNode := by
  have h := ih s t
  rw [heq] at h
  exact h

theorem getValue_frame (fuel : Nat) :
    (∀ st n, EvalCore st (graphGetValue fuel st n).2 ∧
        (graphGetValue fuel st n).2.activeNode = st.activeNode) ∧
      (∀ l st, EvalCore st (runReads fuel l st).2 ∧
        (runReads fuel l st).2.activeNode = st.activeNode) := by
  induction fuel with
  | zero =>
    exact ⟨fun st n => ⟨evalCore_refl st, rfl⟩, fun l st => ⟨evalCore_refl st, rfl⟩⟩
  | succ f ih =>
    constructor
    · intro st n
      cases hA : st.activeNode with
      | none =>
        have hcore2 : EvalCore st { st with activeNode := some n } :=
          EvalCore.of_activeNode st _
        simp only [graphGetValue, hA]
        split
        · exact ⟨hcore2.restore _, rfl⟩
        split
        · exact ⟨hcore2.restore _, rfl⟩
        split
        · exact ⟨hcore2.restore _, rfl⟩
        case _ hno hns hnc =>
          have hcalcF : (st.nodes n).isCalced = false := by
            cases hcc : (st.nodes n).isCalced
            · rfl
            · have := (hcore2.calcMono n hcc).1
              simp_all
          split
          case _ vs st4 heq =>
            have hc4 := (runReads_core_of_eq ih.2 heq).1
            have hcore4 : EvalCore st st4 :=
              evalCore_trans (evalCore_trans hcore2 (EvalCore.of_evalsBump _)) hc4
            split
            · exact ⟨hcore4.restore _, rfl⟩
            · exact ⟨(hcore4.calcStore n _ hcalcF).restore _, rfl⟩
          case _ e st4 heq =>
            have hc4 := (runReads_core_of_eq ih.2 heq).1
            exact ⟨(evalCore_trans (evalCore_trans hcore2 (EvalCore.of_evalsBump _)) hc4).restore _, rfl⟩
      | some c =>
        have hcore2 : EvalCore st (addEdge { st with activeNode := some n } c n) :=
          evalCore_trans (EvalCore.of_activeNode st _) (addEdge_evalCore _ c n)
        simp only [graphGetValue, hA]
        split
        · exact ⟨hcore2.restore _, rfl⟩
        split
        · exact ⟨hcore2.restore _, rfl⟩
        split
        · exact ⟨hcore2.restore _, rfl⟩
        case _ hno hns hnc =>
          have hcalcF : (st.nodes n).isCalced = false := by
            cases hcc : (st.nodes n).isCalced
            · rfl
            · have := (hcore2.calcMono n hcc).1
              simp_all
          split
          case _ vs st4 heq =>
            have hc4 := (runReads_core_of_eq ih.2 heq).1
            have hcore4 : EvalCore st st4 :=
              evalCore_trans (evalCore_trans hcore2 (EvalCore.of_evalsBump _)) hc4
            split
            · exact ⟨hcore4.restore _, rfl⟩
            · exact ⟨(hcore4.calcStore n _ hcalcF).restore _, rfl⟩
          case _ e st4 heq =>
            have hc4 := (runReads_core_of_eq ih.2 heq).1
            exact ⟨(evalCore_trans (evalCore_trans hcore2 (EvalCore.of_evalsBump _)) hc4).restore _, rfl⟩
    · intro l st
      cases l with
      | nil => exact ⟨evalCore_refl st, rfl⟩
      | cons t ts =>
        simp only [runReads]
        split
        case _ v st1 heq =>
          obtain ⟨h1c, h1a⟩ := getValue_core_of_eq ih.1 heq
          split
          case _ vs st2 heq2 =>
            obtain ⟨h2c, h2a⟩ := runReads_core_of_eq ih.2 heq2
            exact ⟨evalCore_trans h1c h2c, h2a.trans h1a⟩
          case _ e st2 heq2 =>
            obtain ⟨h2c, h2a⟩ := runReads_core_of_eq ih.2 heq2
            exact ⟨evalCore_trans h1c h2c, h2a.trans h1a⟩
        case _ e st1 heq =>
          obtain ⟨h1c, h1a⟩ := getValue_core_of_eq ih.1 heq
          exact ⟨h1c, h1a⟩

/-! ### The set of nodes an invalidation pass touches -/

mutual

/-- The nodes whose calc status an `invalidateCalc` call clears: the
recursive closure over output edges, computed on the starting state
(sound because invalidation never changes edges). -/
def invTouched : Nat → State → NodeId → List NodeId
  | 0, _, _ => []
  | fuel + 1, st, n => invTouchedList fuel ((st.nodes n).outputs) st ++ [n]

/-- List version of `invTouched`, mirroring `invalidateList`. -/
def invTouchedList : Nat → List NodeId → State → List NodeId
  | 0, _, _ => []
  | _ + 1, [], _ => []
  | fuel + 1, m :: ms, st => invTouched fuel st m ++ invTouchedList fuel ms st

end

theorem invTouched_congr (fuel : Nat) {st st' : State}
    (houts : ∀ x, (st'.nodes x).outputs = (st.nodes x).outputs) :
    (∀ n, invTouched fuel st' n = invTouched fuel st n) ∧
      (∀ l, invTouchedList fuel l st' = invTouchedList fuel l st) := by
  induction fuel with
  | zero => exact ⟨fun _ => rfl, fun _ => rfl⟩
  | succ f ih =>
    constructor
    · intro n
      simp only [invTouched, houts n, ih.2]
    · intro l
      cases l with
      | nil => rfl
      | cons m ms => simp only [invTouchedList, ih.1, ih.2]

theorem invalidate_untouched (fuel : Nat) :
    (∀ st n m, m ∉ invTouched fuel st n →
      ((invalidateCalc fuel st n).nodes m) = st.nodes m) ∧
      (∀ l st m, m ∉ invTouchedList fuel l st →
        ((invalidateList fuel l st).nodes m) = st.nodes m) := by
  induction fuel with
  | zero => exact ⟨fun _ _ _ _ => rfl, fun _ _ _ _ => rfl⟩
  | succ f ih =>
    constructor
    · intro st n m hm
      simp only [invTouched, List.mem_append, List.mem_singleton] at hm
      push_neg at hm
      have h1 := ih.2 ((st.nodes n).outputs) st m hm.1
      simp only [invalidateCalc, State.updNode]
      rw [if_neg hm.2]
      exact h1
    · intro l st m hm
      cases l with
      | nil => rfl
      | cons k ks =>
        simp only [invTouchedList, List.mem_append] at hm
        push_neg at hm
        have h1 := ih.1 st k m hm.1
        have houts : ∀ x, ((invalidateCalc f st k).nodes x).outputs = (st.nodes x).outputs :=
          (invalidateCalc_calcOnly f st k).outputsEq
        have hm2 : m ∉ invTouchedList f ks (invalidateCalc f st k) := by
          rw [(invTouched_congr f houts).2 ks]
          exact hm.2
        have h2 := ih.2 ks (invalidateCalc f st k) m hm2
        simp only [invalidateList]
        rw [h2, h1]

/-! ### Small computation lemmas -/

theorem addEdge_isCalced (st : State) (c n m : NodeId) :
    ((addEdge st c n).nodes m).isCalced = (st.nodes m).isCalced := by
  simp only [addEdge, State.updNode]
  split <;> split <;> rfl

theorem addEdge_calcedValue (st : State) (c n m : NodeId) :
    ((addEdge st c n).nodes m).calcedValue = (st.nodes m).calcedValue := by
  simp only [addEdge, State.updNode]
  split <;> split <;> rfl

theorem addEdge_evals (st : State) (c n : NodeId) :
    (addEdge st c n).evals = st.evals := rfl

theorem addEdge_methods (st : State) (c n : NodeId) :
    (addEdge st c n).methods = st.methods := rfl

@[simp] theorem addEdge_isOverlaid (st : State) (c n m : NodeId) :
    ((addEdge st c n).nodes m).isOverlaid = (st.nodes m).isOverlaid :=
  (addEdge_evalCore st c n).isOverlaidEq m

@[simp] theorem addEdge_isSet (st : State) (c n m : NodeId) :
    ((addEdge st c n).nodes m).isSet = (st.nodes m).isSet :=
  (addEdge_evalCore st c n).isSetEq m

@[simp] theorem addEdge_overlaidValue (st : State) (c n m : NodeId) :
    ((addEdge st c n).nodes m).overlaidValue = (st.nodes m).overlaidValue :=
  (addEdge_evalCore st c n).overlaidValueEq m

@[simp] theorem addEdge_setVal (st : State) (c n m : NodeId) :
    ((addEdge st c n).nodes m).setVal = (st.nodes m).setVal :=
  (addEdge_evalCore st c n).setValEq m

/-! ### C1: value precedence in `Node.getValue` -/

/-- C1: for every node, `getValue` returns the value of the
highest-priority status present, with precedence
Overlaid > Set > Computed: an overlaid node returns its overlaid
value; else a set node returns its set value; else a calced node
returns the cached computed value without invoking the underlying
function (the invocation counter is unchanged); else the function is
invoked (the counter grows) and the returned value is the freshly
cached computed value. -/
theorem claim_C1_getValue_precedence (fuel : Nat) (st : State) (n : NodeId) :
    ((st.nodes n).isOverlaid = true →
      (graphGetValue (fuel + 1) st n).1 = Except.ok (st.nodes n).overlaidValue) ∧
    ((st.nodes n).isOverlaid = false → (st.nodes n).isSet = true →
      (graphGetValue (fuel + 1) st n).1 = Except.ok (st.nodes n).setVal) ∧
    ((st.nodes n).isOverlaid = false → (st.nodes n).isSet = false →
        (st.nodes n).isCalced = true →
      (graphGetValue (fuel + 1) st n).1 = Except.ok (st.nodes n).calcedValue ∧
        (graphGetValue (fuel + 1) st n).2.evals = st.evals) ∧
    ((st.nodes n).isOverlaid = false → (st.nodes n).isSet = false →
        (st.nodes n).isCalced = false → ∀ v,
      (graphGetValue (fuel + 1) st n).1 = Except.ok v →
        ((graphGetValue (fuel + 1) st n).2.nodes n).isCalced = true ∧
          ((graphGetValue (fuel + 1) st n).2.nodes n).calcedValue = v ∧
          st.evals < (graphGetValue (fuel + 1) st n).2.evals) := by
  cases hA : st.activeNode with
  | none =>
    simp only [graphGetValue, hA]
    refine ⟨fun hov => ?_, fun hov hs => ?_, fun hov hs hc => ?_, fun hov hs hc v => ?_⟩
    · rw [if_pos hov]
    · rw [if_neg (by simp [hov]), if_pos hs]
    · rw [if_neg (by simp [hov]), if_neg (by simp [hs]), if_pos hc]
      exact ⟨rfl, rfl⟩
    · rw [if_neg (by simp [hov]), if_neg (by simp [hs]), if_neg (by simp [hc])]
      split
      case _ vs st4 heq =>
        have hcr := runReads_core_of_eq (getValue_frame fuel).2 heq
        split
        · intro hv; exact absurd hv (by simp)
        · intro hv
          have hv' : v = (st.methods n).compute vs := by
            simpa using hv.symm
          refine ⟨by simp [State.updNode], by simp [State.updNode, hv'], ?_⟩
          have h1 : st.evals + 1 ≤ st4.evals := hcr.1.evalsMono
          exact Nat.lt_of_lt_of_le (Nat.lt_succ_self _) h1
      case _ e st4 heq =>
        intro hv; exact absurd hv (by simp)
  | some c =>
    simp only [graphGetValue, hA]
    refine ⟨fun hov => ?_, fun hov hs => ?_, fun hov hs hc => ?_, fun hov hs hc v => ?_⟩
    · rw [if_pos (by simpa using hov)]
      simp
    · rw [if_neg (by simp [hov]), if_pos (by simpa using hs)]
      simp
    · rw [if_neg (by simp [hov]), if_neg (by simp [hs]),
        if_pos (by simpa [addEdge_isCalced] using hc)]
      exact ⟨by simp [addEdge_calcedValue], rfl⟩
    · rw [if_neg (by simp [hov]), if_neg (by simp [hs]),
        if_neg (by simp [addEdge_isCalced, hc])]
      split
      case _ vs st4 heq =>
        have hcr := runReads_core_of_eq (getValue_frame fuel).2 heq
        split
        · intro hv; exact absurd hv (by simp)
        · intro hv
          have hv' : v = ((addEdge { st with activeNode := some n } c n).methods n).compute vs := by
            simpa using hv.symm
          refine ⟨by simp [State.updNode], by simp [State.updNode, hv'], ?_⟩
          have h1 : (addEdge { st with activeNode := some n } c n).evals + 1 ≤ st4.evals :=
            hcr.1.evalsMono
          rw [addEdge_evals] at h1
          exact Nat.lt_of_lt_of_le (Nat.lt_succ_self _) h1
      case _ e st4 heq =>
        intro hv; exact absurd hv (by simp)

/-- Example state for the C1 witness: node 0 is overlaid with 7 (and
also set and calced, so precedence is exercised). -/
def exC1st : State :=
  { nodes := fun _ =>
      { isOverlaid := true, isSet := true, isCalced := true,
        overlaidValue := PVal.vInt 7, setVal := PVal.vInt 8, calcedValue := PVal.vInt 9 },
    methods := fun _ => {} }

theorem claim_C1_getValue_precedence_witness :
    (exC1st.nodes 0).isOverlaid = true ∧
      (graphGetValue 3 exC1st 0).1 = Except.ok (PVal.vInt 7) :=
  ⟨rfl, (claim_C1_getValue_precedence 2 exC1st 0).1 rfl⟩

/-- A node that is neither overlaid nor set but calced returns its
cached value from `getValue`, and the invocation counter is unchanged
(the underlying function is not called). -/
theorem getValue_calced (fuel : Nat) (st : State) (n : NodeId)
    (hov : (st.nodes n).isOverlaid = false) (hs : (st.nodes n).isSet = false)
    (hc : (st.nodes n).isCalced = true) :
    (graphGetValue (fuel + 1) st n).1 = Except.ok (st.nodes n).calcedValue ∧
      (graphGetValue (fuel + 1) st n).2.evals = st.evals := by
  cases hA : st.activeNode with
  | none =>
    simp only [graphGetValue, hA]
    rw [if_neg (by simp [hov]), if_neg (by simp [hs]), if_pos hc]
    exact ⟨rfl, rfl⟩
  | some c =>
    simp only [graphGetValue, hA]
    rw [if_neg (by simp [hov]), if_neg (by simp [hs]),
      if_pos (by simpa [addEdge_isCalced] using hc)]
    exact ⟨by simp [addEdge_calcedValue], rfl⟩

/-! ### C2: the invalidation "frontier" -/

/-- Failing input for C2: node 0 feeds node 1; node 1 is Set (value 9)
and also holds a calced value 5; node 1 feeds node 2, which holds a
calced value 6. -/
def exC2st : State :=
  { nodes := fun k =>
      if k = 0 then { outputs := [1] }
      else if k = 1 then
        { isSet := true, setVal := PVal.vInt 9, isCalced := true,
          calcedValue := PVal.vInt 5, inputs := [0], outputs := [2] }
      else { isCalced := true, calcedValue := PVal.vInt 6, inputs := [1] },
    methods := fun _ => { flags := 1 } }

/-- C2, evaluated at the failing input: `setValue` on node 0 reaches
node 1 through `Node._invalidateOutputCalcs` even though node 1 is Set:
its calced flag is cleared, its cached value is overwritten with the
Python literal `False`, and the recursion continues through the
"frontier" to node 2, clearing it as well.  (Node 1 nevertheless stays
`isValid`, because validity is the disjunction of the three status
bits.)  This contradicts the claim that nothing is done to a Set or
Overlaid output and to anything downstream of it, and contradicts
`Node.setValue`'s own docstring ("invalidates known outputs that are
not set themselves"). -/
theorem claim_C2_invalidation_ignores_frontier :
    (exC2st.nodes 1).isSet = true ∧
    (exC2st.nodes 1).isCalced = true ∧
    (exC2st.nodes 1).calcedValue = PVal.vInt 5 ∧
    (exC2st.nodes 2).isCalced = true ∧
    (graphSetValue 5 exC2st 0 (PVal.vInt 1)).1 = Except.ok () ∧
    ((graphSetValue 5 exC2st 0 (PVal.vInt 1)).2.nodes 1).isCalced = false ∧
    ((graphSetValue 5 exC2st 0 (PVal.vInt 1)).2.nodes 1).calcedValue = PVal.vBool false ∧
    ((graphSetValue 5 exC2st 0 (PVal.vInt 1)).2.nodes 2).isCalced = false ∧
    ((graphSetValue 5 exC2st 0 (PVal.vInt 1)).2.nodes 1).isValid = true :=
  ⟨rfl, rfl, rfl, rfl, rfl, rfl, rfl, rfl, rfl⟩

/-! ### C10: `clearSet` does not clear the node's own cached calc -/

/-- C10: for a settable node with a valid computed value that is not
overlaid, and with no mutation of its inputs in between (here: the node
is not reached by its own invalidation pass, i.e. no output cycle back
into it), `setValue` followed by `clearSet` leaves the cached computed
value in place, and the next `getValue` returns it without invoking
the underlying function (the invocation counter stays put). -/
theorem claim_C10_clearSet_keeps_cache (fuel g : Nat) (st : State) (n : NodeId) (v : PVal)
    (hset : (st.methods n).isSettable = true)
    (hov : (st.nodes n).isOverlaid = false)
    (hcal : (st.nodes n).isCalced = true)
    (hact : st.activeNode = none)
    (hfr : n ∉ invTouchedList fuel ((st.nodes n).outputs) st) :
    (graphSetValue fuel st n v).1 = Except.ok () ∧
    (graphClearSet fuel (graphSetValue fuel st n v).2 n).1 = Except.ok () ∧
    (graphGetValue (g + 1) (graphClearSet fuel (graphSetValue fuel st n v).2 n).2 n).1 =
      Except.ok (st.nodes n).calcedValue ∧
    (graphGetValue (g + 1) (graphClearSet fuel (graphSetValue fuel st n v).2 n).2 n).2.evals =
      st.evals := by
  have h1 : graphSetValue fuel st n v =
      (Except.ok (), (invalidateOutputCalcs fuel st n).updNode n
        (fun d => { d with setVal := v, isSet := true })) := by
    simp [graphSetValue, State.isComputing, hact, nodeSetValue, hset]
  set st1 : State := (invalidateOutputCalcs fuel st n).updNode n
      (fun d => { d with setVal := v, isSet := true }) with hst1def
  have hInv := invalidateOutputCalcs_calcOnly fuel st n
  have hIn : (invalidateOutputCalcs fuel st n).nodes n = st.nodes n := by
    unfold invalidateOutputCalcs
    exact (invalidate_untouched fuel).2 _ st n hfr
  have hst1n : st1.nodes n = { st.nodes n with setVal := v, isSet := true } := by
    rw [hst1def]; simp [State.updNode, hIn]
  have hst1m : st1.methods = st.methods := hInv.methodsEq
  have hst1a : st1.activeNode = none := hInv.activeNodeEq.trans hact
  have hst1e : st1.evals = st.evals := hInv.evalsEq
  have hst1outs : ∀ x, (st1.nodes x).outputs = (st.nodes x).outputs := by
    intro x
    by_cases hx : x = n
    · subst hx; rw [hst1n]
    · rw [hst1def]
      simp only [State.updNode, if_neg hx]
      exact hInv.outputsEq x
  have h2 : graphClearSet fuel st1 n =
      (Except.ok (), (invalidateOutputCalcs fuel st1 n).updNode n
        (fun d => { d with isSet := false, setVal := PVal.vNone })) := by
    simp [graphClearSet, State.isComputing, hst1a, nodeClearSet, hst1m, hset, hst1n]
  set st2 : State := (invalidateOutputCalcs fuel st1 n).updNode n
      (fun d => { d with isSet := false, setVal := PVal.vNone }) with hst2def
  have hInv2 := invalidateOutputCalcs_calcOnly fuel st1 n
  have hfr1 : n ∉ invTouchedList fuel ((st1.nodes n).outputs) st1 := by
    rw [(invTouched_congr fuel hst1outs).2, hst1outs n]
    exact hfr
  have hI2n : (invalidateOutputCalcs fuel st1 n).nodes n = st1.nodes n := by
    unfold invalidateOutputCalcs
    exact (invalidate_untouched fuel).2 _ st1 n hfr1
  have hst2n : st2.nodes n = { st.nodes n with isSet := false, setVal := PVal.vNone } := by
    rw [hst2def]; simp [State.updNode, hI2n, hst1n]
  have hst2a : st2.activeNode = none := hInv2.activeNodeEq.trans hst1a
  have hst2e : st2.evals = st.evals := hInv2.evalsEq.trans hst1e
  have h3 := getValue_calced g st2 n (by simp [hst2n, hov]) (by simp [hst2n])
    (by simp [hst2n, hcal])
  refine ⟨by simp [h1], by simp [h1, h2], ?_, ?_⟩
  · simp only [h1, h2]
    rw [h3.1]
    simp [hst2n]
  · simp only [h1, h2]
    rw [h3.2, hst2e]

/-- Example for the C10 witness: one settable, calced node with no
outputs. -/
def exC10st : State :=
  { nodes := fun _ => { isCalced := true, calcedValue := PVal.vInt 5 },
    methods := fun _ => { flags := 1 } }

theorem claim_C10_clearSet_keeps_cache_witness :
    ((exC10st.methods 0).isSettable = true ∧ (exC10st.nodes 0).isOverlaid = false ∧
      (exC10st.nodes 0).isCalced = true ∧ exC10st.activeNode = none ∧
      0 ∉ invTouchedList 4 ((exC10st.nodes 0).outputs) exC10st) ∧
    (graphGetValue 3
        (graphClearSet 4 (graphSetValue 4 exC10st 0 (PVal.vInt 8)).2 0).2 0).1 =
      Except.ok (PVal.vInt 5) :=
  ⟨⟨rfl, rfl, rfl, rfl, by decide⟩,
    (claim_C10_clearSet_keeps_cache 4 2 exC10st 0 (PVal.vInt 8) rfl rfl rfl rfl
      (by decide)).2.2.1⟩

/-! ### Error classification for the context operations -/

theorem popAll_error {m : List (NodeId × PVal)} {l : List NodeId} {e : Err}
    (h : popAll m l = Except.error e) : e = Err.keyError := by
  induction l generalizing m with
  | nil => simp [popAll] at h
  | cons k rest ih =>
    simp only [popAll] at h
    split at h
    · exact ih h
    · simp at h
      exact h.symm

theorem allOverlaysAux_error (st : State) (f : Nat) :
    ∀ cid e, allOverlaysAux st f cid = Except.error e → e = Err.keyError := by
  induction f with
  | zero => intro cid e h; simp [allOverlaysAux] at h
  | succ g ih =>
    intro cid e h
    simp only [allOverlaysAux] at h
    split at h
    · simp at h
    · split at h
      case _ e1 heq =>
        simp at h
        exact h.symm.trans (ih _ _ heq)
      case _ base heq => exact popAll_error h

theorem allOverlays_error {st : State} {cid : Nat} {e : Err}
    (h : allOverlays st cid = Except.error e) : e = Err.keyError :=
  allOverlaysAux_error st (cid + 1) cid e h

theorem ctxGetOverlay_error {st : State} {cid : Nat} {n : NodeId} {e : Err}
    (h : ctxGetOverlay st cid n = Except.error e) : e = Err.keyError := by
  simp only [ctxGetOverlay] at h
  split at h
  case _ e1 heq =>
    simp at h
    exact h.symm.trans (allOverlays_error heq)
  case _ m heq =>
    split at h
    · simp at h
    · simp at h
      exact h.symm

theorem nodeOverlayValue_eq (fuel : Nat) (st : State) (n : NodeId) (v : PVal) :
    nodeOverlayValue fuel st n v =
      (Except.ok (), (invalidateOutputCalcs fuel st n).updNode n
        (fun d => { d with overlaidValue := v, isOverlaid := true })) := by
  simp [nodeOverlayValue, GraphMethod.isOverlayable]

theorem nodeClearOverlay_ok (fuel : Nat) (st : State) (n : NodeId) :
    (nodeClearOverlay fuel st n).1 = Except.ok () := by
  simp only [nodeClearOverlay, GraphMethod.isOverlayable]
  norm_num
  split <;> rfl

theorem ctxApplyOverlay_error {fuel : Nat} {st : State} {cid : Nat} {n : NodeId} {e : Err}
    (h : (ctxApplyOverlay fuel st cid n).1 = Except.error e) : e = Err.keyError := by
  simp only [ctxApplyOverlay] at h
  split at h
  case _ e1 heq => exact (Except.error.injEq _ _ ▸ h).symm.trans (ctxGetOverlay_error heq)
  case _ v heq =>
    split at h
    case _ e2 st2 heq2 =>
      rw [nodeOverlayValue_eq] at heq2
      simp at heq2
    case _ u st2 heq2 => simp at h

theorem ctxClearOverlay_ok (fuel : Nat) (st : State) (cid : Nat) (n : NodeId) :
    (ctxClearOverlay fuel st cid n).1 = Except.ok () := by
  simp only [ctxClearOverlay]
  split
  · split
    case _ step1 heq =>
      split at heq
      case _ s hs =>
        split at heq
        case _ st3 heq3 =>
          simp at heq
        case _ e st3 heq3 =>
          rw [nodeOverlayValue_eq] at heq3
          simp at heq3
      case _ =>
        case _ e st3 =>
          have := nodeClearOverlay_ok fuel st n
          rw [heq] at this
          simp at this
    case _ u st3 heq => rfl
  · rfl

theorem applyAll_error {fuel : Nat} {cid : Nat} :
    ∀ (l : List NodeId) (st : State) (e : Err),
      (applyAll fuel cid l st).1 = Except.error e → e = Err.keyError := by
  intro l
  induction l with
  | nil => intro st e h; simp [applyAll] at h
  | cons k rest ih =>
    intro st e h
    simp only [applyAll] at h
    split at h
    case _ u st1 heq => exact ih st1 e h
    case _ e1 st1 heq =>
      simp at h
      subst h
      have : (ctxApplyOverlay fuel st cid k).1 = Except.error e1 := by rw [heq]
      exact ctxApplyOverlay_error this

theorem clearAll_result (fuel : Nat) (cid : Nat) :
    ∀ (l : List NodeId) (st : State), (clearAll fuel cid l st).1 = Except.ok () := by
  intro l
  induction l with
  | nil => intro st; rfl
  | cons k rest ih =>
    intro st
    simp only [clearAll]
    split
    case _ u st1 heq => exact ih st1
    case _ e st1 heq =>
      have := ctxClearOverlay_ok fuel st cid k
      rw [heq] at this
      simp at this

theorem ctxEnter_error {fuel : Nat} {st : State} {cid : Nat} {e : Err}
    (h : (ctxEnter fuel st cid).1 = Except.error e) : e = Err.keyError := by
  simp only [ctxEnter] at h
  split at h
  case _ e1 heq =>
    simp at h
    exact h.symm.trans (allOverlays_error heq)
  case _ ovs heq => exact applyAll_error _ _ _ h

theorem ctxExit_error {fuel : Nat} {st : State} {cid : Nat} {e : Err}
    (h : (ctxExit fuel st cid).1 = Except.error e) :
    e = Err.keyError ∨ e = Err.attrError := by
  simp only [ctxExit] at h
  split at h
  · simp at h
    exact Or.inr h.symm
  case _ a heq =>
    split at h
    case _ e1 heq2 =>
      simp at h
      exact Or.inl (h.symm.trans (allOverlays_error heq2))
    case _ ovs heq2 =>
      split at h
      case _ e2 st2 heq3 =>
        have hc := congrArg Prod.fst heq3
        simp [clearAll_result] at hc
      case _ u st2 heq3 =>
        split at h
        · simp at h
          exact Or.inr h.symm
        · simp at h

/-! ### C4: mutation lock-out while computing -/

/-- C4 (amended): while `activeNode` is non-null, the four write
operations fail with `EvaluationActive` and leave the state unchanged;
but `GraphContext.__enter__`/`__exit__` and
`GraphLayer.__enter__`/`__exit__` perform no such check — none of them
can fail with `EvaluationActive` (layer enter always succeeds, and the
only context-scope failures are `KeyError`/`AttributeError`). -/
theorem claim_C4_mutation_lockout (fuel : Nat) (st : State) (n k : NodeId) (v : PVal)
    (h : st.activeNode = some k) :
    graphSetValue fuel st n v = (Except.error Err.evaluationActive, st) ∧
    graphClearSet fuel st n = (Except.error Err.evaluationActive, st) ∧
    graphOverlayValue fuel st n v = (Except.error Err.evaluationActive, st) ∧
    graphClearOverlay fuel st n = (Except.error Err.evaluationActive, st) ∧
    (∀ cid, (ctxEnter fuel st cid).1 ≠ Except.error Err.evaluationActive) ∧
    (∀ cid, (ctxExit fuel st cid).1 ≠ Except.error Err.evaluationActive) ∧
    (∀ lid, (layerEnter st lid).1 = Except.ok ()) ∧
    (∀ lid, (layerExit st lid).1 ≠ Except.error Err.evaluationActive) := by
  refine ⟨?_, ?_, ?_, ?_, ?_, ?_, ?_, ?_⟩
  · simp [graphSetValue, State.isComputing, h]
  · simp [graphClearSet, State.isComputing, h]
  · simp [graphOverlayValue, State.isComputing, h]
  · simp [graphClearOverlay, State.isComputing, h]
  · intro cid hx
    exact absurd (ctxEnter_error hx) (by decide)
  · intro cid hx
    rcases ctxExit_error hx with h1 | h1 <;> exact absurd h1 (by decide)
  · intro lid; rfl
  · intro lid hx
    simp only [layerExit] at hx
    split at hx <;> simp at hx

/-- Counterexample input for C4: the graph is computing
(`activeNode = some 3`), yet entering a context succeeds and changes
the active context, and entering a layer succeeds and changes the
active layer — neither fails with `EvaluationActive`. -/
def exC4st : State :=
  { nodes := fun _ => {}, methods := fun _ => {}, ctxs := [{}],
    activeNode := some 3, layers := [none, none] }

theorem claim_C4_counterexample :
    exC4st.activeNode = some 3 ∧
    exC4st.activeCtx = none ∧
    (ctxEnter 5 exC4st 0).1 = Except.ok () ∧
    (ctxEnter 5 exC4st 0).2.activeCtx = some 0 ∧
    (layerEnter exC4st 1).1 = Except.ok () ∧
    (layerEnter exC4st 1).2.activeLayer = 1 ∧
    exC4st.activeLayer = 0 :=
  ⟨rfl, rfl, rfl, rfl, rfl, rfl, rfl⟩

theorem claim_C4_mutation_lockout_witness :
    exC4st.activeNode = some 3 ∧
    graphSetValue 5 exC4st 0 (PVal.vInt 1) = (Except.error Err.evaluationActive, exC4st) :=
  ⟨rfl, (claim_C4_mutation_lockout 5 exC4st 0 3 (PVal.vInt 1) rfl).1⟩

/-! ### C5: overlayValue error modes -/

/-- C5 (amended): `overlayValue` fails with `NoActiveScope` (leaving
the state unchanged) when no overlay scope is active and the graph is
not computing; and it can never fail with `NotPermitted`, because
`GraphMethod.isOverlayable` names `self.isSettable` without calling it
and is therefore always truthy, regardless of the flag word. -/
theorem claim_C5_overlay_failure_modes (fuel : Nat) (st : State) (n : NodeId) (v : PVal) :
    (st.activeNode = none → st.activeCtx = none →
      graphOverlayValue fuel st n v = (Except.error Err.noActiveScope, st)) ∧
    (graphOverlayValue fuel st n v).1 ≠ Except.error Err.notPermitted := by
  constructor
  · intro ha hc
    simp [graphOverlayValue, State.isComputing, ha, hc]
  · intro hx
    simp only [graphOverlayValue] at hx
    split at hx
    · simp at hx
    · split at hx
      · simp at hx
      case _ cid heq =>
        simp only [ctxOverlayValue] at hx
        exact absurd (ctxApplyOverlay_error hx) (by decide)

/-- Counterexample input for C5: node 0's method has an empty flag word
(in particular it lacks `Overlayable`), a context is active, and
`overlayValue` succeeds and applies the overlay instead of raising
`NotPermitted`. -/
def exC5st : State :=
  { nodes := fun _ => {}, methods := fun _ => { flags := 0 },
    ctxs := [{}], activeCtx := some 0 }

theorem claim_C5_counterexample :
    (exC5st.methods 0).flags &&& Overlayable = 0 ∧
    (graphOverlayValue 5 exC5st 0 (PVal.vInt 1)).1 = Except.ok () ∧
    ((graphOverlayValue 5 exC5st 0 (PVal.vInt 1)).2.nodes 0).isOverlaid = true ∧
    ((graphOverlayValue 5 exC5st 0 (PVal.vInt 1)).2.nodes 0).overlaidValue = PVal.vInt 1 :=
  ⟨rfl, rfl, rfl, rfl⟩

/-- Example state for the C5 witness: no context is active. -/
def exC5noCtx : State := { nodes := fun _ => {}, methods := fun _ => { flags := 0 } }

theorem claim_C5_overlay_failure_modes_witness :
    (exC5noCtx.activeNode = none ∧ exC5noCtx.activeCtx = none) ∧
    graphOverlayValue 5 exC5noCtx 0 (PVal.vInt 1) =
      (Except.error Err.noActiveScope, exC5noCtx) :=
  ⟨⟨rfl, rfl⟩, (claim_C5_overlay_failure_modes 5 exC5noCtx 0 (PVal.vInt 1)).1 rfl rfl⟩

/-! ### C6: delegated writes -/

theorem graphSetValue_fix_other (fuel : Nat) (st : State) (m : NodeId) (w : PVal)
    (n : NodeId) (hnm : n ≠ m) :
    ((graphSetValue fuel st m w).2.nodes n).isSet = (st.nodes n).isSet ∧
    ((graphSetValue fuel st m w).2.nodes n).setVal = (st.nodes n).setVal ∧
    ((graphSetValue fuel st m w).2.nodes n).isOverlaid = (st.nodes n).isOverlaid ∧
    ((graphSetValue fuel st m w).2.nodes n).overlaidValue = (st.nodes n).overlaidValue := by
  simp only [graphSetValue]
  split
  · exact ⟨rfl, rfl, rfl, rfl⟩
  · simp only [nodeSetValue]
    split
    · exact ⟨rfl, rfl, rfl, rfl⟩
    · have hI := invalidateOutputCalcs_calcOnly fuel st m
      refine ⟨?_, ?_, ?_, ?_⟩ <;> simp only [State.updNode, if_neg hnm]
      · exact hI.isSetEq n
      · exact hI.setValEq n
      · exact hI.isOverlaidEq n
      · exact hI.overlaidValueEq n

theorem applyNodeChanges_other (fuel : Nat) :
    ∀ (l : List (NodeId × PVal)) (st : State) (n : NodeId), n ∉ l.map Prod.fst →
      ((applyNodeChanges fuel l st).2.nodes n).isSet = (st.nodes n).isSet ∧
      ((applyNodeChanges fuel l st).2.nodes n).setVal = (st.nodes n).setVal ∧
      ((applyNodeChanges fuel l st).2.nodes n).isOverlaid = (st.nodes n).isOverlaid ∧
      ((applyNodeChanges fuel l st).2.nodes n).overlaidValue = (st.nodes n).overlaidValue := by
  intro l
  induction l with
  | nil => intro st n _; exact ⟨rfl, rfl, rfl, rfl⟩
  | cons p rest ih =>
    intro st n hn
    simp only [List.map, List.mem_cons] at hn
    push_neg at hn
    have hstep := graphSetValue_fix_other fuel st p.1 p.2 n hn.1
    simp only [applyNodeChanges]
    split
    case _ u st1 heq =>
      have hrec := ih st1 n hn.2
      have h1 : st1 = (graphSetValue fuel st p.1 p.2).2 := by rw [heq]
      rw [h1] at hrec ⊢
      exact ⟨hrec.1.trans hstep.1, hrec.2.1.trans hstep.2.1,
        hrec.2.2.1.trans hstep.2.2.1, hrec.2.2.2.trans hstep.2.2.2⟩
    case _ e st1 heq =>
      have h1 : st1 = (graphSetValue fuel st p.1 p.2).2 := by rw [heq]
      rw [h1]
      exact hstep

/-- C6: when a method has a write delegate, `setValue` invokes the
delegate on the value being set and applies each returned `NodeChange`
through the plain (non-delegated) `Graph.setValue`; the original node
itself is never assigned — as long as the delegate does not name it as
a target, its set/overlay state is untouched. -/
theorem claim_C6_delegate_write (fuel : Nat) (st : State) (n : NodeId) (v : PVal)
    (d : PVal → List (NodeId × PVal))
    (hd : (st.methods n).delegateTo = some d) :
    gimSetValue fuel st n v = applyNodeChanges fuel (d v) st ∧
    (n ∉ (d v).map Prod.fst →
      ((gimSetValue fuel st n v).2.nodes n).isSet = (st.nodes n).isSet ∧
      ((gimSetValue fuel st n v).2.nodes n).setVal = (st.nodes n).setVal ∧
      ((gimSetValue fuel st n v).2.nodes n).isOverlaid = (st.nodes n).isOverlaid ∧
      ((gimSetValue fuel st n v).2.nodes n).overlaidValue = (st.nodes n).overlaidValue) := by
  constructor
  · simp [gimSetValue, hd]
  · intro hn
    simp only [gimSetValue, hd]
    exact applyNodeChanges_other fuel (d v) st n hn

/-- Adds one to a Python integer (the S4 delegate's second change). -/
def pvAddOne : PVal → PVal
  | PVal.vInt k => PVal.vInt (k + 1)
  | x => x

/-- The S4 delegate: on `Z.set(v)` produce `[X.set(v), W.set(v+1)]`
with X = node 0 and W = node 1. -/
def exDelegate : PVal → List (NodeId × PVal) := fun v => [(0, v), (1, pvAddOne v)]

/-- S4 scenario state: node 2 (Z) is settable and delegates to
`exDelegate`; nodes 0 (X) and 1 (W) are plain settable nodes; Z holds a
calced value 42 as its pre-write value. -/
def exC6st : State :=
  { nodes := fun k => if k = 2 then { isCalced := true, calcedValue := PVal.vInt 42 } else {},
    methods := fun k =>
      if k = 2 then { flags := 1, delegateTo := some exDelegate } else { flags := 1 } }

theorem claim_C6_delegate_write_witness :
    ((exC6st.methods 2).delegateTo = some exDelegate ∧
      2 ∉ (exDelegate (PVal.vInt 3)).map Prod.fst) ∧
    ((gimSetValue 5 exC6st 2 (PVal.vInt 3)).2.nodes 2).isSet = (exC6st.nodes 2).isSet ∧
    (graphGetValue 5 (gimSetValue 5 exC6st 2 (PVal.vInt 3)).2 0).1 =
      Except.ok (PVal.vInt 3) ∧
    (graphGetValue 5 (gimSetValue 5 exC6st 2 (PVal.vInt 3)).2 1).1 =
      Except.ok (PVal.vInt 4) ∧
    (graphGetValue 5 (gimSetValue 5 exC6st 2 (PVal.vInt 3)).2 2).1 =
      Except.ok (PVal.vInt 42) :=
  ⟨⟨rfl, by decide⟩,
    ((claim_C6_delegate_write 5 exC6st 2 (PVal.vInt 3) exDelegate rfl).2 (by decide)).1,
    rfl, rfl, rfl⟩

/-! ### C7: exceptions during evaluation -/

theorem getValue_raising_keeps_uncalced (fuel : Nat) :
    (∀ st m n, (st.methods n).raisesAt.isSome = true → (st.nodes n).isCalced = false →
      ((graphGetValue fuel st m).2.nodes n).isCalced = false) ∧
    (∀ l st n, (st.methods n).raisesAt.isSome = true → (st.nodes n).isCalced = false →
      ((runReads fuel l st).2.nodes n).isCalced = false) := by
  induction fuel with
  | zero => exact ⟨fun _ _ _ _ hc => hc, fun _ _ _ _ hc => hc⟩
  | succ f ih =>
    constructor
    · intro st m n hra hc
      cases hA : st.activeNode with
      | none =>
        simp only [graphGetValue, hA]
        split
        · exact hc
        split
        · exact hc
        split
        · exact hc
        · split
          case _ vs st4 heq =>
            have hrun := ih.2 (match (st.methods m).raisesAt with
              | some i => List.take i (st.methods m).reads
              | none => (st.methods m).reads)
              { st with activeNode := some m, evals := st.evals + 1 } n hra hc
            rw [heq] at hrun
            split
            case _ i heqRA => exact hrun
            case _ heqRA =>
              by_cases hmn : m = n
              · subst hmn
                rw [heqRA] at hra
                simp at hra
              · simp only [State.updNode]
                rw [if_neg (fun hx => hmn hx.symm)]
                exact hrun
          case _ e st4 heq =>
            have hrun := ih.2 (match (st.methods m).raisesAt with
              | some i => List.take i (st.methods m).reads
              | none => (st.methods m).reads)
              { st with activeNode := some m, evals := st.evals + 1 } n hra hc
            rw [heq] at hrun
            exact hrun
      | some c =>
        have hra2 : ((addEdge { st with activeNode := some m } c m).methods n).raisesAt.isSome
            = true := hra
        have hc2 : ((addEdge { st with activeNode := some m } c m).nodes n).isCalced = false := by
          rw [addEdge_isCalced]; exact hc
        simp only [graphGetValue, hA]
        split
        · exact hc2
        split
        · exact hc2
        split
        · exact hc2
        · split
          case _ vs st4 heq =>
            have hrun := ih.2 (match ((addEdge { st with activeNode := some m } c m).methods m).raisesAt with
              | some i => List.take i ((addEdge { st with activeNode := some m } c m).methods m).reads
              | none => ((addEdge { st with activeNode := some m } c m).methods m).reads)
              { addEdge { st with activeNode := some m } c m with
                  evals := (addEdge { st with activeNode := some m } c m).evals + 1 } n hra hc2
            rw [heq] at hrun
            split
            case _ i heqRA => exact hrun
            case _ heqRA =>
              by_cases hmn : m = n
              · subst hmn
                rw [addEdge_methods] at heqRA
                rw [heqRA] at hra
                simp at hra
              · simp only [State.updNode]
                rw [if_neg (fun hx => hmn hx.symm)]
                exact hrun
          case _ e st4 heq =>
            have hrun := ih.2 (match ((addEdge { st with activeNode := some m } c m).methods m).raisesAt with
              | some i => List.take i ((addEdge { st with activeNode := some m } c m).methods m).reads
              | none => ((addEdge { st with activeNode := some m } c m).methods m).reads)
              { addEdge { st with activeNode := some m } c m with
                  evals := (addEdge { st with activeNode := some m } c m).evals + 1 } n hra hc2
            rw [heq] at hrun
            exact hrun
    · intro l st n hra hc
      cases l with
      | nil => exact hc
      | cons t ts =>
        simp only [runReads]
        split
        case _ v st1 heq =>
          have h1 := ih.1 st t n hra hc
          rw [heq] at h1
          have hm1 : st1.methods = st.methods := by
            have := getValue_core_of_eq (fun s u => (getValue_frame f).1 s u) heq
            exact this.1.methodsEq
          have hra1 : (st1.methods n).raisesAt.isSome = true := by rw [hm1]; exact hra
          split
          case _ vs st2 heq2 =>
            have h2 := ih.2 ts st1 n hra1 h1
            rw [heq2] at h2
            exact h2
          case _ e st2 heq2 =>
            have h2 := ih.2 ts st1 n hra1 h1
            rw [heq2] at h2
            exact h2
        case _ e st1 heq =>
          have h1 := ih.1 st t n hra hc
          rw [heq] at h1
          exact h1

/-- C7 (amended): when the underlying function of a node that is
neither overlaid, set, nor calced raises, `getValue` returns an error
(the exception propagates), `activeNode` is restored to its prior
value on the failure path, the failed node is left not-Valid — but the
failed node's input set is NOT left empty: whatever inputs it had
before are still there (plus any edges captured for reads performed
before the raise). -/
theorem claim_C7_exception_path (fuel : Nat) (st : State) (n : NodeId) (i : Nat)
    (hov : (st.nodes n).isOverlaid = false) (hs : (st.nodes n).isSet = false)
    (hc : (st.nodes n).isCalced = false)
    (hraise : (st.methods n).raisesAt = some i) :
    (∃ e, (graphGetValue (fuel + 1) st n).1 = Except.error e) ∧
    (graphGetValue (fuel + 1) st n).2.activeNode = st.activeNode ∧
    ((graphGetValue (fuel + 1) st n).2.nodes n).isValid = false ∧
    (st.nodes n).inputs ⊆ ((graphGetValue (fuel + 1) st n).2.nodes n).inputs := by
  have hframe := (getValue_frame (fuel + 1)).1 st n
  have hcalc := (getValue_raising_keeps_uncalced (fuel + 1)).1 st n n (by simp [hraise]) hc
  refine ⟨?_, hframe.2, ?_, hframe.1.inputsMono n⟩
  · cases hA : st.activeNode with
    | none =>
      simp only [graphGetValue, hA]
      rw [if_neg (by simp [hov]), if_neg (by simp [hs]), if_neg (by simp [hc])]
      split
      case _ vs st4 heq =>
        simp only [hraise]
        exact ⟨Err.userError, rfl⟩
      case _ e st4 heq => exact ⟨e, rfl⟩
    | some c =>
      simp only [graphGetValue, hA]
      rw [if_neg (by simp [hov]), if_neg (by simp [hs]),
        if_neg (by simp [addEdge_isCalced, hc])]
      split
      case _ vs st4 heq =>
        simp only [addEdge_methods, hraise]
        exact ⟨Err.userError, rfl⟩
      case _ e st4 heq => exact ⟨e, rfl⟩
  · simp only [NodeData.isValid, hframe.1.isOverlaidEq n, hframe.1.isSetEq n, hov, hs, hcalc]
    rfl

/-- Counterexample input for C7's "inputs are left empty": node 1 has a
stale input edge to node 5; its function reads node 0 and then raises.
After the failed `getValue`, node 1's input set is `[5, 0]` — the stale
edge survived and the read performed before the raise was captured. -/
def exC7st : State :=
  { nodes := fun k => if k = 1 then { inputs := [5] } else {},
    methods := fun k =>
      if k = 1 then { reads := [0], raisesAt := some 1 }
      else { compute := fun _ => PVal.vInt 3 } }

theorem claim_C7_counterexample :
    (graphGetValue 9 exC7st 1).1 = Except.error Err.userError ∧
    (graphGetValue 9 exC7st 1).2.activeNode = none ∧
    ((graphGetValue 9 exC7st 1).2.nodes 1).isValid = false ∧
    ((graphGetValue 9 exC7st 1).2.nodes 1).inputs = [5, 0] ∧
    ((graphGetValue 9 exC7st 1).2.nodes 1).inputs ≠ [] :=
  ⟨rfl, rfl, rfl, rfl, by decide⟩

theorem claim_C7_exception_path_witness :
    ((exC7st.nodes 1).isOverlaid = false ∧ (exC7st.nodes 1).isSet = false ∧
      (exC7st.nodes 1).isCalced = false ∧ (exC7st.methods 1).raisesAt = some 1) ∧
    ((graphGetValue 9 exC7st 1).2.nodes 1).isValid = false :=
  ⟨⟨rfl, rfl, rfl, rfl⟩,
    (claim_C7_exception_path 8 exC7st 1 1 rfl rfl rfl rfl).2.2.1⟩

/-! ### C9: inputs are not cleared before recomputation -/

/-- C9 (amended): `getValue` never clears the target's input set —
edge sets only ever grow during evaluation, so after a recomputation
the inputs are the prior inputs plus the reads of this evaluation,
not exactly the read set. -/
theorem claim_C9_inputs_persist (fuel : Nat) (st : State) (n m : NodeId) :
    (st.nodes m).inputs ⊆ ((graphGetValue fuel st n).2.nodes m).inputs ∧
    (st.nodes m).outputs ⊆ ((graphGetValue fuel st n).2.nodes m).outputs :=
  ⟨((getValue_frame fuel).1 st n).1.inputsMono m,
    ((getValue_frame fuel).1 st n).1.outputsMono m⟩

/-- Counterexample input for C9: node 1 is stale (not overlaid, set or
calced) and carries a leftover input edge to node 0, whose output set
contains 1; node 1's function reads nothing.  After evaluation the
claim expects `inputs 1 = []` (the reads of this evaluation), but the
code leaves the stale edge in place on both sides. -/
def exC9st : State :=
  { nodes := fun k => if k = 1 then { inputs := [0] } else { outputs := [1] },
    methods := fun k => if k = 1 then { compute := fun _ => PVal.vInt 3 } else {} }

theorem claim_C9_counterexample :
    (exC9st.nodes 1).isOverlaid = false ∧
    (exC9st.nodes 1).isSet = false ∧
    (exC9st.nodes 1).isCalced = false ∧
    (exC9st.methods 1).reads = [] ∧
    (graphGetValue 3 exC9st 1).1 = Except.ok (PVal.vInt 3) ∧
    ((graphGetValue 3 exC9st 1).2.nodes 1).inputs = [0] ∧
    ((graphGetValue 3 exC9st 1).2.nodes 0).outputs = [1] :=
  ⟨rfl, rfl, rfl, rfl, rfl, rfl, rfl⟩

/-! ### C8: edge symmetry across all operations -/

/-- The edge-symmetry invariant: `N ∈ M.outputs ⇔ M ∈ N.inputs`. -/
def EdgeSymm (st : State) : Prop :=
  ∀ a b : NodeId, a ∈ (st.nodes b).outputs ↔ b ∈ (st.nodes a).inputs

/-- Two states with identical edge sets everywhere. -/
def EdgesEq (st st' : State) : Prop :=
  ∀ x : NodeId, ((st'.nodes x).inputs = (st.nodes x).inputs ∧
    (st'.nodes x).outputs = (st.nodes x).outputs)

theorem edgesEq_refl (st : State) : EdgesEq st st := fun _ => ⟨rfl, rfl⟩

theorem edgesEq_trans {s1 s2 s3 : State} (h12 : EdgesEq s1 s2) (h23 : EdgesEq s2 s3) :
    EdgesEq s1 s3 := fun x =>
  ⟨(h23 x).1.trans (h12 x).1, (h23 x).2.trans (h12 x).2⟩

theorem EdgeSymm.of_edgesEq {st st' : State} (h : EdgeSymm st) (he : EdgesEq st st') :
    EdgeSymm st' := by
  intro a b
  rw [(he b).2, (he a).1]
  exact h a b

theorem edgesEq_of_calcOnly {st st' : State} (h : CalcOnly st st') : EdgesEq st st' :=
  fun x => ⟨h.inputsEq x, h.outputsEq x⟩

theorem edgesEq_updNode {st : State} (n : NodeId) (f : NodeData → NodeData)
    (hf : ∀ d, (f d).inputs = d.inputs ∧ (f d).outputs = d.outputs) :
    EdgesEq st (st.updNode n f) := by
  intro x
  simp only [State.updNode]
  split
  · exact hf (st.nodes x)
  · exact ⟨rfl, rfl⟩

theorem edgesEq_nodesEq {st st' : State} (h : st'.nodes = st.nodes) : EdgesEq st st' :=
  fun x => by rw [h]; exact ⟨rfl, rfl⟩

theorem edgesEq_calcStoreUpd (st : State) (n : NodeId) (v : PVal) :
    EdgesEq st (st.updNode n (fun d => { d with calcedValue := v, isCalced := true })) :=
  edgesEq_updNode n (fun d => { d with calcedValue := v, isCalced := true })
    (fun _ => ⟨rfl, rfl⟩)

theorem ctxRemoveOverlay_edgesEq (st : State) (cid : Nat) (n : NodeId) :
    EdgesEq st (ctxRemoveOverlay st cid n) :=
  edgesEq_nodesEq rfl

theorem nodeSetValue_edgesEq (fuel : Nat) (st : State) (n : NodeId) (v : PVal) :
    EdgesEq st (nodeSetValue fuel st n v).2 := by
  simp only [nodeSetValue]
  split
  · exact edgesEq_refl st
  · exact edgesEq_trans (edgesEq_of_calcOnly (invalidateOutputCalcs_calcOnly fuel st n))
      (edgesEq_updNode n (fun d => { d with setVal := v, isSet := true })
        (fun _ => ⟨rfl, rfl⟩))

theorem graphSetValue_edgesEq (fuel : Nat) (st : State) (n : NodeId) (v : PVal) :
    EdgesEq st (graphSetValue fuel st n v).2 := by
  simp only [graphSetValue]
  split
  · exact edgesEq_refl st
  · exact nodeSetValue_edgesEq fuel st n v

theorem graphClearSet_edgesEq (fuel : Nat) (st : State) (n : NodeId) :
    EdgesEq st (graphClearSet fuel st n).2 := by
  simp only [graphClearSet, nodeClearSet]
  split
  · exact edgesEq_refl st
  · split
    · exact edgesEq_refl st
    · split
      · exact edgesEq_refl st
      · exact edgesEq_trans (edgesEq_of_calcOnly (invalidateOutputCalcs_calcOnly fuel st n))
          (edgesEq_updNode n (fun d => { d with isSet := false, setVal := PVal.vNone })
            (fun _ => ⟨rfl, rfl⟩))

theorem nodeOverlayValue_edgesEq (fuel : Nat) (st : State) (n : NodeId) (v : PVal) :
    EdgesEq st (nodeOverlayValue fuel st n v).2 := by
  rw [nodeOverlayValue_eq]
  exact edgesEq_trans (edgesEq_of_calcOnly (invalidateOutputCalcs_calcOnly fuel st n))
    (edgesEq_updNode n (fun d => { d with overlaidValue := v, isOverlaid := true })
      (fun _ => ⟨rfl, rfl⟩))

theorem nodeClearOverlay_edgesEq (fuel : Nat) (st : State) (n : NodeId) :
    EdgesEq st (nodeClearOverlay fuel st n).2 := by
  simp only [nodeClearOverlay]
  split
  · exact edgesEq_refl st
  · split
    · exact edgesEq_refl st
    · exact edgesEq_trans (edgesEq_of_calcOnly (invalidateOutputCalcs_calcOnly fuel st n))
        (edgesEq_updNode n (fun d => { d with isOverlaid := false, overlaidValue := PVal.vNone })
          (fun _ => ⟨rfl, rfl⟩))

theorem updCtx_edgesEq (st : State) (cid : Nat) (f : GraphContext → GraphContext) :
    EdgesEq st (st.updCtx cid f) :=
  edgesEq_nodesEq rfl

theorem ctxApplyOverlay_edgesEq (fuel : Nat) (st : State) (cid : Nat) (n : NodeId) :
    EdgesEq st (ctxApplyOverlay fuel st cid n).2 := by
  have hbase : ∀ s1 : State, EdgesEq st s1 →
      EdgesEq st ((match ctxGetOverlay s1 cid n with
        | Except.error e => (Except.error e, s1)
        | Except.ok v =>
          match nodeOverlayValue fuel s1 n v with
          | (Except.error e, st2) => (Except.error e, st2)
          | (Except.ok _, st2) =>
            (Except.ok (),
              st2.updCtx cid (fun c => { c with applied := addElem c.applied n }))) :
        Except Err Unit × State).2 := by
    intro s1 h1
    split
    · exact h1
    case _ v hv =>
      split
      case _ e st2 heq3 =>
        have h2 := nodeOverlayValue_edgesEq fuel s1 n v
        rw [heq3] at h2
        exact edgesEq_trans h1 h2
      case _ u st2 heq3 =>
        have h2 := nodeOverlayValue_edgesEq fuel s1 n v
        rw [heq3] at h2
        exact edgesEq_trans (edgesEq_trans h1 h2) (updCtx_edgesEq _ cid _)
  simp only [ctxApplyOverlay]
  by_cases hcond : ((st.nodes n).isOverlaid && !decide (n ∈ (st.ctx cid).applied)) = true
  · rw [if_pos hcond]
    exact hbase _ (updCtx_edgesEq st cid _)
  · rw [if_neg hcond]
    exact hbase st (edgesEq_refl st)

theorem ctxClearOverlay_edgesEq (fuel : Nat) (st : State) (cid : Nat) (n : NodeId) :
    EdgesEq st (ctxClearOverlay fuel st cid n).2 := by
  have hstep : EdgesEq st ((match alookup (st.ctx cid).stash n with
      | some s =>
        match nodeOverlayValue fuel st n s with
        | (Except.ok _, st1) =>
          (Except.ok (), st1.updCtx cid (fun c => { c with stash := adel c.stash n }))
        | (Except.error e, st1) => (Except.error e, st1)
      | none => nodeClearOverlay fuel st n : Except Err Unit × State)).2 := by
    split
    case _ s hs =>
      split
      case _ u st1 heq =>
        have h1 := nodeOverlayValue_edgesEq fuel st n s
        rw [heq] at h1
        exact edgesEq_trans h1 (updCtx_edgesEq _ cid _)
      case _ e st1 heq =>
        have h1 := nodeOverlayValue_edgesEq fuel st n s
        rw [heq] at h1
        exact h1
    case _ => exact nodeClearOverlay_edgesEq fuel st n
  simp only [ctxClearOverlay]
  split
  · split
    case _ e st1 heq =>
      rw [heq] at hstep
      exact hstep
    case _ u st1 heq =>
      rw [heq] at hstep
      refine edgesEq_trans ?_ (updCtx_edgesEq _ cid _)
      split
      · exact edgesEq_trans hstep (ctxRemoveOverlay_edgesEq st1 cid n)
      · exact hstep
  · exact edgesEq_refl st

theorem applyAll_edgesEq (fuel : Nat) (cid : Nat) :
    ∀ (l : List NodeId) (st : State), EdgesEq st (applyAll fuel cid l st).2 := by
  intro l
  induction l with
  | nil => intro st; exact edgesEq_refl st
  | cons k rest ih =>
    intro st
    simp only [applyAll]
    split
    case _ u st1 heq =>
      have h1 := ctxApplyOverlay_edgesEq fuel st cid k
      rw [heq] at h1
      exact edgesEq_trans h1 (ih st1)
    case _ e st1 heq =>
      have h1 := ctxApplyOverlay_edgesEq fuel st cid k
      rw [heq] at h1
      exact h1

theorem clearAll_edgesEq (fuel : Nat) (cid : Nat) :
    ∀ (l : List NodeId) (st : State), EdgesEq st (clearAll fuel cid l st).2 := by
  intro l
  induction l with
  | nil => intro st; exact edgesEq_refl st
  | cons k rest ih =>
    intro st
    simp only [clearAll]
    split
    case _ u st1 heq =>
      have h1 := ctxClearOverlay_edgesEq fuel st cid k
      rw [heq] at h1
      exact edgesEq_trans h1 (ih st1)
    case _ e st1 heq =>
      have h1 := ctxClearOverlay_edgesEq fuel st cid k
      rw [heq] at h1
      exact h1

theorem ctxEnter_edgesEq (fuel : Nat) (st : State) (cid : Nat) :
    EdgesEq st (ctxEnter fuel st cid).2 := by
  simp only [ctxEnter]
  split
  case _ e heq =>
    split <;> exact edgesEq_nodesEq rfl
  case _ ovs heq =>
    split <;> exact edgesEq_trans (edgesEq_nodesEq rfl) (applyAll_edgesEq fuel _ _ _)

theorem ctxExit_edgesEq (fuel : Nat) (st : State) (cid : Nat) :
    EdgesEq st (ctxExit fuel st cid).2 := by
  simp only [ctxExit]
  split
  · split <;> exact edgesEq_nodesEq rfl
  case _ a heq =>
    split
    · split <;> exact edgesEq_nodesEq rfl
    case _ ovs heq2 =>
      split
      case _ e st2 heq3 =>
        have h1 := clearAll_edgesEq fuel a (akeys ovs)
          (if (st.ctx cid).populating = true then
            st.updCtx cid fun c => { c with populating := false } else st)
        rw [heq3] at h1
        refine edgesEq_trans ?_ h1
        split <;> exact edgesEq_nodesEq rfl
      case _ u st2 heq3 =>
        have h1 := clearAll_edgesEq fuel a (akeys ovs)
          (if (st.ctx cid).populating = true then
            st.updCtx cid fun c => { c with populating := false } else st)
        rw [heq3] at h1
        have h2 : EdgesEq st st2 := by
          refine edgesEq_trans ?_ h1
          split <;> exact edgesEq_nodesEq rfl
        split
        · exact h2
        · exact edgesEq_trans h2 (edgesEq_nodesEq rfl)

theorem graphOverlayValue_edgesEq (fuel : Nat) (st : State) (n : NodeId) (v : PVal) :
    EdgesEq st (graphOverlayValue fuel st n v).2 := by
  simp only [graphOverlayValue]
  split
  · exact edgesEq_refl st
  · split
    · exact edgesEq_refl st
    · simp only [ctxOverlayValue]
      refine edgesEq_trans (updCtx_edgesEq st _ _) (ctxApplyOverlay_edgesEq fuel _ _ n)

theorem graphClearOverlay_edgesEq (fuel : Nat) (st : State) (n : NodeId) :
    EdgesEq st (graphClearOverlay fuel st n).2 := by
  simp only [graphClearOverlay]
  split
  · exact edgesEq_refl st
  · split
    · exact edgesEq_refl st
    · exact ctxClearOverlay_edgesEq fuel st _ n

theorem applyNodeChanges_edgesEq (fuel : Nat) :
    ∀ (l : List (NodeId × PVal)) (st : State), EdgesEq st (applyNodeChanges fuel l st).2 := by
  intro l
  induction l with
  | nil => intro st; exact edgesEq_refl st
  | cons p rest ih =>
    intro st
    simp only [applyNodeChanges]
    split
    case _ u st1 heq =>
      have h1 := graphSetValue_edgesEq fuel st p.1 p.2
      rw [heq] at h1
      exact edgesEq_trans h1 (ih st1)
    case _ e st1 heq =>
      have h1 := graphSetValue_edgesEq fuel st p.1 p.2
      rw [heq] at h1
      exact h1

theorem gimSetValue_edgesEq (fuel : Nat) (st : State) (n : NodeId) (v : PVal) :
    EdgesEq st (gimSetValue fuel st n v).2 := by
  simp only [gimSetValue]
  split
  · exact applyNodeChanges_edgesEq fuel _ st
  · exact graphSetValue_edgesEq fuel st n v

theorem layerEnter_edgesEq (st : State) (lid : Nat) :
    EdgesEq st (layerEnter st lid).2 := edgesEq_nodesEq rfl

theorem layerExit_edgesEq (st : State) (lid : Nat) :
    EdgesEq st (layerExit st lid).2 := by
  simp only [layerExit]
  split
  · exact edgesEq_refl st
  · exact edgesEq_nodesEq rfl

theorem addEdge_inputs (st : State) (c n x : NodeId) :
    ((addEdge st c n).nodes x).inputs =
      if x = c then addElem (st.nodes x).inputs n else (st.nodes x).inputs := by
  simp only [addEdge, State.updNode]
  split <;> split <;> simp_all

theorem addEdge_outputs (st : State) (c n x : NodeId) :
    ((addEdge st c n).nodes x).outputs =
      if x = n then addElem (st.nodes x).outputs c else (st.nodes x).outputs := by
  simp only [addEdge, State.updNode]
  split <;> split <;> simp_all

theorem addEdge_edgeSymm {st : State} (h : EdgeSymm st) (c n : NodeId) :
    EdgeSymm (addEdge st c n) := by
  intro a b
  rw [addEdge_outputs, addEdge_inputs]
  by_cases hb : b = n <;> by_cases ha : a = c
  · rw [if_pos hb, if_pos ha, mem_addElem_iff, mem_addElem_iff]
    simp [ha, hb]
  · rw [if_pos hb, if_neg ha, mem_addElem_iff]
    simp [ha, h a b]
  · rw [if_neg hb, if_pos ha, mem_addElem_iff]
    simp [hb, h a b]
  · rw [if_neg hb, if_neg ha]
    exact h a b

theorem getValue_edgeSymm (fuel : Nat) :
    (∀ st n, EdgeSymm st → EdgeSymm (graphGetValue fuel st n).2) ∧
      (∀ l st, EdgeSymm st → EdgeSymm (runReads fuel l st).2) := by
  induction fuel with
  | zero => exact ⟨fun _ _ h => h, fun _ _ h => h⟩
  | succ f ih =>
    have hrestore : ∀ (s : State) (a : Option NodeId), EdgeSymm s →
        EdgeSymm { s with activeNode := a } := fun s a hs => hs
    constructor
    · intro st n h
      cases hA : st.activeNode with
      | none =>
        have h2 : EdgeSymm ({ st with activeNode := some n } : State) := h
        simp only [graphGetValue, hA]
        split
        · exact h2
        split
        · exact h2
        split
        · exact h2
        · split
          case _ vs st4 heq =>
            have h4 := ih.2 (match (st.methods n).raisesAt with
              | some i => List.take i (st.methods n).reads
              | none => (st.methods n).reads)
              { st with activeNode := some n, evals := st.evals + 1 }
              (show EdgeSymm
                ({ st with activeNode := some n, evals := st.evals + 1 } : State) from h)
            rw [heq] at h4
            split
            · exact h4
            · exact h4.of_edgesEq (edgesEq_calcStoreUpd _ n _)
          case _ e st4 heq =>
            have h4 := ih.2 (match (st.methods n).raisesAt with
              | some i => List.take i (st.methods n).reads
              | none => (st.methods n).reads)
              { st with activeNode := some n, evals := st.evals + 1 }
              (show EdgeSymm
                ({ st with activeNode := some n, evals := st.evals + 1 } : State) from h)
            rw [heq] at h4
            exact h4
      | some c =>
        have h2 : EdgeSymm (addEdge { st with activeNode := some n } c n) :=
          addEdge_edgeSymm (show EdgeSymm ({ st with activeNode := some n } : State) from h) c n
        simp only [graphGetValue, hA]
        split
        · exact h2
        split
        · exact h2
        split
        · exact h2
        · split
          case _ vs st4 heq =>
            have h4 := ih.2 (match ((addEdge { st with activeNode := some n } c n).methods n).raisesAt with
              | some i => List.take i ((addEdge { st with activeNode := some n } c n).methods n).reads
              | none => ((addEdge { st with activeNode := some n } c n).methods n).reads)
              { addEdge { st with activeNode := some n } c n with
                  evals := (addEdge { st with activeNode := some n } c n).evals + 1 }
              (show EdgeSymm
                ({ addEdge { st with activeNode := some n } c n with
                    evals := (addEdge { st with activeNode := some n } c n).evals + 1 } : State)
                  from h2)
            rw [heq] at h4
            split
            · exact h4
            · exact h4.of_edgesEq (edgesEq_calcStoreUpd _ n _)
          case _ e st4 heq =>
            have h4 := ih.2 (match ((addEdge { st with activeNode := some n } c n).methods n).raisesAt with
              | some i => List.take i ((addEdge { st with activeNode := some n } c n).methods n).reads
              | none => ((addEdge { st with activeNode := some n } c n).methods n).reads)
              { addEdge { st with activeNode := some n } c n with
                  evals := (addEdge { st with activeNode := some n } c n).evals + 1 }
              (show EdgeSymm
                ({ addEdge { st with activeNode := some n } c n with
                    evals := (addEdge { st with activeNode := some n } c n).evals + 1 } : State)
                  from h2)
            rw [heq] at h4
            exact h4
    · intro l st h
      cases l with
      | nil => exact h
      | cons t ts =>
        simp only [runReads]
        split
        case _ v st1 heq =>
          have h1 := ih.1 st t h
          rw [heq] at h1
          split
          case _ vs st2 heq2 =>
            have h2 := ih.2 ts st1 h1
            rw [heq2] at h2
            exact h2
          case _ e st2 heq2 =>
            have h2 := ih.2 ts st1 h1
            rw [heq2] at h2
            exact h2
        case _ e st1 heq =>
          have h1 := ih.1 st t h
          rw [heq] at h1
          exact h1

/-- One user-visible operation on the graph, as dispatched by the
bound-method layer: value read (with dependency capture), set
(delegation-aware), clear-set, overlay, clear-overlay, and the
context / layer scope entries and exits. -/
inductive Op where
  | getV : NodeId → Op
  | setV : NodeId → PVal → Op
  | clearS : NodeId → Op
  | overlayV : NodeId → PVal → Op
  | clearO : NodeId → Op
  | enterCtx : Nat → Op
  | exitCtx : Nat → Op
  | enterLayer : Nat → Op
  | exitLayer : Nat → Op

/-- The state reached by one operation (whether or not it raised: a
raising Python operation also leaves a state behind). -/
def stepOp (fuel : Nat) (st : State) : Op → State
  | Op.getV n => (graphGetValue fuel st n).2
  | Op.setV n v => (gimSetValue fuel st n v).2
  | Op.clearS n => (graphClearSet fuel st n).2
  | Op.overlayV n v => (graphOverlayValue fuel st n v).2
  | Op.clearO n => (graphClearOverlay fuel st n).2
  | Op.enterCtx cid => (ctxEnter fuel st cid).2
  | Op.exitCtx cid => (ctxExit fuel st cid).2
  | Op.enterLayer lid => (layerEnter st lid).2
  | Op.exitLayer lid => (layerExit st lid).2

/-- Runs a sequence of operations. -/
def runOps (fuel : Nat) : List Op → State → State
  | [], st => st
  | op :: rest, st => runOps fuel rest (stepOp fuel st op)

theorem stepOp_edgeSymm (fuel : Nat) (st : State) (op : Op) (h : EdgeSymm st) :
    EdgeSymm (stepOp fuel st op) := by
  cases op with
  | getV n => exact (getValue_edgeSymm fuel).1 st n h
  | setV n v => exact h.of_edgesEq (gimSetValue_edgesEq fuel st n v)
  | clearS n => exact h.of_edgesEq (graphClearSet_edgesEq fuel st n)
  | overlayV n v => exact h.of_edgesEq (graphOverlayValue_edgesEq fuel st n v)
  | clearO n => exact h.of_edgesEq (graphClearOverlay_edgesEq fuel st n)
  | enterCtx cid => exact h.of_edgesEq (ctxEnter_edgesEq fuel st cid)
  | exitCtx cid => exact h.of_edgesEq (ctxExit_edgesEq fuel st cid)
  | enterLayer lid => exact h.of_edgesEq (layerEnter_edgesEq st lid)
  | exitLayer lid => exact h.of_edgesEq (layerExit_edgesEq st lid)

/-- C8: edge symmetry is an invariant: starting from a state where
`N ∈ M.outputs ⇔ M ∈ N.inputs`, every sequence of graph operations
(reads with dependency capture, sets, clears, overlays, scope
entries/exits) preserves it. -/
theorem claim_C8_edge_symmetry (fuel : Nat) (ops : List Op) (st : State)
    (h : EdgeSymm st) : EdgeSymm (runOps fuel ops st) := by
  induction ops generalizing st with
  | nil => exact h
  | cons op rest ih => exact ih _ (stepOp_edgeSymm fuel st op h)

/-- Initial state for the C8 witness: one edge 0 → 1, recorded
symmetrically. -/
def exC8st : State :=
  { nodes := fun k =>
      if k = 0 then { outputs := [1], calcedValue := PVal.vInt 1, isCalced := true }
      else if k = 1 then { inputs := [0] }
      else {},
    methods := fun k => if k = 1 then { reads := [0], flags := 1 } else { flags := 1 } }

theorem exC8st_edgeSymm : EdgeSymm exC8st := by
  intro a b
  by_cases hb0 : b = 0 <;> by_cases ha0 : a = 0 <;>
    by_cases hb1 : b = 1 <;> by_cases ha1 : a = 1 <;>
      simp_all [exC8st]

theorem claim_C8_edge_symmetry_witness :
    (1 ∈ ((runOps 9 [Op.getV 1, Op.setV 0 (PVal.vInt 2), Op.getV 1] exC8st).nodes 0).outputs) ↔
      (0 ∈ ((runOps 9 [Op.getV 1, Op.setV 0 (PVal.vInt 2), Op.getV 1] exC8st).nodes 1).inputs) :=
  claim_C8_edge_symmetry 9 [Op.getV 1, Op.setV 0 (PVal.vInt 2), Op.getV 1] exC8st
    exC8st_edgeSymm 1 0

/-! ### C3: observable values -/

mutual

/-- The observable value of a node: what `getValue` computes, written
as a pure function of the set/overlay state and the methods alone
(caches are ignored; a calced node's observable value is what its
function would recompute).  Mirrors the fuel discipline of
`graphGetValue`. -/
def denVal : Nat → State → NodeId → Except Err PVal
  | 0, _, _ => Except.error Err.fuelOut
  | fuel + 1, st, n =>
    let nd := st.nodes n
    if nd.isOverlaid then Except.ok nd.overlaidValue
    else if nd.isSet then Except.ok nd.setVal
    else
      let m := st.methods n
      let readsList := match m.raisesAt with
        | some i => m.reads.take i
        | none => m.reads
      match denReads fuel readsList st with
      | Except.ok vs =>
        match m.raisesAt with
        | some _ => Except.error Err.userError
        | none => Except.ok (m.compute vs)
      | Except.error e => Except.error e

/-- Observable values of a read list, mirroring `runReads`. -/
def denReads : Nat → List NodeId → State → Except Err (List PVal)
  | 0, _, _ => Except.error Err.fuelOut
  | _ + 1, [], _ => Except.ok []
  | fuel + 1, t :: ts, st =>
    match denVal fuel st t with
    | Except.ok v =>
      match denReads fuel ts st with
      | Except.ok vs => Except.ok (v :: vs)
      | Except.error e => Except.error e
    | Except.error e => Except.error e

end

/-- Success of `denVal` is monotone in fuel. -/
theorem den_mono (fuel : Nat) :
    (∀ st n v, denVal fuel st n = Except.ok v → denVal (fuel + 1) st n = Except.ok v) ∧
      (∀ l st vs, denReads fuel l st = Except.ok vs →
        denReads (fuel + 1) l st = Except.ok vs) := by
  induction fuel with
  | zero =>
    constructor
    · intro st n v h; simp [denVal] at h
    · intro l st vs h; simp [denReads] at h
  | succ f ih =>
    constructor
    · intro st n v h
      simp only [denVal] at h ⊢
      split at h
      case _ hb => rw [if_pos hb]; exact h
      case _ hb =>
        split at h
        case _ hb2 => rw [if_neg hb, if_pos hb2]; exact h
        case _ hb2 =>
          rw [if_neg hb, if_neg hb2]
          split at h
          case _ vs heq =>
            rw [ih.2 _ _ _ heq]
            exact h
          case _ e heq => simp at h
    · intro l st vs h
      cases l with
      | nil => simpa [denReads] using h
      | cons t ts =>
        simp only [denReads] at h ⊢
        split at h
        case _ v heq =>
          rw [ih.1 _ _ _ heq]
          split at h
          case _ vs2 heq2 =>
            rw [ih.2 _ _ _ heq2]
            exact h
          case _ e heq2 => simp at h
        case _ e heq => simp at h

/-- Success of `denVal` transfers to any larger fuel. -/
theorem den_mono_le {f g : Nat} (hfg : f ≤ g) {st : State} {n : NodeId} {v : PVal}
    (h : denVal f st n = Except.ok v) : denVal g st n = Except.ok v := by
  induction g with
  | zero => cases Nat.le_zero.mp hfg; exact h
  | succ g2 ihg =>
    rcases Nat.lt_or_ge f (g2 + 1) with hlt | hge
    · exact (den_mono g2).1 st n v (ihg (Nat.lt_succ_iff.mp hlt))
    · have : f = g2 + 1 := Nat.le_antisymm hfg hge
      rw [← this]; exact h

/-- Two successful `denVal` runs at different fuels agree. -/
theorem den_det {f g : Nat} {st : State} {n : NodeId} {v w : PVal}
    (hf : denVal f st n = Except.ok v) (hg : denVal g st n = Except.ok w) : v = w := by
  have h1 := den_mono_le (Nat.le_max_left f g) hf
  have h2 := den_mono_le (Nat.le_max_right f g) hg
  rw [h1] at h2
  exact (Except.ok.injEq _ _ ▸ h2)

/-- Same methods and same set/overlay fields on every node. -/
def FixEq (st0 st : State) : Prop :=
  st.methods = st0.methods ∧ ∀ x : NodeId,
    (st.nodes x).isOverlaid = (st0.nodes x).isOverlaid ∧
    (st.nodes x).overlaidValue = (st0.nodes x).overlaidValue ∧
    (st.nodes x).isSet = (st0.nodes x).isSet ∧
    (st.nodes x).setVal = (st0.nodes x).setVal

theorem fixEq_refl (st : State) : FixEq st st := ⟨rfl, fun _ => ⟨rfl, rfl, rfl, rfl⟩⟩

/-- Every cached computed value that is observable agrees with the
observable value taken in the reference state `st0`.  A cache is
observable only when the node is neither overlaid nor set — that is
the only branch on which `getValue` serves the cache.  A shadowed
cache is unconstrained: the source retains the stale computed value
when a node is set or overlaid and never serves it while the shadow
lasts, and any later un-shadowing write invalidates it. -/
def Consistent (st st0 : State) : Prop :=
  ∀ x : NodeId, (st.nodes x).isOverlaid = false → (st.nodes x).isSet = false →
    (st.nodes x).isCalced = true →
      ∃ g, denVal g st0 x = Except.ok (st.nodes x).calcedValue

/-- `denVal` only looks at methods and set/overlay fields. -/
theorem den_congr {st0 st : State} (hfix : FixEq st0 st) (fuel : Nat) :
    (∀ n, denVal fuel st n = denVal fuel st0 n) ∧
      (∀ l, denReads fuel l st = denReads fuel l st0) := by
  induction fuel with
  | zero => exact ⟨fun _ => rfl, fun _ => rfl⟩
  | succ f ih =>
    constructor
    · intro n
      obtain ⟨ho, hov, hs, hsv⟩ := hfix.2 n
      simp only [denVal, ho, hov, hs, hsv, hfix.1, ih.2]
    · intro l
      cases l with
      | nil => rfl
      | cons t ts => simp only [denReads, ih.1, ih.2]

theorem fixEq_addEdge (st0 st : State) (c n : NodeId) (h : FixEq st0 st) :
    FixEq st0 (addEdge st c n) :=
  ⟨h.1, fun x => by
    rw [addEdge_isOverlaid, addEdge_overlaidValue, addEdge_isSet, addEdge_setVal]
    exact h.2 x⟩

theorem fixEq_activeNode (st0 st : State) (a : Option NodeId) (h : FixEq st0 st) :
    FixEq st0 { st with activeNode := a } := h

theorem fixEq_evals (st0 st : State) (e : Nat) (h : FixEq st0 st) :
    FixEq st0 { st with evals := e } := h

theorem fixEq_calcStore (st0 st : State) (n : NodeId) (v : PVal) (h : FixEq st0 st) :
    FixEq st0 (st.updNode n (fun d => { d with calcedValue := v, isCalced := true })) := by
  refine ⟨h.1, fun x => ?_⟩
  simp only [State.updNode]
  split
  · obtain ⟨ho, hov, hs, hsv⟩ := h.2 x
    exact ⟨ho, hov, hs, hsv⟩
  · exact h.2 x

theorem consistent_addEdge (st st0 : State) (c n : NodeId) (h : Consistent st st0) :
    Consistent (addEdge st c n) st0 := by
  intro x hxo hxs hx
  rw [addEdge_isOverlaid] at hxo
  rw [addEdge_isSet] at hxs
  rw [addEdge_isCalced] at hx
  rw [addEdge_calcedValue]
  exact h x hxo hxs hx

theorem consistent_activeNode (st st0 : State) (a : Option NodeId) (h : Consistent st st0) :
    Consistent { st with activeNode := a } st0 := h

theorem consistent_evals (st st0 : State) (e : Nat) (h : Consistent st st0) :
    Consistent { st with evals := e } st0 := h

theorem consistent_calcStore (st st0 : State) (n : NodeId) (v : PVal) (g : Nat)
    (hv : denVal g st0 n = Except.ok v) (h : Consistent st st0) :
    Consistent (st.updNode n (fun d => { d with calcedValue := v, isCalced := true })) st0 := by
  intro x hxo hxs hx
  simp only [State.updNode] at hxo hxs hx ⊢
  split at hx
  case _ hxeq =>
    rw [if_pos hxeq]
    exact ⟨g, by simpa [hxeq] using hv⟩
  case _ hxeq =>
    rw [if_neg hxeq]
    rw [if_neg hxeq] at hxo hxs
    exact h x hxo hxs hx

/-- Node-level body of the evaluator, abstracted over the state after
edge capture and the `activeNode` value restored on exit; used to prove
`eval_den` once for both edge-capture cases. -/
theorem eval_den_body (f : Nat)
    (ihrun : ∀ l st st0 vs, FixEq st0 st → Consistent st st0 →
      denReads f l st0 = Except.ok vs →
        (runReads f l st).1 = Except.ok vs ∧ FixEq st0 (runReads f l st).2 ∧
          Consistent (runReads f l st).2 st0)
    (st0 st2 : State) (n : NodeId) (v : PVal) (a : Option NodeId)
    (hfix2 : FixEq st0 st2) (hcons2 : Consistent st2 st0)
    (hden : denVal (f + 1) st0 n = Except.ok v) :
    ((if (st2.nodes n).isOverlaid = true then
        (Except.ok (st2.nodes n).overlaidValue, { st2 with activeNode := a })
      else if (st2.nodes n).isSet = true then
        (Except.ok (st2.nodes n).setVal, { st2 with activeNode := a })
      else if (st2.nodes n).isCalced = true then
        (Except.ok (st2.nodes n).calcedValue, { st2 with activeNode := a })
      else
        match runReads f (match (st2.methods n).raisesAt with
            | some i => List.take i (st2.methods n).reads
            | none => (st2.methods n).reads)
            { st2 with evals := st2.evals + 1 } with
        | (Except.ok vs, st4) =>
          match (st2.methods n).raisesAt with
          | some _ => (Except.error Err.userError, { st4 with activeNode := a })
          | none =>
            (Except.ok ((st2.methods n).compute vs),
              { st4.updNode n (fun d =>
                  { d with calcedValue := (st2.methods n).compute vs, isCalced := true }) with
                activeNode := a })
        | (Except.error e, st4) => (Except.error e, { st4 with activeNode := a }) :
      Except Err PVal × State)).1 = Except.ok v ∧
    FixEq st0 ((if (st2.nodes n).isOverlaid = true then
        (Except.ok (st2.nodes n).overlaidValue, { st2 with activeNode := a })
      else if (st2.nodes n).isSet = true then
        (Except.ok (st2.nodes n).setVal, { st2 with activeNode := a })
      else if (st2.nodes n).isCalced = true then
        (Except.ok (st2.nodes n).calcedValue, { st2 with activeNode := a })
      else
        match runReads f (match (st2.methods n).raisesAt with
            | some i => List.take i (st2.methods n).reads
            | none => (st2.methods n).reads)
            { st2 with evals := st2.evals + 1 } with
        | (Except.ok vs, st4) =>
          match (st2.methods n).raisesAt with
          | some _ => (Except.error Err.userError, { st4 with activeNode := a })
          | none =>
            (Except.ok ((st2.methods n).compute vs),
              { st4.updNode n (fun d =>
                  { d with calcedValue := (st2.methods n).compute vs, isCalced := true }) with
                activeNode := a })
        | (Except.error e, st4) => (Except.error e, { st4 with activeNode := a }) :
      Except Err PVal × State)).2 ∧
    Consistent ((if (st2.nodes n).isOverlaid = true then
        (Except.ok (st2.nodes n).overlaidValue, { st2 with activeNode := a })
      else if (st2.nodes n).isSet = true then
        (Except.ok (st2.nodes n).setVal, { st2 with activeNode := a })
      else if (st2.nodes n).isCalced = true then
        (Except.ok (st2.nodes n).calcedValue, { st2 with activeNode := a })
      else
        match runReads f (match (st2.methods n).raisesAt with
            | some i => List.take i (st2.methods n).reads
            | none => (st2.methods n).reads)
            { st2 with evals := st2.evals + 1 } with
        | (Except.ok vs, st4) =>
          match (st2.methods n).raisesAt with
          | some _ => (Except.error Err.userError, { st4 with activeNode := a })
          | none =>
            (Except.ok ((st2.methods n).compute vs),
              { st4.updNode n (fun d =>
                  { d with calcedValue := (st2.methods n).compute vs, isCalced := true }) with
                activeNode := a })
        | (Except.error e, st4) => (Except.error e, { st4 with activeNode := a }) :
      Except Err PVal × State)).2 st0 := by
  obtain ⟨ho, hov, hs, hsv⟩ := hfix2.2 n
  have hdenOrig := hden
  simp only [denVal] at hden
  split at hden
  case _ hb =>
    rw [if_pos (by rw [ho]; exact hb)]
    exact ⟨by rw [hov]; exact hden, hfix2, hcons2⟩
  case _ hb =>
    split at hden
    case _ hb2 =>
      rw [if_neg (by rw [ho]; simpa using hb), if_pos (by rw [hs]; exact hb2)]
      exact ⟨by rw [hsv]; exact hden, hfix2, hcons2⟩
    case _ hb2 =>
      rw [if_neg (by rw [ho]; simpa using hb), if_neg (by rw [hs]; simpa using hb2)]
      by_cases hcal : (st2.nodes n).isCalced = true
      · rw [if_pos hcal]
        obtain ⟨g, hg⟩ := hcons2 n (by rw [ho]; simpa using hb)
          (by rw [hs]; simpa using hb2) hcal
        exact ⟨by rw [den_det hg hdenOrig], hfix2, hcons2⟩
      · rw [if_neg hcal]
        split
        case _ vs2 st4 heqG =>
          split at hden
          case _ vs heq =>
            have hreads : denReads f (match (st2.methods n).raisesAt with
                | some i => List.take i (st2.methods n).reads
                | none => (st2.methods n).reads) st0 = Except.ok vs := by
              rw [hfix2.1]; exact heq
            have hrun := ihrun (match (st2.methods n).raisesAt with
                | some i => List.take i (st2.methods n).reads
                | none => (st2.methods n).reads)
              { st2 with evals := st2.evals + 1 } st0 vs
              (show FixEq st0 ({ st2 with evals := st2.evals + 1 } : State) from hfix2)
              (show Consistent ({ st2 with evals := st2.evals + 1 } : State) st0 from hcons2)
              hreads
            rw [heqG] at hrun
            obtain ⟨hr1, hr2, hr3⟩ := hrun
            have hvs2 : vs2 = vs := by simpa using hr1
            split at hden
            case _ i hra => simp at hden
            case _ hra =>
              have hra2 : (st2.methods n).raisesAt = none := by rw [hfix2.1]; exact hra
              simp only [hra2]
              have hv : (st2.methods n).compute vs2 = v := by
                rw [hvs2, hfix2.1]
                simpa using hden
              refine ⟨by rw [hv], fixEq_calcStore st0 st4 n _ hr2,
                consistent_calcStore st4 st0 n _ (f + 1) (by rw [hv]; exact hdenOrig) hr3⟩
          case _ e heq => simp at hden
        case _ e st4 heqG =>
          split at hden
          case _ vs heq =>
            have hreads : denReads f (match (st2.methods n).raisesAt with
                | some i => List.take i (st2.methods n).reads
                | none => (st2.methods n).reads) st0 = Except.ok vs := by
              rw [hfix2.1]; exact heq
            have hrun := ihrun (match (st2.methods n).raisesAt with
                | some i => List.take i (st2.methods n).reads
                | none => (st2.methods n).reads)
              { st2 with evals := st2.evals + 1 } st0 vs
              (show FixEq st0 ({ st2 with evals := st2.evals + 1 } : State) from hfix2)
              (show Consistent ({ st2 with evals := st2.evals + 1 } : State) st0 from hcons2)
              hreads
            rw [heqG] at hrun
            obtain ⟨hr1, _, _⟩ := hrun
            simp at hr1
          case _ e2 heq => simp at hden

/-- The evaluator agrees with the observable value: starting from a
state whose set/overlay fields match the reference `st0` and whose
caches are consistent with `st0`, whenever the observable value of a
node is `ok v`, `graphGetValue` returns `ok v`, and the final state
again matches `st0` with consistent caches. -/
theorem eval_den (fuel : Nat) :
    (∀ st st0 n v, FixEq st0 st → Consistent st st0 →
      denVal fuel st0 n = Except.ok v →
        (graphGetValue fuel st n).1 = Except.ok v ∧
          FixEq st0 (graphGetValue fuel st n).2 ∧
          Consistent (graphGetValue fuel st n).2 st0) ∧
    (∀ l st st0 vs, FixEq st0 st → Consistent st st0 →
      denReads fuel l st0 = Except.ok vs →
        (runReads fuel l st).1 = Except.ok vs ∧
          FixEq st0 (runReads fuel l st).2 ∧
          Consistent (runReads fuel l st).2 st0) := by
  induction fuel with
  | zero =>
    constructor
    · intro st st0 n v _ _ h; simp [denVal] at h
    · intro l st st0 vs _ _ h; simp [denReads] at h
  | succ f ih =>
    constructor
    · intro st st0 n v hfix hcons hden
      cases hA : st.activeNode with
      | none =>
        simp only [graphGetValue, hA]
        exact eval_den_body f ih.2 st0 { st with activeNode := some n } n v none
          (show FixEq st0 ({ st with activeNode := some n } : State) from hfix)
          (show Consistent ({ st with activeNode := some n } : State) st0 from hcons) hden
      | some c =>
        simp only [graphGetValue, hA]
        exact eval_den_body f ih.2 st0 (addEdge { st with activeNode := some n } c n) n v
          (some c)
          (fixEq_addEdge st0 { st with activeNode := some n } c n
            (show FixEq st0 ({ st with activeNode := some n } : State) from hfix))
          (consistent_addEdge { st with activeNode := some n } st0 c n
            (show Consistent ({ st with activeNode := some n } : State) st0 from hcons))
          hden
    · intro l st st0 vs hfix hcons hden
      cases l with
      | nil =>
        simp only [denReads] at hden
        refine ⟨?_, hfix, hcons⟩
        simp only [runReads]
        exact hden
      | cons t ts =>
        simp only [denReads] at hden
        split at hden
        case _ v1 heq1 =>
          split at hden
          case _ vs1 heq2 =>
            have hvs : vs = v1 :: vs1 := by simpa using hden.symm
            simp only [runReads]
            split
            case _ v1g st1g heqG =>
              obtain ⟨hg1, hg2, hg3⟩ := ih.1 st st0 t v1 hfix hcons heq1
              rw [heqG] at hg1 hg2 hg3
              have hv1 : v1g = v1 := by simpa using hg1
              split
              case _ vs1g st2g heqG2 =>
                obtain ⟨hh1, hh2, hh3⟩ := ih.2 ts st1g st0 vs1 hg2 hg3 heq2
                rw [heqG2] at hh1 hh2 hh3
                have hvs1 : vs1g = vs1 := by simpa using hh1
                refine ⟨?_, hh2, hh3⟩
                rw [hv1, hvs1, hvs]
              case _ e st2g heqG2 =>
                obtain ⟨hh1, _, _⟩ := ih.2 ts st1g st0 vs1 hg2 hg3 heq2
                rw [heqG2] at hh1
                simp at hh1
            case _ e st1g heqG =>
              obtain ⟨hg1, _, _⟩ := ih.1 st st0 t v1 hfix hcons heq1
              rw [heqG] at hg1
              simp at hg1
          case _ e heq2 => simp at hden
        case _ e heq1 => simp at hden

/-! ### Dictionary and context-heap lemmas -/


theorem alookup_map_set_self : ∀ (l : List (NodeId × PVal)) (k : NodeId) (v : PVal),
    (alookup l k).isSome = true →
    alookup (l.map (fun p => if p.1 = k then (k, v) else p)) k = some v := by
  intro l k v
  induction l with
  | nil => intro h; simp [alookup] at h
  | cons p rest ih =>
    intro h
    obtain ⟨a, b⟩ := p
    simp only [List.map_cons]
    by_cases ha : a = k
    · rw [show (if ((a, b) : NodeId × PVal).1 = k then (k, v) else (a, b)) = (k, v) from
        if_pos ha]
      simp [alookup]
    · rw [show (if ((a, b) : NodeId × PVal).1 = k then (k, v) else (a, b)) = (a, b) from
        if_neg ha]
      simp only [alookup, if_neg ha] at h ⊢
      exact ih h

theorem alookup_append_right : ∀ (l : List (NodeId × PVal)) (k : NodeId) (v : PVal),
    alookup l k = none → alookup (l ++ [(k, v)]) k = some v := by
  intro l k v
  induction l with
  | nil => intro h; simp [alookup]
  | cons p rest ih =>
    intro h
    obtain ⟨a, b⟩ := p
    by_cases ha : a = k
    · simp [alookup, ha] at h
    · simp only [alookup, if_neg ha] at h
      simp only [List.cons_append, alookup, if_neg ha]
      exact ih h

theorem alookup_aset_self (l : List (NodeId × PVal)) (k : NodeId) (v : PVal) :
    alookup (aset l k v) k = some v := by
  simp only [aset]
  split
  case isTrue h => exact alookup_map_set_self l k v h
  case isFalse h =>
    cases hl : alookup l k with
    | none => exact alookup_append_right l k v hl
    | some w => exact absurd (by simp [hl]) h

theorem alookup_map_set_other : ∀ (l : List (NodeId × PVal)) (k x : NodeId) (v : PVal),
    x ≠ k → alookup (l.map (fun p => if p.1 = k then (k, v) else p)) x = alookup l x := by
  intro l k x v hx
  induction l with
  | nil => rfl
  | cons p rest ih =>
    obtain ⟨a, b⟩ := p
    simp only [List.map_cons]
    by_cases ha : a = k
    · rw [show (if ((a, b) : NodeId × PVal).1 = k then (k, v) else (a, b)) = (k, v) from
        if_pos ha]
      simp only [alookup]
      rw [if_neg (fun hc => hx hc.symm), if_neg (fun hc : a = x => hx (hc ▸ ha))]
      exact ih
    · rw [show (if ((a, b) : NodeId × PVal).1 = k then (k, v) else (a, b)) = (a, b) from
        if_neg ha]
      simp only [alookup]
      by_cases hax : a = x
      · rw [if_pos hax, if_pos hax]
      · rw [if_neg hax, if_neg hax]
        exact ih

theorem alookup_append_other : ∀ (l : List (NodeId × PVal)) (k x : NodeId) (v : PVal),
    x ≠ k → alookup (l ++ [(k, v)]) x = alookup l x := by
  intro l k x v hx
  induction l with
  | nil =>
    simp only [List.nil_append, alookup]
    rw [if_neg (fun hc => hx hc.symm)]
  | cons p rest ih =>
    obtain ⟨a, b⟩ := p
    simp only [List.cons_append, alookup]
    by_cases hax : a = x
    · rw [if_pos hax, if_pos hax]
    · rw [if_neg hax, if_neg hax]
      exact ih

theorem alookup_aset_other (l : List (NodeId × PVal)) (k x : NodeId) (v : PVal)
    (hx : x ≠ k) : alookup (aset l k v) x = alookup l x := by
  simp only [aset]
  split
  · exact alookup_map_set_other l k x v hx
  · exact alookup_append_other l k x v hx

theorem alookup_adel_other (l : List (NodeId × PVal)) (k x : NodeId) (hx : x ≠ k) :
    alookup (adel l k) x = alookup l x := by
  induction l with
  | nil => rfl
  | cons p rest ih =>
    obtain ⟨a, b⟩ := p
    simp only [adel, List.filter_cons] at ih ⊢
    by_cases ha : a = k
    · rw [if_neg (by simp [ha])]
      simp only [alookup]
      rw [if_neg (fun hc : a = x => hx (hc ▸ ha))]
      exact ih
    · rw [if_pos (by simp [ha])]
      simp only [alookup]
      by_cases hax : a = x
      · rw [if_pos hax, if_pos hax]
      · rw [if_neg hax, if_neg hax]
        exact ih

theorem alookup_adel_self (l : List (NodeId × PVal)) (k : NodeId) :
    alookup (adel l k) k = none := by
  induction l with
  | nil => rfl
  | cons p rest ih =>
    obtain ⟨a, b⟩ := p
    simp only [adel, List.filter_cons] at ih ⊢
    by_cases ha : a = k
    · rw [if_neg (by simp [ha])]
      exact ih
    · rw [if_pos (by simp [ha])]
      simp only [alookup]
      rw [if_neg ha]
      exact ih

theorem alookup_isSome_iff_mem_keys (l : List (NodeId × PVal)) (k : NodeId) :
    (alookup l k).isSome = true ↔ k ∈ akeys l := by
  induction l with
  | nil => simp [alookup, akeys]
  | cons p rest ih =>
    obtain ⟨a, b⟩ := p
    by_cases ha : a = k
    · simp [alookup, akeys, ha]
    · simp only [alookup, if_neg ha, akeys, List.map, List.mem_cons]
      rw [ih]
      constructor
      · exact fun h => Or.inr h
      · rintro (h | h)
        · exact absurd h.symm ha
        · exact h


theorem lget_lmodify_other (l : List GraphContext) (i j : Nat)
    (f : GraphContext → GraphContext) (hij : j ≠ i) :
    lget (lmodify l i f) j = lget l j := by
  induction l generalizing i j with
  | nil => rfl
  | cons c rest ih =>
    cases i with
    | zero =>
      cases j with
      | zero => exact absurd rfl hij
      | succ j2 => rfl
    | succ i2 =>
      cases j with
      | zero => rfl
      | succ j2 => exact ih i2 j2 (fun hc => hij (by rw [hc]))

theorem lget_lmodify_self (l : List GraphContext) (i : Nat)
    (f : GraphContext → GraphContext) (hi : i < l.length) :
    lget (lmodify l i f) i = f (lget l i) := by
  induction l generalizing i with
  | nil => simp at hi
  | cons c rest ih =>
    cases i with
    | zero => rfl
    | succ i2 => exact ih i2 (Nat.lt_of_succ_lt_succ hi)

theorem lmodify_length (l : List GraphContext) (i : Nat) (f : GraphContext → GraphContext) :
    (lmodify l i f).length = l.length := by
  induction l generalizing i with
  | nil => rfl
  | cons c rest ih =>
    cases i with
    | zero => rfl
    | succ i2 => simpa [lmodify] using ih i2

theorem lget_append_lt (l : List GraphContext) (c : GraphContext) (j : Nat)
    (hj : j < l.length) : lget (l ++ [c]) j = lget l j := by
  induction l generalizing j with
  | nil => simp at hj
  | cons d rest ih =>
    cases j with
    | zero => rfl
    | succ j2 => exact ih j2 (Nat.lt_of_succ_lt_succ hj)

theorem lget_append_self (l : List GraphContext) (c : GraphContext) :
    lget (l ++ [c]) l.length = c := by
  induction l with
  | nil => rfl
  | cons d rest ih => simpa [lget] using ih

/-- The fields of the context heap that `allOverlays` consults are
identical in the two states. -/
def CtxOverlayEq (st st' : State) : Prop :=
  ∀ j : Nat, (st'.ctx j).overlays = (st.ctx j).overlays ∧
    (st'.ctx j).removed = (st.ctx j).removed ∧
    (st'.ctx j).parent = (st.ctx j).parent

theorem allOverlaysAux_congr {st st' : State} (h : CtxOverlayEq st st') :
    ∀ f c, allOverlaysAux st' f c = allOverlaysAux st f c := by
  intro f
  induction f with
  | zero => intro c; rfl
  | succ g ih =>
    intro c
    obtain ⟨ho, hr, hp⟩ := h c
    simp only [allOverlaysAux, ho, hr, hp, ih]

theorem allOverlays_congr {st st' : State} (h : CtxOverlayEq st st') (c : Nat) :
    allOverlays st' c = allOverlays st c :=
  allOverlaysAux_congr h _ c

/-- Parent indices decrease: every context's parent was allocated
before it, which holds for every heap the source can build. -/
def ParentsLt (st : State) : Prop :=
  ∀ j p : Nat, (st.ctx j).parent = some p → p < j

theorem allOverlaysAux_fuel_eq (st : State) (hpar : ParentsLt st) :
    ∀ c f g, c + 1 ≤ f → c + 1 ≤ g →
      allOverlaysAux st f c = allOverlaysAux st g c := by
  intro c
  induction c using Nat.strong_induction_on with
  | _ c ih =>
    intro f g hf hg
    obtain ⟨f2, rfl⟩ : ∃ f2, f = f2 + 1 := ⟨f - 1, by omega⟩
    obtain ⟨g2, rfl⟩ : ∃ g2, g = g2 + 1 := ⟨g - 1, by omega⟩
    simp only [allOverlaysAux]
    split
    · rfl
    case _ p hp =>
      have hpc : p < c := hpar c p hp
      rw [ih p hpc f2 g2 (by omega) (by omega)]

theorem lget_ge (l : List GraphContext) (j : Nat) (hj : l.length ≤ j) : lget l j = {} := by
  induction l generalizing j with
  | nil => rfl
  | cons c rest ih =>
    cases j with
    | zero => simp at hj
    | succ j2 => exact ih j2 (Nat.le_of_succ_le_succ hj)

/-- `allOverlaysAux` below a bound only depends on the overlay fields
of the contexts below the bound, provided parents decrease. -/
theorem allOverlaysAux_congr_lt {st st2 : State} (N : Nat) (hpar : ParentsLt st)
    (h : ∀ j, j < N → (st2.ctx j).overlays = (st.ctx j).overlays ∧
      (st2.ctx j).removed = (st.ctx j).removed ∧
      (st2.ctx j).parent = (st.ctx j).parent) :
    ∀ f c, c < N → allOverlaysAux st2 f c = allOverlaysAux st f c := by
  intro f
  induction f with
  | zero => intro c _; rfl
  | succ g ih =>
    intro c hc
    obtain ⟨ho, hr, hp⟩ := h c hc
    simp only [allOverlaysAux, ho, hr, hp]
    cases hpc : (st.ctx c).parent with
    | none => rfl
    | some p =>
      have hplt : p < c := hpar c p hpc
      simp only [ih p (Nat.lt_trans hplt hc)]

/-- `allOverlays` of a freshly allocated transient child context: its
own overlay and removal sets are empty, so the result is its parent
chain's snapshot. -/
theorem allOverlays_dummy (s2 : State) (N : Nat) (cid : Nat) (L : List (NodeId × PVal))
    (hdum : s2.ctx N = { parent := some cid })
    (hbase : allOverlaysAux s2 N cid = Except.ok L) :
    allOverlays s2 N = Except.ok L := by
  show allOverlaysAux s2 (N + 1) N = Except.ok L
  simp only [allOverlaysAux, hdum]
  rw [hbase]
  rfl

/-- What every single apply / clear step inside a scope preserves:
everything outside the [stash, applied, overlays, removed] fields of
the working context cid and the [overlay fields, calc fields] of the
nodes; cached calc values only shrink. -/
structure CtxFrame (cid : Nat) (st st' : State) : Prop where
  methodsEq : st'.methods = st.methods
  activeNodeEq : st'.activeNode = st.activeNode
  activeCtxEq : st'.activeCtx = st.activeCtx
  layersEq : st'.layers = st.layers
  activeLayerEq : st'.activeLayer = st.activeLayer
  evalsEq : st'.evals = st.evals
  isSetEq : ∀ x, (st'.nodes x).isSet = (st.nodes x).isSet
  setValEq : ∀ x, (st'.nodes x).setVal = (st.nodes x).setVal
  inputsEq : ∀ x, (st'.nodes x).inputs = (st.nodes x).inputs
  outputsEq : ∀ x, (st'.nodes x).outputs = (st.nodes x).outputs
  calcKeep : ∀ x, (st'.nodes x).isCalced = true →
    (st.nodes x).isCalced = true ∧ (st'.nodes x).calcedValue = (st.nodes x).calcedValue
  ctxsLenEq : st'.ctxs.length = st.ctxs.length
  ctxOtherEq : ∀ j, j ≠ cid → st'.ctx j = st.ctx j
  parentEq : (st'.ctx cid).parent = (st.ctx cid).parent
  populatingEq : (st'.ctx cid).populating = (st.ctx cid).populating
  saveParentEq : (st'.ctx cid).saveParent = (st.ctx cid).saveParent

theorem ctxFrame_refl (cid : Nat) (st : State) : CtxFrame cid st st :=
  ⟨rfl, rfl, rfl, rfl, rfl, rfl, fun _ => rfl, fun _ => rfl, fun _ => rfl, fun _ => rfl,
    fun _ h => ⟨h, rfl⟩, rfl, fun _ _ => rfl, rfl, rfl, rfl⟩

theorem ctxFrame_trans {cid : Nat} {s1 s2 s3 : State} (h12 : CtxFrame cid s1 s2)
    (h23 : CtxFrame cid s2 s3) : CtxFrame cid s1 s3 := by
  refine ⟨h23.methodsEq.trans h12.methodsEq, h23.activeNodeEq.trans h12.activeNodeEq,
    h23.activeCtxEq.trans h12.activeCtxEq, h23.layersEq.trans h12.layersEq,
    h23.activeLayerEq.trans h12.activeLayerEq, h23.evalsEq.trans h12.evalsEq,
    fun x => (h23.isSetEq x).trans (h12.isSetEq x),
    fun x => (h23.setValEq x).trans (h12.setValEq x),
    fun x => (h23.inputsEq x).trans (h12.inputsEq x),
    fun x => (h23.outputsEq x).trans (h12.outputsEq x),
    fun x h => ?_, h23.ctxsLenEq.trans h12.ctxsLenEq,
    fun j hj => (h23.ctxOtherEq j hj).trans (h12.ctxOtherEq j hj),
    h23.parentEq.trans h12.parentEq, h23.populatingEq.trans h12.populatingEq,
    h23.saveParentEq.trans h12.saveParentEq⟩
  obtain ⟨h2, hv2⟩ := h23.calcKeep x h
  obtain ⟨h1, hv1⟩ := h12.calcKeep x h2
  exact ⟨h1, hv2.trans hv1⟩

theorem updCtx_ctx_self (st : State) (cid : Nat) (f : GraphContext → GraphContext)
    (h : cid < st.ctxs.length) : (st.updCtx cid f).ctx cid = f (st.ctx cid) :=
  lget_lmodify_self st.ctxs cid f h

theorem updCtx_ctx_other (st : State) (cid j : Nat) (f : GraphContext → GraphContext)
    (hj : j ≠ cid) : (st.updCtx cid f).ctx j = st.ctx j :=
  lget_lmodify_other st.ctxs cid j f hj

theorem updCtx_ctxs_length (st : State) (cid : Nat) (f : GraphContext → GraphContext) :
    (st.updCtx cid f).ctxs.length = st.ctxs.length :=
  lmodify_length st.ctxs cid f

theorem calcOnly_ctx {st st' : State} (h : CalcOnly st st') (j : Nat) :
    st'.ctx j = st.ctx j := by
  simp only [State.ctx, h.ctxsEq]

/-- What one `applyOverlay` tail (after the stash update produced
`st1`) does: the working context gains the applied mark, the target
node becomes overlaid with the snapshot value, and everything in
`CtxFrame` is preserved. -/
theorem ctxApplyOverlay_post (fuel : Nat) (st1 st : State) (cid : Nat) (n : NodeId) (vn : PVal)
    (hnodes : st1.nodes = st.nodes)
    (hmeth : st1.methods = st.methods)
    (hact : st1.activeNode = st.activeNode)
    (hactc : st1.activeCtx = st.activeCtx)
    (hlay : st1.layers = st.layers)
    (hal : st1.activeLayer = st.activeLayer)
    (hev : st1.evals = st.evals)
    (hlen : st1.ctxs.length = st.ctxs.length)
    (hother : ∀ j, j ≠ cid → st1.ctx j = st.ctx j)
    (hov : (st1.ctx cid).overlays = (st.ctx cid).overlays)
    (hrm : (st1.ctx cid).removed = (st.ctx cid).removed)
    (hpar : (st1.ctx cid).parent = (st.ctx cid).parent)
    (hpop : (st1.ctx cid).populating = (st.ctx cid).populating)
    (hsp : (st1.ctx cid).saveParent = (st.ctx cid).saveParent)
    (happ : (st1.ctx cid).applied = (st.ctx cid).applied)
    (hcid : cid < st.ctxs.length) :
    CtxFrame cid st
      (((invalidateOutputCalcs fuel st1 n).updNode n
        (fun d => { d with overlaidValue := vn, isOverlaid := true })).updCtx cid
        (fun c => { c with applied := addElem c.applied n })) ∧
    ((((invalidateOutputCalcs fuel st1 n).updNode n
        (fun d => { d with overlaidValue := vn, isOverlaid := true })).updCtx cid
        (fun c => { c with applied := addElem c.applied n })).ctx cid).overlays =
      (st.ctx cid).overlays ∧
    ((((invalidateOutputCalcs fuel st1 n).updNode n
        (fun d => { d with overlaidValue := vn, isOverlaid := true })).updCtx cid
        (fun c => { c with applied := addElem c.applied n })).ctx cid).removed =
      (st.ctx cid).removed ∧
    (∀ x, x ≠ n →
      ((((invalidateOutputCalcs fuel st1 n).updNode n
        (fun d => { d with overlaidValue := vn, isOverlaid := true })).updCtx cid
        (fun c => { c with applied := addElem c.applied n })).nodes x).isOverlaid =
        (st.nodes x).isOverlaid ∧
      ((((invalidateOutputCalcs fuel st1 n).updNode n
        (fun d => { d with overlaidValue := vn, isOverlaid := true })).updCtx cid
        (fun c => { c with applied := addElem c.applied n })).nodes x).overlaidValue =
        (st.nodes x).overlaidValue) ∧
    ((((invalidateOutputCalcs fuel st1 n).updNode n
        (fun d => { d with overlaidValue := vn, isOverlaid := true })).updCtx cid
        (fun c => { c with applied := addElem c.applied n })).nodes n).isOverlaid = true ∧
    ((((invalidateOutputCalcs fuel st1 n).updNode n
        (fun d => { d with overlaidValue := vn, isOverlaid := true })).updCtx cid
        (fun c => { c with applied := addElem c.applied n })).nodes n).overlaidValue = vn ∧
    ((((invalidateOutputCalcs fuel st1 n).updNode n
        (fun d => { d with overlaidValue := vn, isOverlaid := true })).updCtx cid
        (fun c => { c with applied := addElem c.applied n })).ctx cid).stash =
      (st1.ctx cid).stash ∧
    ((((invalidateOutputCalcs fuel st1 n).updNode n
        (fun d => { d with overlaidValue := vn, isOverlaid := true })).updCtx cid
        (fun c => { c with applied := addElem c.applied n })).ctx cid).applied =
      addElem (st.ctx cid).applied n := by
  have hco := invalidateOutputCalcs_calcOnly fuel st1 n
  have hlen2 : ((invalidateOutputCalcs fuel st1 n).updNode n
      (fun d => { d with overlaidValue := vn, isOverlaid := true })).ctxs.length =
      st.ctxs.length := by
    show (invalidateOutputCalcs fuel st1 n).ctxs.length = st.ctxs.length
    rw [hco.ctxsEq, hlen]
  have hcid2 : cid < ((invalidateOutputCalcs fuel st1 n).updNode n
      (fun d => { d with overlaidValue := vn, isOverlaid := true })).ctxs.length := by
    rw [hlen2]; exact hcid
  have hself := updCtx_ctx_self ((invalidateOutputCalcs fuel st1 n).updNode n
    (fun d => { d with overlaidValue := vn, isOverlaid := true })) cid
    (fun c => { c with applied := addElem c.applied n }) hcid2
  have hctx2 : ∀ j, (((invalidateOutputCalcs fuel st1 n).updNode n
      (fun d => { d with overlaidValue := vn, isOverlaid := true })).ctx j) = st1.ctx j :=
    fun j => calcOnly_ctx hco j
  have hcself : ((((invalidateOutputCalcs fuel st1 n).updNode n
      (fun d => { d with overlaidValue := vn, isOverlaid := true })).updCtx cid
      (fun c => { c with applied := addElem c.applied n })).ctx cid) =
      { st1.ctx cid with applied := addElem (st1.ctx cid).applied n } := by
    rw [hself, hctx2 cid]
  have hnnF : ∀ x, ((((invalidateOutputCalcs fuel st1 n).updNode n
      (fun d => { d with overlaidValue := vn, isOverlaid := true })).updCtx cid
      (fun c => { c with applied := addElem c.applied n })).nodes x) =
      if x = n then { (invalidateOutputCalcs fuel st1 n).nodes x with
        overlaidValue := vn, isOverlaid := true }
      else (invalidateOutputCalcs fuel st1 n).nodes x :=
    fun x => updNode_nodes_eq (invalidateOutputCalcs fuel st1 n) n
      (fun d => { d with overlaidValue := vn, isOverlaid := true }) x
  refine ⟨⟨?_, ?_, ?_, ?_, ?_, ?_, ?_, ?_, ?_, ?_, ?_, ?_, ?_, ?_, ?_, ?_⟩,
    ?_, ?_, ?_, ?_, ?_, ?_, ?_⟩
  · show (invalidateOutputCalcs fuel st1 n).methods = st.methods
    rw [hco.methodsEq, hmeth]
  · show (invalidateOutputCalcs fuel st1 n).activeNode = st.activeNode
    rw [hco.activeNodeEq, hact]
  · show (invalidateOutputCalcs fuel st1 n).activeCtx = st.activeCtx
    rw [hco.activeCtxEq, hactc]
  · show (invalidateOutputCalcs fuel st1 n).layers = st.layers
    rw [hco.layersEq, hlay]
  · show (invalidateOutputCalcs fuel st1 n).activeLayer = st.activeLayer
    rw [hco.activeLayerEq, hal]
  · show (invalidateOutputCalcs fuel st1 n).evals = st.evals
    rw [hco.evalsEq, hev]
  · intro x
    rw [hnnF x]
    by_cases hx : x = n
    · rw [if_pos hx]
      show ((invalidateOutputCalcs fuel st1 n).nodes x).isSet = (st.nodes x).isSet
      rw [hco.isSetEq x, hnodes]
    · rw [if_neg hx, hco.isSetEq x, hnodes]
  · intro x
    rw [hnnF x]
    by_cases hx : x = n
    · rw [if_pos hx]
      show ((invalidateOutputCalcs fuel st1 n).nodes x).setVal = (st.nodes x).setVal
      rw [hco.setValEq x, hnodes]
    · rw [if_neg hx, hco.setValEq x, hnodes]
  · intro x
    rw [hnnF x]
    by_cases hx : x = n
    · rw [if_pos hx]
      show ((invalidateOutputCalcs fuel st1 n).nodes x).inputs = (st.nodes x).inputs
      rw [hco.inputsEq x, hnodes]
    · rw [if_neg hx, hco.inputsEq x, hnodes]
  · intro x
    rw [hnnF x]
    by_cases hx : x = n
    · rw [if_pos hx]
      show ((invalidateOutputCalcs fuel st1 n).nodes x).outputs = (st.nodes x).outputs
      rw [hco.outputsEq x, hnodes]
    · rw [if_neg hx, hco.outputsEq x, hnodes]
  · intro x hx
    rw [hnnF x] at hx ⊢
    by_cases hxn : x = n
    · rw [if_pos hxn] at hx ⊢
      replace hx : ((invalidateOutputCalcs fuel st1 n).nodes x).isCalced = true := hx
      obtain ⟨h1, h2⟩ := hco.calcKeep x hx
      rw [hnodes] at h1 h2
      refine ⟨h1, ?_⟩
      show ((invalidateOutputCalcs fuel st1 n).nodes x).calcedValue = (st.nodes x).calcedValue
      exact h2
    · rw [if_neg hxn] at hx ⊢
      obtain ⟨h1, h2⟩ := hco.calcKeep x hx
      rw [hnodes] at h1 h2
      exact ⟨h1, h2⟩
  · rw [updCtx_ctxs_length, hlen2]
  · intro j hj
    rw [updCtx_ctx_other _ cid j _ hj, hctx2 j, hother j hj]
  · rw [hcself]
    exact hpar
  · rw [hcself]
    exact hpop
  · rw [hcself]
    exact hsp
  · rw [hcself]
    exact hov
  · rw [hcself]
    exact hrm
  · intro x hx
    rw [hnnF x, if_neg hx]
    constructor
    · rw [hco.isOverlaidEq x, hnodes]
    · rw [hco.overlaidValueEq x, hnodes]
  · rw [hnnF n, if_pos rfl]
  · rw [hnnF n, if_pos rfl]
  · rw [hcself]
  · rw [hcself]
    show addElem (st1.ctx cid).applied n = addElem (st.ctx cid).applied n
    rw [happ]

/-- Specification of one `GraphContext.applyOverlay` step on a key
present in the `allOverlays` snapshot: it succeeds, marks the key
applied, overlays the node with the snapshot value, stashes the prior
overlay value when the node was already overlaid and not yet applied,
and preserves the `CtxFrame`. -/
theorem ctxApplyOverlay_spec (fuel : Nat) (st : State) (cid : Nat) (n : NodeId)
    (L : List (NodeId × PVal)) (vn : PVal)
    (hcid : cid < st.ctxs.length)
    (hall : allOverlays st cid = Except.ok L)
    (hn : alookup L n = some vn) :
    (ctxApplyOverlay fuel st cid n).1 = Except.ok () ∧
    CtxFrame cid st (ctxApplyOverlay fuel st cid n).2 ∧
    (((ctxApplyOverlay fuel st cid n).2.ctx cid).overlays = (st.ctx cid).overlays ∧
     ((ctxApplyOverlay fuel st cid n).2.ctx cid).removed = (st.ctx cid).removed) ∧
    (∀ x, x ≠ n → (((ctxApplyOverlay fuel st cid n).2.nodes x).isOverlaid =
        (st.nodes x).isOverlaid ∧
      ((ctxApplyOverlay fuel st cid n).2.nodes x).overlaidValue =
        (st.nodes x).overlaidValue)) ∧
    ((ctxApplyOverlay fuel st cid n).2.nodes n).isOverlaid = true ∧
    ((ctxApplyOverlay fuel st cid n).2.nodes n).overlaidValue = vn ∧
    ((ctxApplyOverlay fuel st cid n).2.ctx cid).stash =
      (if (st.nodes n).isOverlaid && !(decide (n ∈ (st.ctx cid).applied)) then
        aset (st.ctx cid).stash n (st.nodes n).overlaidValue
       else (st.ctx cid).stash) ∧
    ((ctxApplyOverlay fuel st cid n).2.ctx cid).applied =
      addElem (st.ctx cid).applied n := by
  by_cases hcnd : ((st.nodes n).isOverlaid && !(decide (n ∈ (st.ctx cid).applied))) = true
  · have hchain : CtxOverlayEq st (st.updCtx cid
        (fun c => { c with stash := aset c.stash n (st.nodes n).overlaidValue })) := by
      intro j
      by_cases hj : j = cid
      · subst hj
        rw [updCtx_ctx_self st j _ hcid]
        exact ⟨rfl, rfl, rfl⟩
      · rw [updCtx_ctx_other st cid j _ hj]
        exact ⟨rfl, rfl, rfl⟩
    have hget : ctxGetOverlay (st.updCtx cid
        (fun c => { c with stash := aset c.stash n (st.nodes n).overlaidValue })) cid n =
        Except.ok vn := by
      simp only [ctxGetOverlay, allOverlays_congr hchain, hall, hn]
    have heq : ctxApplyOverlay fuel st cid n =
        (Except.ok (), ((invalidateOutputCalcs fuel (st.updCtx cid
          (fun c => { c with stash := aset c.stash n (st.nodes n).overlaidValue })) n).updNode n
          (fun d => { d with overlaidValue := vn, isOverlaid := true })).updCtx cid
          (fun c => { c with applied := addElem c.applied n })) := by
      simp only [ctxApplyOverlay, if_pos hcnd, hget, nodeOverlayValue_eq]
    have hc1 := updCtx_ctx_self st cid
      (fun c => { c with stash := aset c.stash n (st.nodes n).overlaidValue }) hcid
    obtain ⟨hframe, hov2, hrm2, hoth, hn1, hn2, hstash, happ2⟩ :=
      ctxApplyOverlay_post fuel (st.updCtx cid
          (fun c => { c with stash := aset c.stash n (st.nodes n).overlaidValue })) st cid n vn
        rfl rfl rfl rfl rfl rfl rfl (updCtx_ctxs_length st cid _)
        (fun j hj => updCtx_ctx_other st cid j _ hj)
        (by rw [hc1]) (by rw [hc1]) (by rw [hc1]) (by rw [hc1]) (by rw [hc1]) (by rw [hc1])
        hcid
    rw [heq] at *
    refine ⟨rfl, hframe, ⟨hov2, hrm2⟩, hoth, hn1, hn2, ?_, happ2⟩
    rw [if_pos hcnd]
    rw [hstash, hc1]
  · have hget : ctxGetOverlay st cid n = Except.ok vn := by
      simp only [ctxGetOverlay, hall, hn]
    have heq : ctxApplyOverlay fuel st cid n =
        (Except.ok (), ((invalidateOutputCalcs fuel st n).updNode n
          (fun d => { d with overlaidValue := vn, isOverlaid := true })).updCtx cid
          (fun c => { c with applied := addElem c.applied n })) := by
      simp only [ctxApplyOverlay, if_neg hcnd, hget, nodeOverlayValue_eq]
    obtain ⟨hframe, hov2, hrm2, hoth, hn1, hn2, hstash, happ2⟩ :=
      ctxApplyOverlay_post fuel st st cid n vn
        rfl rfl rfl rfl rfl rfl rfl rfl (fun j _ => rfl)
        rfl rfl rfl rfl rfl rfl hcid
    rw [heq] at *
    refine ⟨rfl, hframe, ⟨hov2, hrm2⟩, hoth, hn1, hn2, ?_, happ2⟩
    rw [if_neg hcnd]
    exact hstash

/-- Specification of the apply loop of `GraphContext.__enter__` over a
duplicate-free key list of the `allOverlays` snapshot, none of whose
keys is applied yet: it succeeds, every key's node ends overlaid with
its snapshot value, the stash records the prior overlay value of every
key that was overlaid before, everything else keeps its overlay state,
and the `CtxFrame` is preserved. -/
theorem applyAll_spec (fuel : Nat) (cid : Nat) (L : List (NodeId × PVal)) :
    ∀ (K : List NodeId) (st : State),
      cid < st.ctxs.length →
      allOverlays st cid = Except.ok L →
      K.Nodup →
      (∀ k ∈ K, (alookup L k).isSome = true) →
      (∀ k ∈ K, k ∉ (st.ctx cid).applied) →
      (applyAll fuel cid K st).1 = Except.ok () ∧
      CtxFrame cid st (applyAll fuel cid K st).2 ∧
      (((applyAll fuel cid K st).2.ctx cid).overlays = (st.ctx cid).overlays ∧
       ((applyAll fuel cid K st).2.ctx cid).removed = (st.ctx cid).removed) ∧
      (∀ x, x ∉ K → (((applyAll fuel cid K st).2.nodes x).isOverlaid =
          (st.nodes x).isOverlaid ∧
        ((applyAll fuel cid K st).2.nodes x).overlaidValue =
          (st.nodes x).overlaidValue)) ∧
      (∀ k ∈ K, ((applyAll fuel cid K st).2.nodes k).isOverlaid = true ∧
        alookup L k = some (((applyAll fuel cid K st).2.nodes k).overlaidValue)) ∧
      (∀ k ∈ K, alookup ((applyAll fuel cid K st).2.ctx cid).stash k =
        (if (st.nodes k).isOverlaid = true then some ((st.nodes k).overlaidValue)
         else alookup (st.ctx cid).stash k)) ∧
      (∀ x, x ∉ K → alookup ((applyAll fuel cid K st).2.ctx cid).stash x =
        alookup (st.ctx cid).stash x) ∧
      (∀ x, x ∈ ((applyAll fuel cid K st).2.ctx cid).applied ↔
        (x ∈ K ∨ x ∈ (st.ctx cid).applied)) := by
  intro K
  induction K with
  | nil =>
    intro st hcid hall _ _ _
    refine ⟨rfl, ctxFrame_refl cid st, ⟨rfl, rfl⟩, fun x _ => ⟨rfl, rfl⟩,
      fun k hk => absurd hk (List.not_mem_nil k), fun k hk => absurd hk (List.not_mem_nil k),
      fun x _ => rfl, fun x => ?_⟩
    simp [applyAll]
  | cons k rest ih =>
    intro st hcid hall hnodup hlook happl
    obtain ⟨vn, hvn⟩ := Option.isSome_iff_exists.mp (hlook k (List.mem_cons_self k rest))
    obtain ⟨h1, hframe, ⟨hovS, hrmS⟩, hothS, hk1, hkv, hstashS, happS⟩ :=
      ctxApplyOverlay_spec fuel st cid k L vn hcid hall hvn
    have hknotapp : k ∉ (st.ctx cid).applied := happl k (List.mem_cons_self k rest)
    have hknotrest : k ∉ rest := (List.nodup_cons.mp hnodup).1
    have hrestnodup : rest.Nodup := (List.nodup_cons.mp hnodup).2
    have hsplit : applyAll fuel cid (k :: rest) st =
        applyAll fuel cid rest (ctxApplyOverlay fuel st cid k).2 := by
      simp only [applyAll]
      split
      case _ u st1 heq => rw [heq]
      case _ e st1 heq =>
        exfalso
        rw [heq] at h1
        simp at h1
    have hcid1 : cid < (ctxApplyOverlay fuel st cid k).2.ctxs.length := by
      rw [hframe.ctxsLenEq]; exact hcid
    have hchain1 : CtxOverlayEq st (ctxApplyOverlay fuel st cid k).2 := by
      intro j
      by_cases hj : j = cid
      · subst hj
        exact ⟨hovS, hrmS, hframe.parentEq⟩
      · rw [hframe.ctxOtherEq j hj]
        exact ⟨rfl, rfl, rfl⟩
    have hall1 : allOverlays (ctxApplyOverlay fuel st cid k).2 cid = Except.ok L :=
      (allOverlays_congr hchain1 cid).trans hall
    have hlook1 : ∀ k2 ∈ rest, (alookup L k2).isSome = true :=
      fun k2 hk2 => hlook k2 (List.mem_cons_of_mem k hk2)
    have happl1 : ∀ k2 ∈ rest, k2 ∉ ((ctxApplyOverlay fuel st cid k).2.ctx cid).applied := by
      intro k2 hk2
      rw [happS, mem_addElem_iff]
      rintro (hin | heqk)
      · exact happl k2 (List.mem_cons_of_mem k hk2) hin
      · exact hknotrest (heqk ▸ hk2)
    obtain ⟨ih1, ihframe, ⟨ihov, ihrm⟩, ihoth, ihmem, ihstashK, ihstashO, ihapp⟩ :=
      ih (ctxApplyOverlay fuel st cid k).2 hcid1 hall1 hrestnodup hlook1 happl1
    have hstash1x : ∀ x, x ≠ k →
        alookup (((ctxApplyOverlay fuel st cid k).2.ctx cid)).stash x =
        alookup (st.ctx cid).stash x := by
      intro x hxk
      rw [hstashS]
      split
      · exact alookup_aset_other _ _ _ _ hxk
      · rfl
    rw [hsplit]
    refine ⟨ih1, ctxFrame_trans hframe ihframe, ⟨ihov.trans hovS, ihrm.trans hrmS⟩, ?_, ?_, ?_, ?_, ?_⟩
    · intro x hx
      have hxk : x ≠ k := fun hc => hx (hc ▸ List.mem_cons_self k rest)
      have hxrest : x ∉ rest := fun hc => hx (List.mem_cons_of_mem k hc)
      obtain ⟨ha1, ha2⟩ := ihoth x hxrest
      obtain ⟨hb1, hb2⟩ := hothS x hxk
      exact ⟨ha1.trans hb1, ha2.trans hb2⟩
    · intro k2 hmem2
      rcases List.mem_cons.mp hmem2 with heqk | hin
      · rw [heqk]
        obtain ⟨ha1, ha2⟩ := ihoth k hknotrest
        refine ⟨ha1.trans hk1, ?_⟩
        rw [ha2.trans hkv]
        exact hvn
      · exact ihmem k2 hin
    · intro k2 hmem2
      rcases List.mem_cons.mp hmem2 with heqk | hin
      · rw [heqk]
        rw [ihstashO k hknotrest, hstashS]
        have hdec : decide (k ∈ (st.ctx cid).applied) = false := by
          simp [hknotapp]
        rw [hdec]
        by_cases hovk : (st.nodes k).isOverlaid = true
        · simp [hovk, alookup_aset_self]
        · have hovk2 : (st.nodes k).isOverlaid = false := by
            cases hql : (st.nodes k).isOverlaid
            · rfl
            · exact absurd hql hovk
          simp [hovk2]
      · have hk2k : k2 ≠ k := fun hc => hknotrest (hc ▸ hin)
        rw [ihstashK k2 hin]
        obtain ⟨hb1, hb2⟩ := hothS k2 hk2k
        rw [hb1, hb2, hstash1x k2 hk2k]
    · intro x hx
      have hxk : x ≠ k := fun hc => hx (hc ▸ List.mem_cons_self k rest)
      have hxrest : x ∉ rest := fun hc => hx (List.mem_cons_of_mem k hc)
      rw [ihstashO x hxrest, hstash1x x hxk]
    · intro x
      rw [ihapp x, happS, mem_addElem_iff]
      constructor
      · rintro (h | h | h)
        · exact Or.inl (List.mem_cons_of_mem k h)
        · exact Or.inr h
        · exact Or.inl (h ▸ List.mem_cons_self k rest)
      · rintro (h | h)
        · rcases List.mem_cons.mp h with h2 | h2
          · exact Or.inr (Or.inr h2)
          · exact Or.inl h2
        · exact Or.inr (Or.inl h)

/-- What an invalidate-then-write-overlay-fields step does to the
state: contexts and every non-overlay node field are kept (caches may
shrink), the target node's overlay fields become the written pair, and
every other node keeps its overlay fields. -/
theorem ovWrite_facts (fuel : Nat) (st : State) (n : NodeId) (b : Bool) (w : PVal) :
    ((invalidateOutputCalcs fuel st n).updNode n
      (fun d => { d with isOverlaid := b, overlaidValue := w })).ctxs = st.ctxs ∧
    ((invalidateOutputCalcs fuel st n).updNode n
      (fun d => { d with isOverlaid := b, overlaidValue := w })).methods = st.methods ∧
    ((invalidateOutputCalcs fuel st n).updNode n
      (fun d => { d with isOverlaid := b, overlaidValue := w })).activeNode = st.activeNode ∧
    ((invalidateOutputCalcs fuel st n).updNode n
      (fun d => { d with isOverlaid := b, overlaidValue := w })).activeCtx = st.activeCtx ∧
    ((invalidateOutputCalcs fuel st n).updNode n
      (fun d => { d with isOverlaid := b, overlaidValue := w })).layers = st.layers ∧
    ((invalidateOutputCalcs fuel st n).updNode n
      (fun d => { d with isOverlaid := b, overlaidValue := w })).activeLayer = st.activeLayer ∧
    ((invalidateOutputCalcs fuel st n).updNode n
      (fun d => { d with isOverlaid := b, overlaidValue := w })).evals = st.evals ∧
    (∀ x, (((invalidateOutputCalcs fuel st n).updNode n
      (fun d => { d with isOverlaid := b, overlaidValue := w })).nodes x).isSet =
      (st.nodes x).isSet) ∧
    (∀ x, (((invalidateOutputCalcs fuel st n).updNode n
      (fun d => { d with isOverlaid := b, overlaidValue := w })).nodes x).setVal =
      (st.nodes x).setVal) ∧
    (∀ x, (((invalidateOutputCalcs fuel st n).updNode n
      (fun d => { d with isOverlaid := b, overlaidValue := w })).nodes x).inputs =
      (st.nodes x).inputs) ∧
    (∀ x, (((invalidateOutputCalcs fuel st n).updNode n
      (fun d => { d with isOverlaid := b, overlaidValue := w })).nodes x).outputs =
      (st.nodes x).outputs) ∧
    (∀ x, (((invalidateOutputCalcs fuel st n).updNode n
      (fun d => { d with isOverlaid := b, overlaidValue := w })).nodes x).isCalced = true →
      (st.nodes x).isCalced = true ∧
      (((invalidateOutputCalcs fuel st n).updNode n
        (fun d => { d with isOverlaid := b, overlaidValue := w })).nodes x).calcedValue =
        (st.nodes x).calcedValue) ∧
    (∀ x, x ≠ n → (((invalidateOutputCalcs fuel st n).updNode n
      (fun d => { d with isOverlaid := b, overlaidValue := w })).nodes x).isOverlaid =
      (st.nodes x).isOverlaid ∧
      (((invalidateOutputCalcs fuel st n).updNode n
        (fun d => { d with isOverlaid := b, overlaidValue := w })).nodes x).overlaidValue =
      (st.nodes x).overlaidValue) ∧
    (((invalidateOutputCalcs fuel st n).updNode n
      (fun d => { d with isOverlaid := b, overlaidValue := w })).nodes n).isOverlaid = b ∧
    (((invalidateOutputCalcs fuel st n).updNode n
      (fun d => { d with isOverlaid := b, overlaidValue := w })).nodes n).overlaidValue = w := by
  have hco := invalidateOutputCalcs_calcOnly fuel st n
  have hnnF : ∀ x, (((invalidateOutputCalcs fuel st n).updNode n
      (fun d => { d with isOverlaid := b, overlaidValue := w })).nodes x) =
      if x = n then { (invalidateOutputCalcs fuel st n).nodes x with
        isOverlaid := b, overlaidValue := w }
      else (invalidateOutputCalcs fuel st n).nodes x :=
    fun x => updNode_nodes_eq (invalidateOutputCalcs fuel st n) n
      (fun d => { d with isOverlaid := b, overlaidValue := w }) x
  refine ⟨hco.ctxsEq, hco.methodsEq, hco.activeNodeEq, hco.activeCtxEq, hco.layersEq,
    hco.activeLayerEq, hco.evalsEq, ?_, ?_, ?_, ?_, ?_, ?_, ?_, ?_⟩
  · intro x
    rw [hnnF x]
    by_cases hx : x = n
    · rw [if_pos hx]
      show ((invalidateOutputCalcs fuel st n).nodes x).isSet = (st.nodes x).isSet
      exact hco.isSetEq x
    · rw [if_neg hx]
      exact hco.isSetEq x
  · intro x
    rw [hnnF x]
    by_cases hx : x = n
    · rw [if_pos hx]
      show ((invalidateOutputCalcs fuel st n).nodes x).setVal = (st.nodes x).setVal
      exact hco.setValEq x
    · rw [if_neg hx]
      exact hco.setValEq x
  · intro x
    rw [hnnF x]
    by_cases hx : x = n
    · rw [if_pos hx]
      show ((invalidateOutputCalcs fuel st n).nodes x).inputs = (st.nodes x).inputs
      exact hco.inputsEq x
    · rw [if_neg hx]
      exact hco.inputsEq x
  · intro x
    rw [hnnF x]
    by_cases hx : x = n
    · rw [if_pos hx]
      show ((invalidateOutputCalcs fuel st n).nodes x).outputs = (st.nodes x).outputs
      exact hco.outputsEq x
    · rw [if_neg hx]
      exact hco.outputsEq x
  · intro x hx
    rw [hnnF x] at hx ⊢
    by_cases hxn : x = n
    · rw [if_pos hxn] at hx ⊢
      replace hx : ((invalidateOutputCalcs fuel st n).nodes x).isCalced = true := hx
      obtain ⟨h1, h2⟩ := hco.calcKeep x hx
      refine ⟨h1, ?_⟩
      show ((invalidateOutputCalcs fuel st n).nodes x).calcedValue = (st.nodes x).calcedValue
      exact h2
    · rw [if_neg hxn] at hx ⊢
      exact hco.calcKeep x hx
  · intro x hx
    rw [hnnF x, if_neg hx]
    exact ⟨hco.isOverlaidEq x, hco.overlaidValueEq x⟩
  · rw [hnnF n, if_pos rfl]
  · rw [hnnF n, if_pos rfl]

/-- What the shared tail of `GraphContext.clearOverlay` (the optional
`removeOverlay` while populating, then the removal of the applied
mark) does: nodes and the stash are untouched and the key is filtered
out of the applied set. -/
theorem clearTail_post (st1 : State) (cid : Nat) (n : NodeId) (hcid : cid < st1.ctxs.length) :
    CtxFrame cid st1
      ((if (st1.ctx cid).populating then ctxRemoveOverlay st1 cid n else st1).updCtx cid
        (fun c => { c with applied := c.applied.filter (fun k => k ≠ n) })) ∧
    ((if (st1.ctx cid).populating then ctxRemoveOverlay st1 cid n else st1).updCtx cid
      (fun c => { c with applied := c.applied.filter (fun k => k ≠ n) })).nodes = st1.nodes ∧
    (((if (st1.ctx cid).populating then ctxRemoveOverlay st1 cid n else st1).updCtx cid
      (fun c => { c with applied := c.applied.filter (fun k => k ≠ n) })).ctx cid).stash =
      (st1.ctx cid).stash ∧
    (((if (st1.ctx cid).populating then ctxRemoveOverlay st1 cid n else st1).updCtx cid
      (fun c => { c with applied := c.applied.filter (fun k => k ≠ n) })).ctx cid).applied =
      (st1.ctx cid).applied.filter (fun k => k ≠ n) := by
  by_cases hpop : (st1.ctx cid).populating = true
  · rw [if_pos hpop]
    have hrself := updCtx_ctx_self st1 cid (fun c =>
      { c with removed := addElem c.removed n, overlays := adel c.overlays n }) hcid
    have hcidr : cid < (ctxRemoveOverlay st1 cid n).ctxs.length := by
      simp only [ctxRemoveOverlay, updCtx_ctxs_length]
      exact hcid
    have hfself := updCtx_ctx_self (ctxRemoveOverlay st1 cid n) cid
      (fun c => { c with applied := c.applied.filter (fun k => k ≠ n) }) hcidr
    have hrc : (ctxRemoveOverlay st1 cid n).ctx cid =
        { st1.ctx cid with
          removed := addElem (st1.ctx cid).removed n,
          overlays := adel (st1.ctx cid).overlays n } := by
      simp only [ctxRemoveOverlay]
      rw [hrself]
    refine ⟨⟨rfl, rfl, rfl, rfl, rfl, rfl, fun _ => rfl, fun _ => rfl, fun _ => rfl,
      fun _ => rfl, fun _ h => ⟨h, rfl⟩, ?_, ?_, ?_, ?_, ?_⟩, rfl, ?_, ?_⟩
    · rw [updCtx_ctxs_length]
      simp only [ctxRemoveOverlay, updCtx_ctxs_length]
    · intro j hj
      rw [updCtx_ctx_other _ cid j _ hj]
      simp only [ctxRemoveOverlay]
      rw [updCtx_ctx_other _ cid j _ hj]
    · rw [hfself, hrc]
    · rw [hfself, hrc]
    · rw [hfself, hrc]
    · rw [hfself, hrc]
    · rw [hfself, hrc]
  · rw [if_neg hpop]
    have hfself := updCtx_ctx_self st1 cid
      (fun c => { c with applied := c.applied.filter (fun k => k ≠ n) }) hcid
    refine ⟨⟨rfl, rfl, rfl, rfl, rfl, rfl, fun _ => rfl, fun _ => rfl, fun _ => rfl,
      fun _ => rfl, fun _ h => ⟨h, rfl⟩, updCtx_ctxs_length _ _ _,
      fun j hj => updCtx_ctx_other _ cid j _ hj, ?_, ?_, ?_⟩, rfl, ?_, ?_⟩
    · rw [hfself]
    · rw [hfself]
    · rw [hfself]
    · rw [hfself]
    · rw [hfself]


/-- Specification of one `GraphContext.clearOverlay` step on an
applied key: it succeeds, unmarks the key as applied, restores the
node's overlay fields from the stash (re-overlaying the stashed value,
or clearing the overlay when nothing was stashed), keeps every other
node's overlay fields and stash entry, and preserves the `CtxFrame`. -/
theorem ctxClearOverlay_spec (fuel : Nat) (st : State) (cid : Nat) (n : NodeId)
    (hcid : cid < st.ctxs.length)
    (hmem : n ∈ (st.ctx cid).applied) :
    (ctxClearOverlay fuel st cid n).1 = Except.ok () ∧
    CtxFrame cid st (ctxClearOverlay fuel st cid n).2 ∧
    (∀ x, x ≠ n → ((ctxClearOverlay fuel st cid n).2.nodes x).isOverlaid =
        (st.nodes x).isOverlaid ∧
      ((ctxClearOverlay fuel st cid n).2.nodes x).overlaidValue =
        (st.nodes x).overlaidValue) ∧
    (∀ s2, alookup (st.ctx cid).stash n = some s2 →
      ((ctxClearOverlay fuel st cid n).2.nodes n).isOverlaid = true ∧
      ((ctxClearOverlay fuel st cid n).2.nodes n).overlaidValue = s2) ∧
    (alookup (st.ctx cid).stash n = none → (st.nodes n).isOverlaid = true →
      ((ctxClearOverlay fuel st cid n).2.nodes n).isOverlaid = false ∧
      ((ctxClearOverlay fuel st cid n).2.nodes n).overlaidValue = PVal.vNone) ∧
    (alookup (st.ctx cid).stash n = none → (st.nodes n).isOverlaid = false →
      ((ctxClearOverlay fuel st cid n).2.nodes n).isOverlaid = false ∧
      ((ctxClearOverlay fuel st cid n).2.nodes n).overlaidValue =
        (st.nodes n).overlaidValue) ∧
    (∀ x, x ≠ n → alookup ((ctxClearOverlay fuel st cid n).2.ctx cid).stash x =
      alookup (st.ctx cid).stash x) ∧
    (∀ x, x ∈ ((ctxClearOverlay fuel st cid n).2.ctx cid).applied ↔
      (x ∈ (st.ctx cid).applied ∧ x ≠ n)) := by
  cases hsl : alookup (st.ctx cid).stash n with
  | some s =>
    have heq : ctxClearOverlay fuel st cid n =
        (Except.ok (),
          (if ((((invalidateOutputCalcs fuel st n).updNode n (fun d => { d with overlaidValue := s, isOverlaid := true })).updCtx cid (fun c => { c with stash := adel c.stash n })).ctx cid).populating then
              ctxRemoveOverlay (((invalidateOutputCalcs fuel st n).updNode n (fun d => { d with overlaidValue := s, isOverlaid := true })).updCtx cid (fun c => { c with stash := adel c.stash n })) cid n
            else (((invalidateOutputCalcs fuel st n).updNode n (fun d => { d with overlaidValue := s, isOverlaid := true })).updCtx cid (fun c => { c with stash := adel c.stash n }))).updCtx cid
            (fun c => { c with applied := c.applied.filter (fun k => k ≠ n) })) := by
      simp only [ctxClearOverlay, if_pos hmem, hsl, nodeOverlayValue_eq]
    have heq1 : (ctxClearOverlay fuel st cid n).1 = Except.ok () := by rw [heq]
    have heq2 : (ctxClearOverlay fuel st cid n).2 =
        (if ((((invalidateOutputCalcs fuel st n).updNode n (fun d => { d with overlaidValue := s, isOverlaid := true })).updCtx cid (fun c => { c with stash := adel c.stash n })).ctx cid).populating then
            ctxRemoveOverlay (((invalidateOutputCalcs fuel st n).updNode n (fun d => { d with overlaidValue := s, isOverlaid := true })).updCtx cid (fun c => { c with stash := adel c.stash n })) cid n
          else (((invalidateOutputCalcs fuel st n).updNode n (fun d => { d with overlaidValue := s, isOverlaid := true })).updCtx cid (fun c => { c with stash := adel c.stash n }))).updCtx cid
          (fun c => { c with applied := c.applied.filter (fun k => k ≠ n) }) := by
      rw [heq]
    obtain ⟨hXctxs, hXmeth, hXact, hXactc, hXlay, hXal, hXev, hXisSet, hXsetVal, hXinp,
      hXout, hXcalc, hXovoth, hXovn, hXovvn⟩ := ovWrite_facts fuel st n true s
    have hcidX : cid < (((invalidateOutputCalcs fuel st n).updNode n (fun d => { d with overlaidValue := s, isOverlaid := true }))).ctxs.length := by
      rw [hXctxs]; exact hcid
    have hXctxf : ∀ j, (((invalidateOutputCalcs fuel st n).updNode n (fun d => { d with overlaidValue := s, isOverlaid := true }))).ctx j = st.ctx j := by
      intro j
      simp only [State.ctx, hXctxs]
    have hstAcid := updCtx_ctx_self (((invalidateOutputCalcs fuel st n).updNode n (fun d => { d with overlaidValue := s, isOverlaid := true }))) cid
      (fun c => { c with stash := adel c.stash n }) hcidX
    have hcidA : cid < (((invalidateOutputCalcs fuel st n).updNode n (fun d => { d with overlaidValue := s, isOverlaid := true })).updCtx cid (fun c => { c with stash := adel c.stash n })).ctxs.length := by
      rw [updCtx_ctxs_length, hXctxs]; exact hcid
    obtain ⟨htframe, htnodes, htstash, htapp⟩ := clearTail_post (((invalidateOutputCalcs fuel st n).updNode n (fun d => { d with overlaidValue := s, isOverlaid := true })).updCtx cid (fun c => { c with stash := adel c.stash n })) cid n hcidA
    have hfrA : CtxFrame cid st (((invalidateOutputCalcs fuel st n).updNode n (fun d => { d with overlaidValue := s, isOverlaid := true })).updCtx cid (fun c => { c with stash := adel c.stash n })) :=
      ⟨hXmeth, hXact, hXactc, hXlay, hXal, hXev, hXisSet, hXsetVal, hXinp, hXout, hXcalc,
        (updCtx_ctxs_length _ _ _).trans (by rw [hXctxs]),
        fun j hj => (updCtx_ctx_other _ cid j _ hj).trans (hXctxf j),
        by rw [hstAcid, hXctxf cid],
        by rw [hstAcid, hXctxf cid],
        by rw [hstAcid, hXctxf cid]⟩
    refine ⟨heq1, ?_, ?_, ?_, ?_, ?_, ?_, ?_⟩
    · rw [heq2]
      exact ctxFrame_trans hfrA htframe
    · intro x hx
      rw [heq2, htnodes]
      exact hXovoth x hx
    · intro s2 hs2
      injection hs2 with hs3
      rw [heq2, htnodes]
      refine ⟨hXovn, ?_⟩
      rw [← hs3]
      exact hXovvn
    · intro hnone
      exact absurd hnone (by simp)
    · intro hnone
      exact absurd hnone (by simp)
    · intro x hx
      rw [heq2, htstash, hstAcid]
      show alookup (adel ((((invalidateOutputCalcs fuel st n).updNode n (fun d => { d with overlaidValue := s, isOverlaid := true }))).ctx cid).stash n) x = alookup (st.ctx cid).stash x
      rw [hXctxf cid, alookup_adel_other _ _ _ hx]
    · intro x
      rw [heq2, htapp, hstAcid]
      show x ∈ ((((invalidateOutputCalcs fuel st n).updNode n (fun d => { d with overlaidValue := s, isOverlaid := true }))).ctx cid).applied.filter (fun k => k ≠ n) ↔
        (x ∈ (st.ctx cid).applied ∧ x ≠ n)
      rw [hXctxf cid]
      simp [List.mem_filter]
  | none =>
    cases hovl : (st.nodes n).isOverlaid with
    | true =>
      have hclr : nodeClearOverlay fuel st n = (Except.ok (), ((invalidateOutputCalcs fuel st n).updNode n (fun d => { d with isOverlaid := false, overlaidValue := PVal.vNone }))) := by
        simp [nodeClearOverlay, GraphMethod.isOverlayable, hovl]
      have heq : ctxClearOverlay fuel st cid n =
          (Except.ok (),
            (if ((((invalidateOutputCalcs fuel st n).updNode n (fun d => { d with isOverlaid := false, overlaidValue := PVal.vNone }))).ctx cid).populating then
                ctxRemoveOverlay (((invalidateOutputCalcs fuel st n).updNode n (fun d => { d with isOverlaid := false, overlaidValue := PVal.vNone }))) cid n
              else (((invalidateOutputCalcs fuel st n).updNode n (fun d => { d with isOverlaid := false, overlaidValue := PVal.vNone })))).updCtx cid
              (fun c => { c with applied := c.applied.filter (fun k => k ≠ n) })) := by
        simp only [ctxClearOverlay, if_pos hmem, hsl, hclr]
      have heq1 : (ctxClearOverlay fuel st cid n).1 = Except.ok () := by rw [heq]
      have heq2 : (ctxClearOverlay fuel st cid n).2 =
          (if ((((invalidateOutputCalcs fuel st n).updNode n (fun d => { d with isOverlaid := false, overlaidValue := PVal.vNone }))).ctx cid).populating then
              ctxRemoveOverlay (((invalidateOutputCalcs fuel st n).updNode n (fun d => { d with isOverlaid := false, overlaidValue := PVal.vNone }))) cid n
            else (((invalidateOutputCalcs fuel st n).updNode n (fun d => { d with isOverlaid := false, overlaidValue := PVal.vNone })))).updCtx cid
            (fun c => { c with applied := c.applied.filter (fun k => k ≠ n) }) := by
        rw [heq]
      obtain ⟨hXctxs, hXmeth, hXact, hXactc, hXlay, hXal, hXev, hXisSet, hXsetVal, hXinp,
        hXout, hXcalc, hXovoth, hXovn, hXovvn⟩ := ovWrite_facts fuel st n false PVal.vNone
      have hcidX : cid < (((invalidateOutputCalcs fuel st n).updNode n (fun d => { d with isOverlaid := false, overlaidValue := PVal.vNone }))).ctxs.length := by
        rw [hXctxs]; exact hcid
      have hXctxf : ∀ j, (((invalidateOutputCalcs fuel st n).updNode n (fun d => { d with isOverlaid := false, overlaidValue := PVal.vNone }))).ctx j = st.ctx j := by
        intro j
        simp only [State.ctx, hXctxs]
      obtain ⟨htframe, htnodes, htstash, htapp⟩ := clearTail_post (((invalidateOutputCalcs fuel st n).updNode n (fun d => { d with isOverlaid := false, overlaidValue := PVal.vNone }))) cid n hcidX
      have hfrA : CtxFrame cid st (((invalidateOutputCalcs fuel st n).updNode n (fun d => { d with isOverlaid := false, overlaidValue := PVal.vNone }))) :=
        ⟨hXmeth, hXact, hXactc, hXlay, hXal, hXev, hXisSet, hXsetVal, hXinp, hXout, hXcalc,
          by rw [hXctxs], fun j hj => hXctxf j,
          by rw [hXctxf cid], by rw [hXctxf cid], by rw [hXctxf cid]⟩
      refine ⟨heq1, ?_, ?_, ?_, ?_, ?_, ?_, ?_⟩
      · rw [heq2]
        exact ctxFrame_trans hfrA htframe
      · intro x hx
        rw [heq2, htnodes]
        exact hXovoth x hx
      · intro s2 hs2
        exact absurd hs2 (by simp)
      · intro _ _
        rw [heq2, htnodes]
        exact ⟨hXovn, hXovvn⟩
      · intro _ habs
        exact absurd habs (by simp)
      · intro x hx
        rw [heq2, htstash, hXctxf cid]
      · intro x
        rw [heq2, htapp, hXctxf cid]
        simp [List.mem_filter]
    | false =>
      have hclr : nodeClearOverlay fuel st n = (Except.ok (), st) := by
        simp [nodeClearOverlay, GraphMethod.isOverlayable, hovl]
      have heq : ctxClearOverlay fuel st cid n =
          (Except.ok (),
            (if (st.ctx cid).populating then ctxRemoveOverlay st cid n else st).updCtx cid
              (fun c => { c with applied := c.applied.filter (fun k => k ≠ n) })) := by
        simp only [ctxClearOverlay, if_pos hmem, hsl, hclr]
      have heq1 : (ctxClearOverlay fuel st cid n).1 = Except.ok () := by rw [heq]
      have heq2 : (ctxClearOverlay fuel st cid n).2 =
          (if (st.ctx cid).populating then ctxRemoveOverlay st cid n else st).updCtx cid
            (fun c => { c with applied := c.applied.filter (fun k => k ≠ n) }) := by
        rw [heq]
      obtain ⟨htframe, htnodes, htstash, htapp⟩ := clearTail_post st cid n hcid
      refine ⟨heq1, ?_, ?_, ?_, ?_, ?_, ?_, ?_⟩
      · rw [heq2]
        exact htframe
      · intro x hx
        rw [heq2, htnodes]
        exact ⟨rfl, rfl⟩
      · intro s2 hs2
        exact absurd hs2 (by simp)
      · intro _ habs
        exact absurd habs (by simp)
      · intro _ _
        rw [heq2, htnodes]
        exact ⟨hovl, rfl⟩
      · intro x hx
        rw [heq2, htstash]
      · intro x
        rw [heq2, htapp]
        simp [List.mem_filter]

/-- Specification of the clear loop of `GraphContext.__exit__` over a
duplicate-free key list of applied keys: it succeeds, every key's node
gets its overlay fields restored from the stash (the stashed value
re-overlaid; cleared when nothing was stashed), every other node keeps
its overlay fields, and the `CtxFrame` is preserved. -/
theorem clearAll_spec (fuel : Nat) (cid : Nat) :
    ∀ (K : List NodeId) (st : State),
      cid < st.ctxs.length →
      K.Nodup →
      (∀ k ∈ K, k ∈ (st.ctx cid).applied) →
      (clearAll fuel cid K st).1 = Except.ok () ∧
      CtxFrame cid st (clearAll fuel cid K st).2 ∧
      (∀ x, x ∉ K → ((clearAll fuel cid K st).2.nodes x).isOverlaid =
          (st.nodes x).isOverlaid ∧
        ((clearAll fuel cid K st).2.nodes x).overlaidValue =
          (st.nodes x).overlaidValue) ∧
      (∀ k ∈ K, ∀ s2, alookup (st.ctx cid).stash k = some s2 →
        ((clearAll fuel cid K st).2.nodes k).isOverlaid = true ∧
        ((clearAll fuel cid K st).2.nodes k).overlaidValue = s2) ∧
      (∀ k ∈ K, alookup (st.ctx cid).stash k = none → (st.nodes k).isOverlaid = true →
        ((clearAll fuel cid K st).2.nodes k).isOverlaid = false ∧
        ((clearAll fuel cid K st).2.nodes k).overlaidValue = PVal.vNone) ∧
      (∀ k ∈ K, alookup (st.ctx cid).stash k = none → (st.nodes k).isOverlaid = false →
        ((clearAll fuel cid K st).2.nodes k).isOverlaid = false ∧
        ((clearAll fuel cid K st).2.nodes k).overlaidValue =
          (st.nodes k).overlaidValue) := by
  intro K
  induction K with
  | nil =>
    intro st hcid _ _
    exact ⟨rfl, ctxFrame_refl cid st, fun x _ => ⟨rfl, rfl⟩,
      fun k hk => absurd hk (List.not_mem_nil k),
      fun k hk => absurd hk (List.not_mem_nil k),
      fun k hk => absurd hk (List.not_mem_nil k)⟩
  | cons k rest ih =>
    intro st hcid hnodup happl
    obtain ⟨s1, sframe, soth, ssome, snone1, snone0, sstashO, sappIff⟩ :=
      ctxClearOverlay_spec fuel st cid k hcid (happl k (List.mem_cons_self k rest))
    have hknotrest : k ∉ rest := (List.nodup_cons.mp hnodup).1
    have hrestnodup : rest.Nodup := (List.nodup_cons.mp hnodup).2
    have hsplit : clearAll fuel cid (k :: rest) st =
        clearAll fuel cid rest (ctxClearOverlay fuel st cid k).2 := by
      simp only [clearAll]
      split
      case _ u st1 heq => rw [heq]
      case _ e st1 heq =>
        exfalso
        rw [heq] at s1
        simp at s1
    have hcid1 : cid < (ctxClearOverlay fuel st cid k).2.ctxs.length := by
      rw [sframe.ctxsLenEq]; exact hcid
    have happl1 : ∀ k2 ∈ rest, k2 ∈ ((ctxClearOverlay fuel st cid k).2.ctx cid).applied := by
      intro k2 hk2
      rw [sappIff k2]
      exact ⟨happl k2 (List.mem_cons_of_mem k hk2), fun hc => hknotrest (hc ▸ hk2)⟩
    obtain ⟨ih1, ihframe, ihoth, ihsome, ihnone1, ihnone0⟩ :=
      ih (ctxClearOverlay fuel st cid k).2 hcid1 hrestnodup happl1
    rw [hsplit]
    refine ⟨ih1, ctxFrame_trans sframe ihframe, ?_, ?_, ?_, ?_⟩
    · intro x hx
      have hxk : x ≠ k := fun hc => hx (hc ▸ List.mem_cons_self k rest)
      have hxrest : x ∉ rest := fun hc => hx (List.mem_cons_of_mem k hc)
      obtain ⟨ha1, ha2⟩ := ihoth x hxrest
      obtain ⟨hb1, hb2⟩ := soth x hxk
      exact ⟨ha1.trans hb1, ha2.trans hb2⟩
    · intro k2 hmem2 s2 hs2
      rcases List.mem_cons.mp hmem2 with heqk | hin
      · rw [heqk] at hs2 ⊢
        obtain ⟨ha1, ha2⟩ := ihoth k hknotrest
        obtain ⟨hb1, hb2⟩ := ssome s2 hs2
        exact ⟨ha1.trans hb1, ha2.trans hb2⟩
      · have hk2k : k2 ≠ k := fun hc => hknotrest (hc ▸ hin)
        refine ihsome k2 hin s2 ?_
        rw [sstashO k2 hk2k]
        exact hs2
    · intro k2 hmem2 hs2 hov2
      rcases List.mem_cons.mp hmem2 with heqk | hin
      · rw [heqk] at hs2 hov2 ⊢
        obtain ⟨ha1, ha2⟩ := ihoth k hknotrest
        obtain ⟨hb1, hb2⟩ := snone1 hs2 hov2
        exact ⟨ha1.trans hb1, ha2.trans hb2⟩
      · have hk2k : k2 ≠ k := fun hc => hknotrest (hc ▸ hin)
        obtain ⟨hc1, hc2⟩ := soth k2 hk2k
        refine ihnone1 k2 hin ?_ ?_
        · rw [sstashO k2 hk2k]
          exact hs2
        · rw [hc1]
          exact hov2
    · intro k2 hmem2 hs2 hov2
      rcases List.mem_cons.mp hmem2 with heqk | hin
      · rw [heqk] at hs2 hov2 ⊢
        obtain ⟨ha1, ha2⟩ := ihoth k hknotrest
        obtain ⟨hb1, hb2⟩ := snone0 hs2 hov2
        exact ⟨ha1.trans hb1, ha2.trans hb2⟩
      · have hk2k : k2 ≠ k := fun hc => hknotrest (hc ▸ hin)
        obtain ⟨hc1, hc2⟩ := soth k2 hk2k
        obtain ⟨hd1, hd2⟩ := ihnone0 k2 hin
          (by rw [sstashO k2 hk2k]; exact hs2)
          (by rw [hc1]; exact hov2)
        exact ⟨hd1, hd2.trans hc2⟩


set_option maxRecDepth 8000 in
/-- Round trip through a populating (first-time) scope entry: both
transitions succeed, the prior active context is restored, all
fix-value fields (overlay and set state of every node) are restored
bit-for-bit, and the calc cache only shrinks, keeping values. -/
theorem roundtrip_populating (fuel : Nat) (st : State) (cid : Nat) (L : List (NodeId × PVal))
    (hcid : cid < st.ctxs.length)
    (hall : allOverlays st cid = Except.ok L)
    (hnodupL : (akeys L).Nodup)
    (hpp : (st.ctx cid).populating = true)
    (happ0 : (st.ctx cid).applied = [])
    (hstash0 : (st.ctx cid).stash = [])
    (hclean : ∀ x, (st.nodes x).isOverlaid = false →
      (st.nodes x).overlaidValue = PVal.vNone) :
    (ctxEnter fuel st cid).1 = Except.ok () ∧
    (ctxExit fuel (ctxEnter fuel st cid).2 cid).1 = Except.ok () ∧
    (ctxExit fuel (ctxEnter fuel st cid).2 cid).2.activeCtx = st.activeCtx ∧
    FixEq st (ctxExit fuel (ctxEnter fuel st cid).2 cid).2 ∧
    (∀ x, ((ctxExit fuel (ctxEnter fuel st cid).2 cid).2.nodes x).isCalced = true →
      (st.nodes x).isCalced = true ∧
      ((ctxExit fuel (ctxEnter fuel st cid).2 cid).2.nodes x).calcedValue =
        (st.nodes x).calcedValue) := by
  have hex : ∃ sE : State, sE.ctxs.length = st.ctxs.length ∧
      sE.ctx cid = { overlays := (st.ctx cid).overlays, stash := (st.ctx cid).stash, applied := (st.ctx cid).applied, removed := (st.ctx cid).removed, populating := (st.ctx cid).populating, parent := (st.ctx cid).parent, saveParent := some st.activeCtx } ∧
      (∀ j, j ≠ cid → sE.ctx j = st.ctx j) ∧
      sE.nodes = st.nodes ∧ sE.methods = st.methods ∧ sE.activeCtx = some cid ∧
      allOverlays sE cid = Except.ok L ∧
      ctxEnter fuel st cid = applyAll fuel cid (akeys L) sE := by
    have h9 : (({ nodes := (st.updCtx cid (fun c => { c with saveParent := some st.activeCtx })).nodes, methods := (st.updCtx cid (fun c => { c with saveParent := some st.activeCtx })).methods, activeNode := (st.updCtx cid (fun c => { c with saveParent := some st.activeCtx })).activeNode, ctxs := (st.updCtx cid (fun c => { c with saveParent := some st.activeCtx })).ctxs, activeCtx := some cid, layers := (st.updCtx cid (fun c => { c with saveParent := some st.activeCtx })).layers, activeLayer := (st.updCtx cid (fun c => { c with saveParent := some st.activeCtx })).activeLayer, evals := (st.updCtx cid (fun c => { c with saveParent := some st.activeCtx })).evals } : State)).ctx cid = { overlays := (st.ctx cid).overlays, stash := (st.ctx cid).stash, applied := (st.ctx cid).applied, removed := (st.ctx cid).removed, populating := (st.ctx cid).populating, parent := (st.ctx cid).parent, saveParent := some st.activeCtx } :=
      updCtx_ctx_self st cid (fun c => { c with saveParent := some st.activeCtx }) hcid
    have h10 : ∀ j, j ≠ cid → (({ nodes := (st.updCtx cid (fun c => { c with saveParent := some st.activeCtx })).nodes, methods := (st.updCtx cid (fun c => { c with saveParent := some st.activeCtx })).methods, activeNode := (st.updCtx cid (fun c => { c with saveParent := some st.activeCtx })).activeNode, ctxs := (st.updCtx cid (fun c => { c with saveParent := some st.activeCtx })).ctxs, activeCtx := some cid, layers := (st.updCtx cid (fun c => { c with saveParent := some st.activeCtx })).layers, activeLayer := (st.updCtx cid (fun c => { c with saveParent := some st.activeCtx })).activeLayer, evals := (st.updCtx cid (fun c => { c with saveParent := some st.activeCtx })).evals } : State)).ctx j = st.ctx j :=
      fun j hj => updCtx_ctx_other st cid j (fun c => { c with saveParent := some st.activeCtx }) hj
    have hallE : allOverlays ({ nodes := (st.updCtx cid (fun c => { c with saveParent := some st.activeCtx })).nodes, methods := (st.updCtx cid (fun c => { c with saveParent := some st.activeCtx })).methods, activeNode := (st.updCtx cid (fun c => { c with saveParent := some st.activeCtx })).activeNode, ctxs := (st.updCtx cid (fun c => { c with saveParent := some st.activeCtx })).ctxs, activeCtx := some cid, layers := (st.updCtx cid (fun c => { c with saveParent := some st.activeCtx })).layers, activeLayer := (st.updCtx cid (fun c => { c with saveParent := some st.activeCtx })).activeLayer, evals := (st.updCtx cid (fun c => { c with saveParent := some st.activeCtx })).evals }) cid = Except.ok L := by
      refine (allOverlays_congr ?_ cid).trans hall
      intro j
      by_cases hj : j = cid
      · rw [hj, h9]
        exact ⟨rfl, rfl, rfl⟩
      · rw [h10 j hj]
        exact ⟨rfl, rfl, rfl⟩
    refine ⟨{ nodes := (st.updCtx cid (fun c => { c with saveParent := some st.activeCtx })).nodes, methods := (st.updCtx cid (fun c => { c with saveParent := some st.activeCtx })).methods, activeNode := (st.updCtx cid (fun c => { c with saveParent := some st.activeCtx })).activeNode, ctxs := (st.updCtx cid (fun c => { c with saveParent := some st.activeCtx })).ctxs, activeCtx := some cid, layers := (st.updCtx cid (fun c => { c with saveParent := some st.activeCtx })).layers, activeLayer := (st.updCtx cid (fun c => { c with saveParent := some st.activeCtx })).activeLayer, evals := (st.updCtx cid (fun c => { c with saveParent := some st.activeCtx })).evals }, updCtx_ctxs_length st cid (fun c => { c with saveParent := some st.activeCtx }), h9, h10, rfl, rfl, rfl, hallE, ?_⟩
    have hni : ¬ ((!((({ nodes := (st.updCtx cid (fun c => { c with saveParent := some st.activeCtx })).nodes, methods := (st.updCtx cid (fun c => { c with saveParent := some st.activeCtx })).methods, activeNode := (st.updCtx cid (fun c => { c with saveParent := some st.activeCtx })).activeNode, ctxs := (st.updCtx cid (fun c => { c with saveParent := some st.activeCtx })).ctxs, activeCtx := some cid, layers := (st.updCtx cid (fun c => { c with saveParent := some st.activeCtx })).layers, activeLayer := (st.updCtx cid (fun c => { c with saveParent := some st.activeCtx })).activeLayer, evals := (st.updCtx cid (fun c => { c with saveParent := some st.activeCtx })).evals } : State)).ctx cid).populating) = true) := by
      rw [h9]
      simp [hpp]
    simp only [ctxEnter]
    rw [if_neg hni]
    dsimp only
    rw [hallE]
  obtain ⟨stE, hE1, hEcid, hEoth, hEnodes, hEmeth, hEactc, hEall, heqE⟩ := hex
  have hEpop : (stE.ctx cid).populating = true := by rw [hEcid]; exact hpp
  have hEapp : (stE.ctx cid).applied = [] := by rw [hEcid]; exact happ0
  have hEstash : (stE.ctx cid).stash = [] := by rw [hEcid]; exact hstash0
  have hcidE : cid < stE.ctxs.length := by rw [hE1]; exact hcid
  obtain ⟨hA1, hAframe, ⟨hAov, hArm⟩, hAoth, hAmem, hAstashK, hAstashO, hAappIff⟩ :=
    applyAll_spec fuel cid L (akeys L) stE hcidE hEall hnodupL
      (fun k hk => (alookup_isSome_iff_mem_keys L k).mpr hk)
      (fun k _ => by rw [hEapp]; exact List.not_mem_nil k)
  have hApop : (((applyAll fuel cid (akeys L) stE).2).ctx cid).populating = true :=
    hAframe.populatingEq.trans hEpop
  have hAcid : cid < ((applyAll fuel cid (akeys L) stE).2).ctxs.length := by
    rw [hAframe.ctxsLenEq]; exact hcidE
  have hX1active : (((applyAll fuel cid (akeys L) stE).2).updCtx cid
      (fun c => { c with populating := false })).activeCtx = some cid :=
    (hAframe.activeCtxEq : ((applyAll fuel cid (akeys L) stE).2).activeCtx =
      stE.activeCtx).trans hEactc
  have hX1cid := updCtx_ctx_self ((applyAll fuel cid (akeys L) stE).2) cid
    (fun c => { c with populating := false }) hAcid
  have hX1len : cid < (((applyAll fuel cid (akeys L) stE).2).updCtx cid
      (fun c => { c with populating := false })).ctxs.length := by
    rw [updCtx_ctxs_length]; exact hAcid
  have hX1oth : ∀ j, j ≠ cid → (((applyAll fuel cid (akeys L) stE).2).updCtx cid
      (fun c => { c with populating := false })).ctx j =
      ((applyAll fuel cid (akeys L) stE).2).ctx j :=
    fun j hj => updCtx_ctx_other ((applyAll fuel cid (akeys L) stE).2) cid j
      (fun c => { c with populating := false }) hj
  have hX1chain : CtxOverlayEq st (((applyAll fuel cid (akeys L) stE).2).updCtx cid
      (fun c => { c with populating := false })) := by
    intro j
    by_cases hj : j = cid
    · refine ⟨?_, ?_, ?_⟩
      · rw [hj, hX1cid]
        show (((applyAll fuel cid (akeys L) stE).2).ctx cid).overlays = (st.ctx cid).overlays
        rw [hAov, hEcid]
      · rw [hj, hX1cid]
        show (((applyAll fuel cid (akeys L) stE).2).ctx cid).removed = (st.ctx cid).removed
        rw [hArm, hEcid]
      · rw [hj, hX1cid]
        show (((applyAll fuel cid (akeys L) stE).2).ctx cid).parent = (st.ctx cid).parent
        rw [hAframe.parentEq, hEcid]
    · rw [hX1oth j hj, hAframe.ctxOtherEq j hj, hEoth j hj]
      exact ⟨rfl, rfl, rfl⟩
  have hX1all : allOverlays (((applyAll fuel cid (akeys L) stE).2).updCtx cid
      (fun c => { c with populating := false })) cid = Except.ok L :=
    (allOverlays_congr hX1chain cid).trans hall
  obtain ⟨hB1, hBframe, hBoth, hBsome, hBnone1, hBnone0⟩ :=
    clearAll_spec fuel cid (akeys L) (((applyAll fuel cid (akeys L) stE).2).updCtx cid
      (fun c => { c with populating := false })) hX1len hnodupL
      (fun k hk => by
        have hm : k ∈ (((applyAll fuel cid (akeys L) stE).2).ctx cid).applied :=
          (hAappIff k).mpr (Or.inl hk)
        rw [hX1cid]
        exact hm)
  have hBsp : (((clearAll fuel cid (akeys L) (((applyAll fuel cid (akeys L) stE).2).updCtx cid
      (fun c => { c with populating := false }))).2.ctx cid)).saveParent =
      some st.activeCtx := by
    rw [hBframe.saveParentEq, hX1cid]
    show (((applyAll fuel cid (akeys L) stE).2).ctx cid).saveParent = some st.activeCtx
    rw [hAframe.saveParentEq, hEcid]
  have heqX : ctxExit fuel ((applyAll fuel cid (akeys L) stE).2) cid =
      (Except.ok (), { (clearAll fuel cid (akeys L) (((applyAll fuel cid (akeys L) stE).2).updCtx
        cid (fun c => { c with populating := false }))).2 with activeCtx := st.activeCtx }) := by
    simp only [ctxExit, if_pos hApop, hX1active, hX1all]
    split
    next e2 st2 hcond =>
      exfalso
      have h5 := hB1
      rw [hcond] at h5
      simp at h5
    next u st2 hcond =>
      have hst2 : st2 = (clearAll fuel cid (akeys L) (((applyAll fuel cid (akeys L)
          stE).2).updCtx cid (fun c => { c with populating := false }))).2 := by
        rw [hcond]
      rw [hst2, hBsp]
  have hc2p : ctxExit fuel (ctxEnter fuel st cid).2 cid =
      (Except.ok (), { (clearAll fuel cid (akeys L) (((applyAll fuel cid (akeys L) stE).2).updCtx
        cid (fun c => { c with populating := false }))).2 with activeCtx := st.activeCtx }) := by
    rw [heqE]
    exact heqX
  have hisSetChain : ∀ x, ((clearAll fuel cid (akeys L)
      (((applyAll fuel cid (akeys L) stE).2).updCtx cid
        (fun c => { c with populating := false }))).2.nodes x).isSet = (st.nodes x).isSet :=
    fun x => (hBframe.isSetEq x).trans ((hAframe.isSetEq x).trans (by rw [hEnodes]))
  have hsetValChain : ∀ x, ((clearAll fuel cid (akeys L)
      (((applyAll fuel cid (akeys L) stE).2).updCtx cid
        (fun c => { c with populating := false }))).2.nodes x).setVal = (st.nodes x).setVal :=
    fun x => (hBframe.setValEq x).trans ((hAframe.setValEq x).trans (by rw [hEnodes]))
  have hfixR : FixEq st { (clearAll fuel cid (akeys L)
      (((applyAll fuel cid (akeys L) stE).2).updCtx cid
        (fun c => { c with populating := false }))).2 with activeCtx := st.activeCtx } := by
    refine ⟨hBframe.methodsEq.trans ((hAframe.methodsEq).trans hEmeth), fun x => ?_⟩
    by_cases hx : x ∈ akeys L
    · by_cases hovx : (st.nodes x).isOverlaid = true
      · have hstashk : alookup ((((applyAll fuel cid (akeys L) stE).2).updCtx cid
            (fun c => { c with populating := false })).ctx cid).stash x =
            some ((st.nodes x).overlaidValue) := by
          have h1 := hAstashK x hx
          rw [hEnodes] at h1
          rw [if_pos hovx] at h1
          rw [hX1cid]
          exact h1
        obtain ⟨hr1, hr2⟩ := hBsome x hx ((st.nodes x).overlaidValue) hstashk
        exact ⟨hr1.trans hovx.symm, hr2, hisSetChain x, hsetValChain x⟩
      · have hovxf : (st.nodes x).isOverlaid = false := by
          cases h2 : (st.nodes x).isOverlaid
          · rfl
          · exact absurd h2 hovx
        have hstashk : alookup ((((applyAll fuel cid (akeys L) stE).2).updCtx cid
            (fun c => { c with populating := false })).ctx cid).stash x = none := by
          have h1 := hAstashK x hx
          rw [hEnodes] at h1
          rw [if_neg hovx] at h1
          rw [hEstash] at h1
          rw [hX1cid]
          exact h1.trans rfl
        have hovApply : ((((applyAll fuel cid (akeys L) stE).2).updCtx cid
            (fun c => { c with populating := false })).nodes x).isOverlaid = true :=
          (hAmem x hx).1
        obtain ⟨hr1, hr2⟩ := hBnone1 x hx hstashk hovApply
        refine ⟨hr1.trans hovxf.symm, ?_, hisSetChain x, hsetValChain x⟩
        rw [hr2, hclean x hovxf]
    · have h1 := hAoth x hx
      rw [hEnodes] at h1
      have h2 := hBoth x hx
      exact ⟨(h2.1).trans h1.1, (h2.2).trans h1.2, hisSetChain x, hsetValChain x⟩
  refine ⟨by rw [heqE]; exact hA1, by rw [hc2p], by rw [hc2p], by rw [hc2p]; exact hfixR, ?_⟩
  intro x hx
  rw [hc2p] at hx ⊢
  obtain ⟨hk1, hk2⟩ := hBframe.calcKeep x hx
  obtain ⟨hk3, hk4⟩ := hAframe.calcKeep x hk1
  rw [hEnodes] at hk3 hk4
  exact ⟨hk3, hk2.trans hk4⟩

set_option maxRecDepth 8000 in
/-- Round trip through a re-entered (non-populating) scope: entry
allocates a transient child context, so both transitions succeed, the
prior active context is restored, all fix-value fields are restored
bit-for-bit, and the calc cache only shrinks, keeping values. -/
theorem roundtrip_reenter (fuel : Nat) (st : State) (cid : Nat) (L : List (NodeId × PVal))
    (hcid : cid < st.ctxs.length)
    (hall : allOverlays st cid = Except.ok L)
    (hnodupL : (akeys L).Nodup)
    (hppf : (st.ctx cid).populating = false)
    (hparlt : ParentsLt st)
    (hclean : ∀ x, (st.nodes x).isOverlaid = false →
      (st.nodes x).overlaidValue = PVal.vNone) :
    (ctxEnter fuel st cid).1 = Except.ok () ∧
    (ctxExit fuel (ctxEnter fuel st cid).2 cid).1 = Except.ok () ∧
    (ctxExit fuel (ctxEnter fuel st cid).2 cid).2.activeCtx = st.activeCtx ∧
    FixEq st (ctxExit fuel (ctxEnter fuel st cid).2 cid).2 ∧
    (∀ x, ((ctxExit fuel (ctxEnter fuel st cid).2 cid).2.nodes x).isCalced = true →
      (st.nodes x).isCalced = true ∧
      ((ctxExit fuel (ctxEnter fuel st cid).2 cid).2.nodes x).calcedValue =
        (st.nodes x).calcedValue) := by
  have hex : ∃ (s2 : State) (N : Nat),
      cid < N ∧
      N < s2.ctxs.length ∧
      s2.ctx N = ({ parent := some cid } : GraphContext) ∧
      s2.ctx cid = { overlays := (st.ctx cid).overlays, stash := (st.ctx cid).stash, applied := (st.ctx cid).applied, removed := (st.ctx cid).removed, populating := (st.ctx cid).populating, parent := (st.ctx cid).parent, saveParent := some st.activeCtx } ∧
      s2.nodes = st.nodes ∧ s2.methods = st.methods ∧ s2.activeCtx = some N ∧
      allOverlays s2 N = Except.ok L ∧
      ctxEnter fuel st cid = applyAll fuel N (akeys L) s2 := by
    have h9 : (({ nodes := (st.updCtx cid (fun c => { c with saveParent := some st.activeCtx })).nodes, methods := (st.updCtx cid (fun c => { c with saveParent := some st.activeCtx })).methods, activeNode := (st.updCtx cid (fun c => { c with saveParent := some st.activeCtx })).activeNode, ctxs := (st.updCtx cid (fun c => { c with saveParent := some st.activeCtx })).ctxs, activeCtx := some cid, layers := (st.updCtx cid (fun c => { c with saveParent := some st.activeCtx })).layers, activeLayer := (st.updCtx cid (fun c => { c with saveParent := some st.activeCtx })).activeLayer, evals := (st.updCtx cid (fun c => { c with saveParent := some st.activeCtx })).evals } : State)).ctx cid = { overlays := (st.ctx cid).overlays, stash := (st.ctx cid).stash, applied := (st.ctx cid).applied, removed := (st.ctx cid).removed, populating := (st.ctx cid).populating, parent := (st.ctx cid).parent, saveParent := some st.activeCtx } :=
      updCtx_ctx_self st cid (fun c => { c with saveParent := some st.activeCtx }) hcid
    have hni2 : (!((({ nodes := (st.updCtx cid (fun c => { c with saveParent := some st.activeCtx })).nodes, methods := (st.updCtx cid (fun c => { c with saveParent := some st.activeCtx })).methods, activeNode := (st.updCtx cid (fun c => { c with saveParent := some st.activeCtx })).activeNode, ctxs := (st.updCtx cid (fun c => { c with saveParent := some st.activeCtx })).ctxs, activeCtx := some cid, layers := (st.updCtx cid (fun c => { c with saveParent := some st.activeCtx })).layers, activeLayer := (st.updCtx cid (fun c => { c with saveParent := some st.activeCtx })).activeLayer, evals := (st.updCtx cid (fun c => { c with saveParent := some st.activeCtx })).evals } : State)).ctx cid).populating) = true := by
      rw [h9]
      simp [hppf]
    have hlenU : ((st.updCtx cid (fun c => { c with saveParent := some st.activeCtx }))).ctxs.length = st.ctxs.length := updCtx_ctxs_length st cid (fun c => { c with saveParent := some st.activeCtx })
    have hcidN : cid < ((st.updCtx cid (fun c => { c with saveParent := some st.activeCtx }))).ctxs.length := by rw [hlenU]; exact hcid
    have hdum : (({ nodes := (st.updCtx cid (fun c => { c with saveParent := some st.activeCtx })).nodes, methods := (st.updCtx cid (fun c => { c with saveParent := some st.activeCtx })).methods, activeNode := (st.updCtx cid (fun c => { c with saveParent := some st.activeCtx })).activeNode, ctxs := (st.updCtx cid (fun c => { c with saveParent := some st.activeCtx })).ctxs ++ [({ parent := some cid } : GraphContext)], activeCtx := some (st.updCtx cid (fun c => { c with saveParent := some st.activeCtx })).ctxs.length, layers := (st.updCtx cid (fun c => { c with saveParent := some st.activeCtx })).layers, activeLayer := (st.updCtx cid (fun c => { c with saveParent := some st.activeCtx })).activeLayer, evals := (st.updCtx cid (fun c => { c with saveParent := some st.activeCtx })).evals } : State)).ctx (((st.updCtx cid (fun c => { c with saveParent := some st.activeCtx }))).ctxs.length) = ({ parent := some cid } : GraphContext) :=
      lget_append_self (((st.updCtx cid (fun c => { c with saveParent := some st.activeCtx }))).ctxs) ({ parent := some cid } : GraphContext)
    have hc2 : (({ nodes := (st.updCtx cid (fun c => { c with saveParent := some st.activeCtx })).nodes, methods := (st.updCtx cid (fun c => { c with saveParent := some st.activeCtx })).methods, activeNode := (st.updCtx cid (fun c => { c with saveParent := some st.activeCtx })).activeNode, ctxs := (st.updCtx cid (fun c => { c with saveParent := some st.activeCtx })).ctxs ++ [({ parent := some cid } : GraphContext)], activeCtx := some (st.updCtx cid (fun c => { c with saveParent := some st.activeCtx })).ctxs.length, layers := (st.updCtx cid (fun c => { c with saveParent := some st.activeCtx })).layers, activeLayer := (st.updCtx cid (fun c => { c with saveParent := some st.activeCtx })).activeLayer, evals := (st.updCtx cid (fun c => { c with saveParent := some st.activeCtx })).evals } : State)).ctx cid = { overlays := (st.ctx cid).overlays, stash := (st.ctx cid).stash, applied := (st.ctx cid).applied, removed := (st.ctx cid).removed, populating := (st.ctx cid).populating, parent := (st.ctx cid).parent, saveParent := some st.activeCtx } :=
      (lget_append_lt (((st.updCtx cid (fun c => { c with saveParent := some st.activeCtx }))).ctxs) ({ parent := some cid } : GraphContext) cid hcidN).trans (updCtx_ctx_self st cid (fun c => { c with saveParent := some st.activeCtx }) hcid)
    have hfield : ∀ j, j < ((st.updCtx cid (fun c => { c with saveParent := some st.activeCtx }))).ctxs.length →
        ((({ nodes := (st.updCtx cid (fun c => { c with saveParent := some st.activeCtx })).nodes, methods := (st.updCtx cid (fun c => { c with saveParent := some st.activeCtx })).methods, activeNode := (st.updCtx cid (fun c => { c with saveParent := some st.activeCtx })).activeNode, ctxs := (st.updCtx cid (fun c => { c with saveParent := some st.activeCtx })).ctxs ++ [({ parent := some cid } : GraphContext)], activeCtx := some (st.updCtx cid (fun c => { c with saveParent := some st.activeCtx })).ctxs.length, layers := (st.updCtx cid (fun c => { c with saveParent := some st.activeCtx })).layers, activeLayer := (st.updCtx cid (fun c => { c with saveParent := some st.activeCtx })).activeLayer, evals := (st.updCtx cid (fun c => { c with saveParent := some st.activeCtx })).evals } : State)).ctx j).overlays = (st.ctx j).overlays ∧
        ((({ nodes := (st.updCtx cid (fun c => { c with saveParent := some st.activeCtx })).nodes, methods := (st.updCtx cid (fun c => { c with saveParent := some st.activeCtx })).methods, activeNode := (st.updCtx cid (fun c => { c with saveParent := some st.activeCtx })).activeNode, ctxs := (st.updCtx cid (fun c => { c with saveParent := some st.activeCtx })).ctxs ++ [({ parent := some cid } : GraphContext)], activeCtx := some (st.updCtx cid (fun c => { c with saveParent := some st.activeCtx })).ctxs.length, layers := (st.updCtx cid (fun c => { c with saveParent := some st.activeCtx })).layers, activeLayer := (st.updCtx cid (fun c => { c with saveParent := some st.activeCtx })).activeLayer, evals := (st.updCtx cid (fun c => { c with saveParent := some st.activeCtx })).evals } : State)).ctx j).removed = (st.ctx j).removed ∧
        ((({ nodes := (st.updCtx cid (fun c => { c with saveParent := some st.activeCtx })).nodes, methods := (st.updCtx cid (fun c => { c with saveParent := some st.activeCtx })).methods, activeNode := (st.updCtx cid (fun c => { c with saveParent := some st.activeCtx })).activeNode, ctxs := (st.updCtx cid (fun c => { c with saveParent := some st.activeCtx })).ctxs ++ [({ parent := some cid } : GraphContext)], activeCtx := some (st.updCtx cid (fun c => { c with saveParent := some st.activeCtx })).ctxs.length, layers := (st.updCtx cid (fun c => { c with saveParent := some st.activeCtx })).layers, activeLayer := (st.updCtx cid (fun c => { c with saveParent := some st.activeCtx })).activeLayer, evals := (st.updCtx cid (fun c => { c with saveParent := some st.activeCtx })).evals } : State)).ctx j).parent = (st.ctx j).parent := by
      intro j hj
      have hgl : (({ nodes := (st.updCtx cid (fun c => { c with saveParent := some st.activeCtx })).nodes, methods := (st.updCtx cid (fun c => { c with saveParent := some st.activeCtx })).methods, activeNode := (st.updCtx cid (fun c => { c with saveParent := some st.activeCtx })).activeNode, ctxs := (st.updCtx cid (fun c => { c with saveParent := some st.activeCtx })).ctxs ++ [({ parent := some cid } : GraphContext)], activeCtx := some (st.updCtx cid (fun c => { c with saveParent := some st.activeCtx })).ctxs.length, layers := (st.updCtx cid (fun c => { c with saveParent := some st.activeCtx })).layers, activeLayer := (st.updCtx cid (fun c => { c with saveParent := some st.activeCtx })).activeLayer, evals := (st.updCtx cid (fun c => { c with saveParent := some st.activeCtx })).evals } : State)).ctx j = ((st.updCtx cid (fun c => { c with saveParent := some st.activeCtx }))).ctx j := lget_append_lt (((st.updCtx cid (fun c => { c with saveParent := some st.activeCtx }))).ctxs) ({ parent := some cid } : GraphContext) j hj
      rw [hgl]
      by_cases hjc : j = cid
      · rw [hjc, updCtx_ctx_self st cid (fun c => { c with saveParent := some st.activeCtx }) hcid]
        exact ⟨rfl, rfl, rfl⟩
      · rw [updCtx_ctx_other st cid j (fun c => { c with saveParent := some st.activeCtx }) hjc]
        exact ⟨rfl, rfl, rfl⟩
    have hbase : allOverlaysAux ({ nodes := (st.updCtx cid (fun c => { c with saveParent := some st.activeCtx })).nodes, methods := (st.updCtx cid (fun c => { c with saveParent := some st.activeCtx })).methods, activeNode := (st.updCtx cid (fun c => { c with saveParent := some st.activeCtx })).activeNode, ctxs := (st.updCtx cid (fun c => { c with saveParent := some st.activeCtx })).ctxs ++ [({ parent := some cid } : GraphContext)], activeCtx := some (st.updCtx cid (fun c => { c with saveParent := some st.activeCtx })).ctxs.length, layers := (st.updCtx cid (fun c => { c with saveParent := some st.activeCtx })).layers, activeLayer := (st.updCtx cid (fun c => { c with saveParent := some st.activeCtx })).activeLayer, evals := (st.updCtx cid (fun c => { c with saveParent := some st.activeCtx })).evals } : State) (((st.updCtx cid (fun c => { c with saveParent := some st.activeCtx }))).ctxs.length) cid = Except.ok L := by
      rw [allOverlaysAux_congr_lt (((st.updCtx cid (fun c => { c with saveParent := some st.activeCtx }))).ctxs.length) hparlt hfield (((st.updCtx cid (fun c => { c with saveParent := some st.activeCtx }))).ctxs.length) cid hcidN]
      rw [allOverlaysAux_fuel_eq st hparlt cid (((st.updCtx cid (fun c => { c with saveParent := some st.activeCtx }))).ctxs.length) (cid + 1) hcidN (Nat.le_refl _)]
      exact hall
    have hallS2 : allOverlays ({ nodes := (st.updCtx cid (fun c => { c with saveParent := some st.activeCtx })).nodes, methods := (st.updCtx cid (fun c => { c with saveParent := some st.activeCtx })).methods, activeNode := (st.updCtx cid (fun c => { c with saveParent := some st.activeCtx })).activeNode, ctxs := (st.updCtx cid (fun c => { c with saveParent := some st.activeCtx })).ctxs ++ [({ parent := some cid } : GraphContext)], activeCtx := some (st.updCtx cid (fun c => { c with saveParent := some st.activeCtx })).ctxs.length, layers := (st.updCtx cid (fun c => { c with saveParent := some st.activeCtx })).layers, activeLayer := (st.updCtx cid (fun c => { c with saveParent := some st.activeCtx })).activeLayer, evals := (st.updCtx cid (fun c => { c with saveParent := some st.activeCtx })).evals } : State) (((st.updCtx cid (fun c => { c with saveParent := some st.activeCtx }))).ctxs.length) = Except.ok L :=
      allOverlays_dummy ({ nodes := (st.updCtx cid (fun c => { c with saveParent := some st.activeCtx })).nodes, methods := (st.updCtx cid (fun c => { c with saveParent := some st.activeCtx })).methods, activeNode := (st.updCtx cid (fun c => { c with saveParent := some st.activeCtx })).activeNode, ctxs := (st.updCtx cid (fun c => { c with saveParent := some st.activeCtx })).ctxs ++ [({ parent := some cid } : GraphContext)], activeCtx := some (st.updCtx cid (fun c => { c with saveParent := some st.activeCtx })).ctxs.length, layers := (st.updCtx cid (fun c => { c with saveParent := some st.activeCtx })).layers, activeLayer := (st.updCtx cid (fun c => { c with saveParent := some st.activeCtx })).activeLayer, evals := (st.updCtx cid (fun c => { c with saveParent := some st.activeCtx })).evals } : State) (((st.updCtx cid (fun c => { c with saveParent := some st.activeCtx }))).ctxs.length) cid L hdum hbase
    refine ⟨({ nodes := (st.updCtx cid (fun c => { c with saveParent := some st.activeCtx })).nodes, methods := (st.updCtx cid (fun c => { c with saveParent := some st.activeCtx })).methods, activeNode := (st.updCtx cid (fun c => { c with saveParent := some st.activeCtx })).activeNode, ctxs := (st.updCtx cid (fun c => { c with saveParent := some st.activeCtx })).ctxs ++ [({ parent := some cid } : GraphContext)], activeCtx := some (st.updCtx cid (fun c => { c with saveParent := some st.activeCtx })).ctxs.length, layers := (st.updCtx cid (fun c => { c with saveParent := some st.activeCtx })).layers, activeLayer := (st.updCtx cid (fun c => { c with saveParent := some st.activeCtx })).activeLayer, evals := (st.updCtx cid (fun c => { c with saveParent := some st.activeCtx })).evals } : State), ((st.updCtx cid (fun c => { c with saveParent := some st.activeCtx }))).ctxs.length, hcidN, ?_, hdum, hc2, rfl, rfl, rfl, hallS2, ?_⟩
    · show ((st.updCtx cid (fun c => { c with saveParent := some st.activeCtx }))).ctxs.length < (((st.updCtx cid (fun c => { c with saveParent := some st.activeCtx }))).ctxs ++ [({ parent := some cid } : GraphContext)]).length
      simp
    · simp only [ctxEnter]
      rw [if_pos hni2]
      dsimp only
      rw [hallS2]
  obtain ⟨st2, N, hcidN, hlenN, hdum, hcid2, h2nodes, h2meth, h2actc, hall2, heqE⟩ := hex
  have hne : cid ≠ N := Nat.ne_of_lt hcidN
  obtain ⟨hA1, hAframe, ⟨hAov, hArm⟩, hAoth, hAmem, hAstashK, hAstashO, hAappIff⟩ :=
    applyAll_spec fuel N L (akeys L) st2 hlenN hall2 hnodupL
      (fun k hk => (alookup_isSome_iff_mem_keys L k).mpr hk)
      (fun k _ => by rw [hdum]; exact List.not_mem_nil k)
  have hApopF : ¬ ((((applyAll fuel N (akeys L) st2).2).ctx cid).populating = true) := by
    rw [hAframe.ctxOtherEq cid hne, hcid2]
    simp [hppf]
  have hAactive : ((applyAll fuel N (akeys L) st2).2).activeCtx = some N :=
    hAframe.activeCtxEq.trans h2actc
  have hAcidN : N < ((applyAll fuel N (akeys L) st2).2).ctxs.length := by
    rw [hAframe.ctxsLenEq]; exact hlenN
  have hAchain : CtxOverlayEq st2 ((applyAll fuel N (akeys L) st2).2) := by
    intro j
    by_cases hj : j = N
    · rw [hj]
      exact ⟨hAov, hArm, hAframe.parentEq⟩
    · rw [hAframe.ctxOtherEq j hj]
      exact ⟨rfl, rfl, rfl⟩
  have hAall : allOverlays ((applyAll fuel N (akeys L) st2).2) N = Except.ok L :=
    (allOverlays_congr hAchain N).trans hall2
  obtain ⟨hB1, hBframe, hBoth, hBsome, hBnone1, hBnone0⟩ :=
    clearAll_spec fuel N (akeys L) ((applyAll fuel N (akeys L) st2).2) hAcidN hnodupL
      (fun k hk => (hAappIff k).mpr (Or.inl hk))
  have hBsp : (((clearAll fuel N (akeys L) ((applyAll fuel N (akeys L) st2).2)).2.ctx
      cid)).saveParent = some st.activeCtx := by
    rw [hBframe.ctxOtherEq cid hne, hAframe.ctxOtherEq cid hne, hcid2]
  have heqX : ctxExit fuel ((applyAll fuel N (akeys L) st2).2) cid =
      (Except.ok (), { (clearAll fuel N (akeys L) ((applyAll fuel N (akeys L)
        st2).2)).2 with activeCtx := st.activeCtx }) := by
    simp only [ctxExit, if_neg hApopF, hAactive, hAall]
    split
    next e2 stz hcond =>
      exfalso
      have h5 := hB1
      rw [hcond] at h5
      simp at h5
    next u stz hcond =>
      have hstz : stz = (clearAll fuel N (akeys L) ((applyAll fuel N (akeys L)
          st2).2)).2 := by
        rw [hcond]
      rw [hstz, hBsp]
  have hc2p : ctxExit fuel (ctxEnter fuel st cid).2 cid =
      (Except.ok (), { (clearAll fuel N (akeys L) ((applyAll fuel N (akeys L)
        st2).2)).2 with activeCtx := st.activeCtx }) := by
    rw [heqE]
    exact heqX
  have hisSetChain : ∀ x, ((clearAll fuel N (akeys L) ((applyAll fuel N (akeys L)
      st2).2)).2.nodes x).isSet = (st.nodes x).isSet :=
    fun x => (hBframe.isSetEq x).trans ((hAframe.isSetEq x).trans (by rw [h2nodes]))
  have hsetValChain : ∀ x, ((clearAll fuel N (akeys L) ((applyAll fuel N (akeys L)
      st2).2)).2.nodes x).setVal = (st.nodes x).setVal :=
    fun x => (hBframe.setValEq x).trans ((hAframe.setValEq x).trans (by rw [h2nodes]))
  have hfixR : FixEq st { (clearAll fuel N (akeys L) ((applyAll fuel N (akeys L)
      st2).2)).2 with activeCtx := st.activeCtx } := by
    refine ⟨hBframe.methodsEq.trans ((hAframe.methodsEq).trans h2meth), fun x => ?_⟩
    by_cases hx : x ∈ akeys L
    · by_cases hovx : (st.nodes x).isOverlaid = true
      · have hstashk : alookup (((applyAll fuel N (akeys L) st2).2.ctx N)).stash x =
            some ((st.nodes x).overlaidValue) := by
          have h1 := hAstashK x hx
          rw [h2nodes] at h1
          rw [if_pos hovx] at h1
          exact h1
        obtain ⟨hr1, hr2⟩ := hBsome x hx ((st.nodes x).overlaidValue) hstashk
        exact ⟨hr1.trans hovx.symm, hr2, hisSetChain x, hsetValChain x⟩
      · have hovxf : (st.nodes x).isOverlaid = false := by
          cases h2 : (st.nodes x).isOverlaid
          · rfl
          · exact absurd h2 hovx
        have hstashk : alookup (((applyAll fuel N (akeys L) st2).2.ctx N)).stash x =
            none := by
          have h1 := hAstashK x hx
          rw [h2nodes] at h1
          rw [if_neg hovx] at h1
          rw [hdum] at h1
          exact h1.trans rfl
        have hovApply : (((applyAll fuel N (akeys L) st2).2).nodes x).isOverlaid = true :=
          (hAmem x hx).1
        obtain ⟨hr1, hr2⟩ := hBnone1 x hx hstashk hovApply
        refine ⟨hr1.trans hovxf.symm, ?_, hisSetChain x, hsetValChain x⟩
        rw [hr2, hclean x hovxf]
    · have h1 := hAoth x hx
      rw [h2nodes] at h1
      have h2 := hBoth x hx
      exact ⟨(h2.1).trans h1.1, (h2.2).trans h1.2, hisSetChain x, hsetValChain x⟩
  refine ⟨by rw [heqE]; exact hA1, by rw [hc2p], by rw [hc2p], by rw [hc2p]; exact hfixR, ?_⟩
  intro x hx
  rw [hc2p] at hx ⊢
  obtain ⟨hk1, hk2⟩ := hBframe.calcKeep x hx
  obtain ⟨hk3, hk4⟩ := hAframe.calcKeep x hk1
  rw [h2nodes] at hk3 hk4
  exact ⟨hk3, hk2.trans hk4⟩

/-- Scenario S6: one method `X` (node 0) computing `42` and already
computed once before entry (cache `42` present, as in the scenario's
"original computed value"), two overlay contexts `O1` (index 0,
binding `X = 7`) and `O2` (index 1, binding `X = 9`), never entered
yet. -/
def exC3st : State :=
  { nodes := fun n => if n = 0 then { isCalced := true, calcedValue := PVal.vInt 42 } else {},
    methods := fun n => if n = 0 then { compute := fun _ => PVal.vInt 42 } else {},
    ctxs := [{ overlays := [(0, PVal.vInt 7)] }, { overlays := [(0, PVal.vInt 9)] }] }

/-- **C3.** Overlay scopes round-trip.  For any graph state whose
target context has a well-formed overlay snapshot (`allOverlays`
succeeds with duplicate-free keys), whose context has not recorded
partial apply state unless it was already exited once, whose
non-overlaid nodes carry the reset overlay slot the source maintains,
whose context parents decrease, and whose unshadowed caches (those of
nodes neither set nor overlaid — the only caches `getValue` serves)
agree with the observable semantics, entering the scope and then
exiting it succeeds,
restores the active context, restores every node's overlay and set
state bit-for-bit, hence leaves every node's observable value
(`denVal`) identical to the state just before entry, and `getValue`
still returns those values; and in scenario S6 with two nested
overlays binding the same node, the inner scope shows `9`, exiting it
restores the outer overlay's `7`, and exiting the outer scope restores
the original computed `42`. -/
theorem claim_C3_overlay_roundtrip (fuel : Nat) (st : State) (cid : Nat)
    (L : List (NodeId × PVal))
    (hcid : cid < st.ctxs.length)
    (hall : allOverlays st cid = Except.ok L)
    (hnodupL : (akeys L).Nodup)
    (hinit : (st.ctx cid).populating = true →
      (st.ctx cid).applied = [] ∧ (st.ctx cid).stash = [])
    (hclean : ∀ x, (st.nodes x).isOverlaid = false →
      (st.nodes x).overlaidValue = PVal.vNone)
    (hparlt : ParentsLt st)
    (hcons : Consistent st st) :
    (ctxEnter fuel st cid).1 = Except.ok () ∧
    (ctxExit fuel (ctxEnter fuel st cid).2 cid).1 = Except.ok () ∧
    (ctxExit fuel (ctxEnter fuel st cid).2 cid).2.activeCtx = st.activeCtx ∧
    FixEq st (ctxExit fuel (ctxEnter fuel st cid).2 cid).2 ∧
    (∀ g n, denVal g (ctxExit fuel (ctxEnter fuel st cid).2 cid).2 n = denVal g st n) ∧
    (∀ g n v, denVal g st n = Except.ok v →
      (graphGetValue g st n).1 = Except.ok v ∧
      (graphGetValue g (ctxExit fuel (ctxEnter fuel st cid).2 cid).2 n).1 =
        Except.ok v) ∧
    ((graphGetValue 10 (ctxEnter 10 (ctxEnter 10 exC3st 0).2 1).2 0).1 =
        Except.ok (PVal.vInt 9) ∧
      (graphGetValue 10 (ctxExit 10 (graphGetValue 10 (ctxEnter 10 (ctxEnter 10
        exC3st 0).2 1).2 0).2 1).2 0).1 = Except.ok (PVal.vInt 7) ∧
      (graphGetValue 10 (ctxExit 10 (graphGetValue 10 (ctxExit 10 (graphGetValue 10
        (ctxEnter 10 (ctxEnter 10 exC3st 0).2 1).2 0).2 1).2 0).2 0).2 0).1 =
        Except.ok (PVal.vInt 42)) := by
  have main : (ctxEnter fuel st cid).1 = Except.ok () ∧
      (ctxExit fuel (ctxEnter fuel st cid).2 cid).1 = Except.ok () ∧
      (ctxExit fuel (ctxEnter fuel st cid).2 cid).2.activeCtx = st.activeCtx ∧
      FixEq st (ctxExit fuel (ctxEnter fuel st cid).2 cid).2 ∧
      (∀ x, ((ctxExit fuel (ctxEnter fuel st cid).2 cid).2.nodes x).isCalced = true →
        (st.nodes x).isCalced = true ∧
        ((ctxExit fuel (ctxEnter fuel st cid).2 cid).2.nodes x).calcedValue =
          (st.nodes x).calcedValue) := by
    by_cases hpp : (st.ctx cid).populating = true
    · obtain ⟨happ0, hstash0⟩ := hinit hpp
      exact roundtrip_populating fuel st cid L hcid hall hnodupL hpp happ0 hstash0 hclean
    · have hppf : (st.ctx cid).populating = false := by
        cases hq : (st.ctx cid).populating
        · rfl
        · exact absurd hq hpp
      exact roundtrip_reenter fuel st cid L hcid hall hnodupL hppf hparlt hclean
  obtain ⟨c1, c2, c3, c4, c5⟩ := main
  have hcons2 : Consistent (ctxExit fuel (ctxEnter fuel st cid).2 cid).2 st := by
    intro x hxo hxs hx
    obtain ⟨h1, h2⟩ := c5 x hx
    obtain ⟨ho, _, hs, _⟩ := c4.2 x
    obtain ⟨g, hg⟩ := hcons x (by rw [← ho]; exact hxo) (by rw [← hs]; exact hxs) h1
    exact ⟨g, by rw [h2]; exact hg⟩
  refine ⟨c1, c2, c3, c4, ?_, ?_, rfl, rfl, rfl⟩
  · intro g n
    exact (den_congr c4 g).1 n
  · intro g n v hv
    constructor
    · exact ((eval_den g).1 st st n v (fixEq_refl st) hcons hv).1
    · exact ((eval_den g).1 (ctxExit fuel (ctxEnter fuel st cid).2 cid).2 st n v c4
        hcons2 hv).1

/-- Witness: the round trip applied to scenario S6's outer scope on a
concrete graph, with every hypothesis discharged by computation. -/
theorem claim_C3_overlay_roundtrip_witness :
    0 < exC3st.ctxs.length ∧
    allOverlays exC3st 0 = Except.ok [(0, PVal.vInt 7)] ∧
    (ctxEnter 10 exC3st 0).1 = Except.ok () ∧
    (ctxExit 10 (ctxEnter 10 exC3st 0).2 0).1 = Except.ok () ∧
    (ctxExit 10 (ctxEnter 10 exC3st 0).2 0).2.activeCtx = exC3st.activeCtx :=
  have h := claim_C3_overlay_roundtrip 10 exC3st 0 [(0, PVal.vInt 7)]
    (by decide) (by rfl) (by decide)
    (fun _ => ⟨rfl, rfl⟩)
    (fun x _ => by
      cases x with
      | zero => rfl
      | succ m => rfl)
    (by
      intro j p hp
      have hnone : (exC3st.ctx j).parent = none := by
        cases j with
        | zero => rfl
        | succ j2 =>
          cases j2 with
          | zero => rfl
          | succ j3 => rfl
      rw [hnone] at hp
      exact absurd hp (by simp))
    (fun x _ _ hx => by
      cases x with
      | zero => exact ⟨2, rfl⟩
      | succ m => exact absurd hx (by simp [exC3st]))
  ⟨by decide, by rfl, h.1, h.2.1, h.2.2.1⟩

end Nodes


